import Mathlib

/-!
# `ircd/ircd_auth.c` — the IAuth client of the IRC server

A shallow embedding of the request table, the line codec, the command
dispatcher, the per-connection operations and the registry operations of
`ircd_auth.c`, followed by the properties proved about them.

Conventions of the embedding.

* A C string is the `List Char` of its bytes before the terminating NUL.
* A `struct Client *` and a `struct IAuthRequest *` are natural numbers
  (addresses); the structs they point to live in the two heaps of `Env`.
* The intrusive doubly linked request list of a connection (sentinel head,
  `iar_prev`/`iar_next`) is the `List Nat` of the addresses of its nodes in
  `iar_next` order.
* The registry, the connections linked by `i_next` from the global
  `iauth_active`, is the `List IAuth` of `World` in `i_next` order.
* Calls into collaborators outside the file (`register_user`, `exit_client`,
  `sendto_opmask_butone`) are appended to `Env.trace` in call order.
* Results of `os_sendv_nonb` are read from the script `Env.sendv`.
* Unsigned machine registers are `Nat` with the reduction modulo `2^16` or
  `2^32` written out where the C code can wrap.
-/

namespace Ircd

/-! ## Constants taken from headers -/

/-- Compile-time constants that `ircd_auth.c` uses but that are defined in
headers outside the file (`MAXPARA`, `BUFSIZE`, the field widths, the read
window) together with the platform constant `ULONG_MAX` of `strtoul`. -/
structure Limits where
  MAXPARA : Nat
  BUFSIZE : Nat
  USERLEN : Nat
  HOSTLEN : Nat
  ACCOUNTLEN : Nat
  PASSWDLEN : Nat
  SERVER_TCP_WINDOW : Nat
  ULONG_MAX : Nat
  deriving DecidableEq

/-- The values the constants traditionally have in this server family (a
32-bit `unsigned long`). -/
def ircu : Limits :=
  { MAXPARA := 15, BUFSIZE := 512, USERLEN := 10, HOSTLEN := 63,
    ACCOUNTLEN := 12, PASSWDLEN := 20, SERVER_TCP_WINDOW := 61440,
    ULONG_MAX := 4294967295 }

/-! ## Bytes and C strings -/

/-- The NUL byte that terminates a C string. -/
def NUL : Char := Char.ofNat 0

/-- Modelled from the spec: `IsEol` (ircd_chattr.h, not part of the file) is
true of the end-of-line bytes, carriage return and line feed. -/
def IsEol (c : Char) : Bool := c = Char.ofNat 10 || c = Char.ofNat 13

/-- Modelled from the spec: `ToLower` of the case-insensitive comparison
(ircd_string.h, not part of the file), on the letters A to Z. -/
def ToLower (c : Char) : Char :=
  if 65 ≤ c.toNat ∧ c.toNat ≤ 90 then Char.ofNat (c.toNat + 32) else c

/-- Modelled from the spec: `ircd_strcmp(a, b) == 0` (ircd_string.c, not part
of the file), the case-insensitive equality used to look up a command. -/
def ircd_strcmp_eq (a b : List Char) : Bool := a.map ToLower = b.map ToLower

/-- Modelled from the spec: `ircd_strncpy(dst, src, n)` (ircd_string.c, not
part of the file) leaves in `dst` the string `src` bounded to `n` bytes. -/
def ircd_strncpy (src : List Char) (n : Nat) : List Char := src.take n

/-- Modelled from the spec: the macro `EmptyString(s)` (ircd_string.h, not
part of the file) for a non-null `s`, "empty required field": the string has
no byte before its NUL. -/
def EmptyString (s : List Char) : Bool := s.isEmpty

/-- The C string that starts at offset `p` of `buf`: the bytes from `p` up to
the first NUL (the end of `buf` stands for the terminator written at the end
of the line). -/
def cstr (buf : List Char) (p : Nat) : List Char :=
  (buf.drop p).takeWhile (fun c => c ≠ NUL)

/-! ## The parameter splitter of `iauth_read` (lines 526 to 541)

The line buffer is kept as a zipper: `done` holds the bytes before `endp`
(with the NULs already written over spaces), `rest` the bytes from `endp` to
the terminator that line 527 wrote at the end of the line. `argv` collects
the offsets stored in `argv[argc++]`. -/

/-- The byte `*endp`; the end of `rest` is the terminating NUL. -/
def deref (rest : List Char) : Char := rest.headD NUL

/-- Lines 529 and 530: `while (*endp == ' ') *endp++ = '\0';`. -/
def blank_spaces (done : List Char) : List Char → List Char × List Char
  | [] => (done, [])
  | c :: rest =>
    if c = ' ' then blank_spaces (done ++ [NUL]) rest else (done, c :: rest)

/-- Line 539: `for (; *endp && *endp != ' '; ++endp) ;`. -/
def skip_param (done : List Char) : List Char → List Char × List Char
  | [] => (done, [])
  | c :: rest =>
    if c ≠ NUL ∧ c ≠ ' ' then skip_param (done ++ [c]) rest else (done, c :: rest)

/-- The loop of lines 528 to 540, one iteration per unit of fuel. It returns
the final buffer and the offsets stored in `argv`, or `none` when the fuel
does not suffice (never the case for fuel above the length of `rest`, see
`split_params_total`). -/
def split_params (MAXPARA : Nat) :
    Nat → List Char → List Char → List Nat → Option (List Char × List Nat)
  | 0, _, _, _ => none
  | fuel + 1, done, rest, argv =>
    if deref rest ≠ NUL ∧ argv.length < MAXPARA then
      let s := blank_spaces done rest
      if deref s.2 = NUL then some (s.1 ++ s.2, argv)
      else if deref s.2 = ':' then some (s.1 ++ s.2, argv ++ [s.1.length + 1])
      else
        let t := skip_param s.1 s.2
        split_params MAXPARA fuel t.1 t.2 (argv ++ [s.1.length])
    else some (done ++ rest, argv)

/-- The argument vector `argv[0..argc-1]` that lines 527 to 541 build from a
completed line, each argument read back as a C string from the buffer. -/
def tokenize (MAXPARA : Nat) (line : List Char) : Option (List (List Char)) :=
  (split_params MAXPARA (line.length + 1) [] line []).map
    (fun r => r.2.map (cstr r.1))

/-! ## Hexadecimal ids -/

/-- The lower-case hexadecimal digit of `d < 16`. -/
def hexdigit (d : Nat) : Char :=
  if d < 10 then Char.ofNat (48 + d) else Char.ofNat (87 + d)

/-- Digits of `n` in base 16, most significant first, `fuel` digits at most. -/
def fmt_x_aux : Nat → Nat → List Char
  | 0, _ => []
  | fuel + 1, n =>
    if n < 16 then [hexdigit n] else fmt_x_aux fuel (n / 16) ++ [hexdigit (n % 16)]

/-- Modelled from the spec: the conversion `%x` of `ircd_snprintf`
(ircd_snprintf.c, not part of the file) applied to the value `n` of an
`unsigned int`, "a hex-encoded correlation id": lower-case hexadecimal
without leading zeros. -/
def fmt_x (n : Nat) : List Char := fmt_x_aux (n + 1) n

/-- The id that lines 678 and 723 print for the client at address `client`:
the pointer is passed to `%x`, which converts an `unsigned int`, so the id
is the hexadecimal of the low 32 bits of the address. -/
def handle_id (client : Nat) : List Char := fmt_x (client % 2 ^ 32)

/-- Modelled from the spec: the conversion `%d` of the formatted notices
(ircd_snprintf.c, not part of the file), the count in decimal. -/
def fmt_d (n : Nat) : List Char := (Nat.repr n).toList

/-- The value of a hexadecimal digit in either case, `none` for other bytes. -/
def hexval (c : Char) : Option Nat :=
  if 48 ≤ c.toNat ∧ c.toNat ≤ 57 then some (c.toNat - 48)
  else if 97 ≤ c.toNat ∧ c.toNat ≤ 102 then some (c.toNat - 87)
  else if 65 ≤ c.toNat ∧ c.toNat ≤ 70 then some (c.toNat - 55)
  else none

/-- The value of the longest run of hexadecimal digits at the start of `s`,
accumulated onto `acc`. -/
def hex_run : List Char → Nat → Nat
  | [], acc => acc
  | c :: cs, acc =>
    match hexval c with
    | some d => hex_run cs (acc * 16 + d)
    | none => acc

/-- White space in the sense of `isspace` in the C locale. -/
def isspace (c : Char) : Bool :=
  c = ' ' || (9 ≤ c.toNat && c.toNat ≤ 13)

/-- The libc call `strtoul(id, NULL, 16)`: leading white space, an optional
sign, an optional `0x` before a digit, then the longest run of hexadecimal
digits; a value above `ULONG_MAX` gives `ULONG_MAX`, a minus sign negates in
`unsigned long`. -/
def strtoul16 (ULONG_MAX : Nat) (id : List Char) : Nat :=
  let s := id.dropWhile isspace
  let neg : Bool := s.head? = some '-'
  let s := if s.head? = some '-' ∨ s.head? = some '+' then s.tail else s
  let s :=
    if s.head? = some '0' ∧ (s.tail.head? = some 'x' ∨ s.tail.head? = some 'X')
        ∧ (s.tail.tail.head?.bind hexval).isSome then s.tail.tail
    else s
  let v := hex_run s 0
  if v > ULONG_MAX then ULONG_MAX
  else if neg then (ULONG_MAX + 1 - v) % (ULONG_MAX + 1)
  else v

/-! ## Data model -/

/-- The fields of `struct Client` (client.h) that the file reads or writes.
`cli_iauth` is the back-pointer to the pending request, `none` for NULL. -/
structure Client where
  cli_name : List Char
  cli_username : List Char
  realusername : List Char
  host : List Char
  account : List Char
  cli_sock_ip : List Char
  cli_passwd : List Char
  cli_info : List Char
  FLAG_ACCOUNT : Bool
  FLAG_IAUTHED : Bool
  cli_iauth : Option Nat
  deriving DecidableEq

/-- The payload of `struct IAuthRequest` (lines 57 to 62); the link fields
`iar_prev` and `iar_next` are the position of the node in its list. -/
structure IAuthRequest where
  iar_client : Nat
  iar_timed : Bool
  deriving DecidableEq

/-- Modelled from the spec: a `struct Timer` (ircd_events.h, not part of the
file) as far as the file looks at it, whether it is armed and when it
expires. -/
structure Timer where
  t_active : Bool
  t_expire : Nat
  deriving DecidableEq

/-- The flag set of lines 65 to 75, one field per `enum IAuthFlag`. -/
structure IAuthFlags where
  IAUTH_BLOCKED : Bool
  IAUTH_CONNECTED : Bool
  IAUTH_ABORT : Bool
  IAUTH_ICLASS : Bool
  IAUTH_CLOSING : Bool
  deriving DecidableEq

/-- Modelled from the spec: the outbound message queue primitive
(`struct MsgQ`, msgq.h, not part of the file). `length` is `MsgQLength`, the
number of queued bytes; `added` lists every line handed to `msgq_add`, oldest
first. -/
structure MsgQ where
  length : Nat
  added : List (List Char)
  deriving DecidableEq

/-- The connection record `struct IAuth` (lines 78 to 99). `i_list_head` is
the request list, `i_buffer` the `i_count` bytes of the partial line; the
socket and the resolved address are outside the model, and `i_next` is the
position of the record in the registry list. -/
structure IAuth where
  i_list_head : List Nat
  i_sendQ : MsgQ
  i_reconn_timer : Timer
  i_request_timer : Timer
  i_flags : IAuthFlags
  i_recvM : Nat
  i_sendM : Nat
  i_recvK : Nat
  i_sendK : Nat
  i_recvB : Nat
  i_sendB : Nat
  i_reconnect : Nat
  i_timeout : Nat
  i_count : Nat
  i_buffer : List Char
  i_passwd : List Char
  i_host : List Char
  i_port : Nat
  deriving DecidableEq

/-- A call into a collaborator outside the file. -/
inductive Ext where
  | register_user (cptr : Nat) (nick : List Char) (username : List Char)
  | exit_client (cptr : Nat) (comment : List Char)
  | protocol_violation (text : List Char)
  deriving DecidableEq

/-- Modelled from the spec: the three results of a nonblocking I/O primitive
(`IOResult`, ircd_osdep.h, not part of the file): failure, "would block",
success. -/
inductive IOResult where
  | IO_FAILURE
  | IO_BLOCKED
  | IO_SUCCESS
  deriving DecidableEq

/-- One answer of `os_sendv_nonb`: its result and the two `unsigned int`
counts it stores. -/
structure SendOutcome where
  iores : IOResult
  bytes_tried : Nat
  bytes_sent : Nat
  deriving DecidableEq

/-- Everything outside the connection record that the operations touch: the
heap of clients, the heap of request nodes, the calls made to collaborators,
the answers `os_sendv_nonb` will give, the clock and the server's own name
`cli_name(&me)`. -/
structure Env where
  clients : Nat → Client
  requests : Nat → IAuthRequest
  trace : List Ext
  sendv : List SendOutcome
  CurrentTime : Nat
  me : List Char

/-- The registry: the connections reachable from the global `iauth_active`
along `i_next` (the head is `iauth_active` itself), with the rest of the
program state. -/
structure World where
  iauth_active : List IAuth
  env : Env

/-! ## Collaborators -/

/-- Record a call into a collaborator. -/
def Env.note (env : Env) (e : Ext) : Env :=
  { env with trace := env.trace ++ [e] }

/-- Store into the client at address `cptr`. -/
def Env.setClient (env : Env) (cptr : Nat) (f : Client → Client) : Env :=
  { env with clients := Function.update env.clients cptr (f (env.clients cptr)) }

/-- Store into the request node at address `iar`. -/
def Env.setRequest (env : Env) (iar : Nat) (f : IAuthRequest → IAuthRequest) : Env :=
  { env with requests := Function.update env.requests iar (f (env.requests iar)) }

/-- The external `register_user(cptr, sptr, nick, username)` with
`sptr = cptr`, as every call in the file has it. -/
def register_user (env : Env) (cptr : Nat) (nick username : List Char) : Env :=
  env.note (Ext.register_user cptr nick username)

/-- The external `exit_client(cptr, cptr, &me, comment)`. -/
def exit_client (env : Env) (cptr : Nat) (comment : List Char) : Env :=
  env.note (Ext.exit_client cptr comment)

/-- Modelled from the spec: the value `CPTR_KILLED` (client.h, not part of
the file) that the external `exit_client` returns for a client that is gone
and that the documentation of `iauth_start_client` names as its result on
an allocation failure. -/
def CPTR_KILLED : Int := -2

/-- Modelled from the spec: `timer_add(timer, cb, data, TT_RELATIVE, value)`
(ircd_events.c, not part of the file) arms the timer at the current time
plus `value`. -/
def timer_add (now value : Nat) : Timer := { t_active := true, t_expire := now + value }

/-- Modelled from the spec: `timer_chg(timer, TT_RELATIVE, value)`
(ircd_events.c, not part of the file) "adjusts its expiry rather than
creating a duplicate". -/
def timer_chg (t : Timer) (now value : Nat) : Timer := { t with t_expire := now + value }

/-- Modelled from the spec: `timer_del(timer)` (ircd_events.c, not part of
the file) cancels the timer. -/
def timer_del (t : Timer) : Timer := { t with t_active := false }

/-- Modelled from the spec: `t_onqueue(timer)` (ircd_events.h, not part of
the file), whether the timer is pending. -/
def t_onqueue (t : Timer) : Bool := t.t_active

/-- Modelled from the spec: `msgq_add(mq, mb, 0)` of the outbound message
queue primitive (msgq.c, not part of the file): the line and its two
end-of-line bytes join the queue. -/
def msgq_add (mq : MsgQ) (line : List Char) : MsgQ :=
  { length := mq.length + (line.length + 2), added := mq.added ++ [line] }

/-- Modelled from the spec: `msgq_delete(mq, n)` of the outbound message
queue primitive (msgq.c, not part of the file): `n` bytes leave the queue. -/
def msgq_delete (mq : MsgQ) (n : Nat) : MsgQ := { mq with length := mq.length - n }

/-! ## Operations of the file -/

/-- Lines 346 to 356, `iauth_send`, applied to the formatted line. -/
def iauth_send (iauth : IAuth) (line : List Char) : IAuth :=
  { iauth with i_sendQ := msgq_add iauth.i_sendQ line }

/-- Lines 362 to 371, `iauth_protocol_violation`, applied to the formatted
message: one notice to the operators. -/
def iauth_protocol_violation (env : Env) (text : List Char) : Env :=
  env.note (Ext.protocol_violation ("IAuth protocol violation: ".toList ++ text))

/-- Lines 398 to 403, `iauth_disconnect`: the socket is closed and the
connected flag cleared. -/
def iauth_disconnect (iauth : IAuth) : IAuth :=
  { iauth with i_flags := { iauth.i_flags with IAUTH_CONNECTED := false } }

/-- Lines 436 to 445, `iauth_schedule_reconnect`. -/
def iauth_schedule_reconnect (now : Nat) (iauth : IAuth) : IAuth :=
  if t_onqueue iauth.i_reconn_timer then
    { iauth with i_reconn_timer := timer_chg iauth.i_reconn_timer now iauth.i_reconnect }
  else
    { iauth with i_reconn_timer := timer_add now iauth.i_reconnect }

/-- How far a connection attempt of `iauth_reconnect` gets: a host lookup is
started (line 464), no socket can be opened (line 470), one of the later
steps fails (label `failure`), or the socket is registered (line 489). -/
inductive ConnectAttempt where
  | lookup
  | no_socket
  | failure
  | started
  deriving DecidableEq

/-- Lines 450 to 495, `iauth_reconnect`. -/
def iauth_reconnect (now : Nat) (attempt : ConnectAttempt) (iauth : IAuth) : IAuth :=
  if iauth.i_flags.IAUTH_CONNECTED then
    iauth_schedule_reconnect now (iauth_disconnect iauth)
  else
    match attempt with
    | ConnectAttempt.lookup => iauth
    | ConnectAttempt.no_socket => iauth_schedule_reconnect now iauth
    | ConnectAttempt.failure => iauth_schedule_reconnect now (iauth_disconnect iauth)
    | ConnectAttempt.started => iauth

/-- Lines 578 to 582: the sent-bytes registers after `bytes_sent` more bytes
(`i_sendB` is an `unsigned short`, `i_sendK` an `unsigned int`). -/
def count_sent (iauth : IAuth) (bytes_sent : Nat) : IAuth :=
  let b := (iauth.i_sendB + bytes_sent) % 2 ^ 16
  if b > 1023 then
    { iauth with i_sendK := (iauth.i_sendK + (b >>> 10)) % 2 ^ 32, i_sendB := b &&& 1023 }
  else
    { iauth with i_sendB := b }

/-- Lines 573 to 594, the loop of `iauth_write`, one answer of
`os_sendv_nonb` per iteration. When the script of answers is used up the
socket takes no more data (`IO_BLOCKED`). -/
def iauth_write_loop : List SendOutcome → IAuth → IAuth × List SendOutcome
  | [], iauth =>
    if iauth.i_sendQ.length > 0 then
      ({ iauth with i_flags := { iauth.i_flags with IAUTH_BLOCKED := true } }, [])
    else (iauth, [])
  | o :: os, iauth =>
    if iauth.i_sendQ.length > 0 then
      match o.iores with
      | IOResult.IO_SUCCESS =>
        let sent := count_sent { iauth with i_sendQ := msgq_delete iauth.i_sendQ o.bytes_sent }
          o.bytes_sent
        if o.bytes_tried = o.bytes_sent then iauth_write_loop os sent
        else ({ sent with i_flags := { sent.i_flags with IAUTH_BLOCKED := true } }, os)
      | IOResult.IO_BLOCKED =>
        ({ iauth with i_flags := { iauth.i_flags with IAUTH_BLOCKED := true } }, os)
      | IOResult.IO_FAILURE => (iauth_disconnect iauth, os)
    else (iauth, o :: os)

/-- Lines 566 to 597, `iauth_write`. -/
def iauth_write (iauth : IAuth) (env : Env) : IAuth × Env :=
  if iauth.i_flags.IAUTH_BLOCKED then (iauth, env)
  else
    let r := iauth_write_loop env.sendv iauth
    (r.1, { env with sendv := r.2 })

/-- The line of lines 678 to 681 for the client at address `client`. -/
def fullauth_line (env : Env) (client : Nat) : List Char :=
  let c := env.clients client
  "FullAuth ".toList ++ handle_id client ++ [' '] ++ c.cli_name ++ [' '] ++ c.cli_username
    ++ [' '] ++ c.host ++ [' '] ++ c.cli_sock_ip ++ [' '] ++ c.cli_passwd
    ++ [' ', ':'] ++ c.cli_info

/-- Lines 657 to 685, `iauth_send_request`, for the request node at address
`iar`. -/
def iauth_send_request (iauth : IAuth) (iar : Nat) (env : Env) : IAuth × Env :=
  if !iauth.i_flags.IAUTH_CONNECTED then (iauth, env)
  else
    let armed := iauth.i_request_timer.t_active
    let iauth :=
      if !armed then
        { iauth with i_request_timer := timer_add env.CurrentTime iauth.i_timeout }
      else iauth
    let env := env.setRequest iar (fun r => { r with iar_timed := !armed })
    let client := (env.requests iar).iar_client
    iauth_write (iauth_send iauth (fullauth_line env client)) env

/-- Lines 692 to 710, `iauth_start_client`. `alloc` is the result of
`MyCalloc`: `none` for NULL, otherwise the address of the zeroed node. -/
def iauth_start_client (iauth : IAuth) (cptr : Nat) (alloc : Option Nat) (env : Env) :
    Int × IAuth × Env :=
  match alloc with
  | none => (CPTR_KILLED, iauth, exit_client env cptr "IAuth memory allocation failed".toList)
  | some iar =>
    let zeroed : IAuthRequest := { iar_client := 0, iar_timed := false }
    let env := { env with requests := Function.update env.requests iar zeroed }
    let env := env.setClient cptr (fun c => { c with cli_iauth := some iar })
    let env := env.setRequest iar (fun r => { r with iar_client := cptr })
    let iauth := { iauth with i_list_head := iauth.i_list_head ++ [iar] }
    let r := iauth_send_request iauth iar env
    (0, r.1, r.2)

/-- Lines 758 and 759: the node at address `iar` is taken out of the list
that holds it. -/
def unlink (iar : Nat) (list : List Nat) : List Nat := list.erase iar

/-- Lines 752 to 761, `iauth_dispose_request`, for a node on the list of
`iauth`. -/
def iauth_dispose_request (iauth : IAuth) (iar : Nat) (env : Env) : IAuth × Env :=
  let r := env.requests iar
  let iauth :=
    if r.iar_timed && iauth.i_request_timer.t_active then
      { iauth with i_request_timer := timer_del iauth.i_request_timer }
    else iauth
  let env := env.setClient r.iar_client (fun c => { c with cli_iauth := none })
  ({ iauth with i_list_head := unlink iar iauth.i_list_head }, env)

/-- Lines 733 to 746, `iauth_find_request`: the first node of the list whose
client is the one the id names, `none` for NULL. -/
def iauth_find_request (lim : Limits) (iauth : IAuth) (id : List Char) (env : Env) :
    Option Nat :=
  let target := strtoul16 lim.ULONG_MAX id
  iauth.i_list_head.find? (fun curr => (env.requests curr).iar_client = target)

/-- Lines 716 to 726, `iauth_exit_client`. The disposal of line 719 names
the active connection; the node is unlinked from whichever list holds it.
With no active connection the timer test of line 755 reads through a null
pointer when the node is timed, which is `none`. -/
def iauth_exit_client (w : World) (cptr : Nat) : Option World :=
  let clear : Client → Client := fun c => { c with cli_iauth := none }
  let disposed : Option World :=
    match (w.env.clients cptr).cli_iauth with
    | none => some w
    | some iar =>
      match w.iauth_active with
      | [] =>
        if (w.env.requests iar).iar_timed then none
        else
          let client := (w.env.requests iar).iar_client
          some { w with env := (w.env.setClient client clear).setClient cptr clear }
      | active :: others =>
        let r := iauth_dispose_request active iar w.env
        let others := others.map
          (fun c => { c with i_list_head := unlink iar c.i_list_head })
        some { iauth_active := r.1 :: others, env := r.2.setClient cptr clear }
  disposed.map (fun w =>
    match w.iauth_active with
    | [] => w
    | active :: others =>
      if active.i_flags.IAUTH_CONNECTED then
        let r := iauth_write (iauth_send active ("ExitUser ".toList ++ handle_id cptr)) w.env
        { iauth_active := r.1 :: others, env := r.2 }
      else w)

/-- Lines 769 to 804, `iauth_cmd_doneauth`; `argc` is the length of `argv`. -/
def iauth_cmd_doneauth (lim : Limits) (iauth : IAuth) (argv : List (List Char))
    (env : Env) : IAuth × Env :=
  if argv.length < 5 then
    (iauth, iauth_protocol_violation env
      ("Only ".toList ++ fmt_d argv.length ++ " parameters for DoneAuth (expected >=5)".toList))
  else
    let id := argv.getD 1 []
    let username := argv.getD 2 []
    let hostname := argv.getD 3 []
    let account : Option (List Char) := if argv.length > 5 then some (argv.getD 5 []) else none
    match iauth_find_request lim iauth id env with
    | none =>
      (iauth, iauth_protocol_violation env ("Got unexpected DoneAuth for id ".toList ++ id))
    | some iar =>
      let client := (env.requests iar).iar_client
      let env := env.setClient client (fun c =>
        { c with cli_username := ircd_strncpy username lim.USERLEN })
      let env := env.setClient client (fun c =>
        { c with realusername := ircd_strncpy username lim.USERLEN })
      let env := env.setClient client (fun c =>
        { c with host := ircd_strncpy hostname lim.HOSTLEN })
      let env :=
        match account with
        | some a => env.setClient client (fun c =>
            { c with account := ircd_strncpy a lim.ACCOUNTLEN, FLAG_ACCOUNT := true })
        | none => env
      let env := env.setClient client (fun c => { c with FLAG_IAUTHED := true })
      let r := iauth_dispose_request iauth iar env
      (r.1, register_user r.2 client (r.2.clients client).cli_name username)

/-- Lines 812 to 837, `iauth_cmd_badauth`; `argc` is the length of `argv`. -/
def iauth_cmd_badauth (_lim : Limits) (iauth : IAuth) (argv : List (List Char))
    (env : Env) : IAuth × Env :=
  if argv.length < 3 then
    (iauth, iauth_protocol_violation env
      ("Only ".toList ++ fmt_d argv.length ++ " parameters for BadAuth (expected >=3)".toList))
  else
    let id := argv.getD 1 []
    let reason := argv.getD 2 []
    if EmptyString reason then
      (iauth, iauth_protocol_violation env ("Empty BadAuth reason for id ".toList ++ id))
    else
      match iauth_find_request _lim iauth id env with
      | none =>
        (iauth, iauth_protocol_violation env ("Got unexpected BadAuth for id ".toList ++ id))
      | some iar =>
        let client := (env.requests iar).iar_client
        let r := iauth_dispose_request iauth iar env
        (r.1, exit_client r.2 client reason)

/-- An entry of the command table (lines 184 to 187). -/
structure IAuthCmd where
  iac_name : List Char
  iac_func : Limits → IAuth → List (List Char) → Env → IAuth × Env

/-- The command table of lines 202 to 206, without its NULL terminator. -/
def iauth_cmdtab : List IAuthCmd :=
  [ { iac_name := "DoneAuth".toList, iac_func := iauth_cmd_doneauth },
    { iac_name := "BadAuth".toList, iac_func := iauth_cmd_badauth } ]

/-- Lines 546 to 555: look the command up and dispatch it. -/
def iauth_dispatch (lim : Limits) (iauth : IAuth) (argv : List (List Char)) (env : Env) :
    IAuth × Env :=
  if argv.length > 0 then
    match iauth_cmdtab.find? (fun e => ircd_strcmp_eq e.iac_name (argv.headD [])) with
    | some e =>
      let r := e.iac_func lim iauth argv env
      (if r.1.i_flags.IAUTH_ABORT then iauth_disconnect r.1 else r.1, r.2)
    | none => (iauth, env)
  else (iauth, env)

/-- Lines 376 to 393, `iauth_on_connect`. -/
def iauth_on_connect (iauth : IAuth) (env : Env) : IAuth × Env :=
  let iauth :=
    if EmptyString iauth.i_passwd then iauth_send iauth ("Server ".toList ++ env.me)
    else iauth_send iauth ("Server ".toList ++ env.me ++ [' '] ++ iauth.i_passwd)
  let iauth := if iauth.i_flags.IAUTH_ICLASS then iauth_send iauth "EndUsers".toList else iauth
  let iauth := { iauth with i_flags := { iauth.i_flags with IAUTH_CONNECTED := true } }
  let r := iauth.i_list_head.foldl (fun s iar => iauth_send_request s.1 iar s.2) (iauth, env)
  iauth_write r.1 r.2

/-- Lines 513 to 517: the received-bytes registers after `length` more bytes
(`i_recvB` is an `unsigned short`, `i_recvK` an `unsigned int`). -/
def count_received (iauth : IAuth) (length : Nat) : IAuth :=
  let b := (iauth.i_recvB + length) % 2 ^ 16
  if b > 1023 then
    { iauth with i_recvK := (iauth.i_recvK + (b >>> 10)) % 2 ^ 32, i_recvB := b &&& 1023 }
  else
    { iauth with i_recvB := b }

/-- The loop of lines 520 to 559 over the bytes of `readbuf`; `line` holds
the bytes of the buffer before `endp`. The result is `none` only if the
splitter runs out of fuel. -/
def iauth_read_loop (lim : Limits) :
    List Char → List Char → IAuth → Env → Option (List Char × IAuth × Env)
  | [], line, iauth, env => some (line, iauth, env)
  | c :: src, line, iauth, env =>
    if IsEol c then
      if line.isEmpty then iauth_read_loop lim src line iauth env
      else
        match tokenize lim.MAXPARA line with
        | none => none
        | some argv =>
          let counted := { iauth with i_recvM := (iauth.i_recvM + 1) % 2 ^ 32 }
          let r := iauth_dispatch lim counted argv env
          iauth_read_loop lim src [] r.1 r.2
    else if line.length < lim.BUFSIZE then iauth_read_loop lim src (line ++ [c]) iauth env
    else iauth_read_loop lim src line iauth env

/-- Lines 501 to 561, `iauth_read`. `iores` and `data` are what
`os_recv_nonb` answers (it stores at most `SERVER_TCP_WINDOW` bytes, and a
length only on success); `attempt` is the fate of the connection attempt
should the read lead to a reconnect. -/
def iauth_read (lim : Limits) (iores : IOResult) (data : List Char)
    (attempt : ConnectAttempt) (iauth : IAuth) (env : Env) : Option (IAuth × Env) :=
  let readbuf := if iores = IOResult.IO_SUCCESS then data.take lim.SERVER_TCP_WINDOW else []
  if iores = IOResult.IO_FAILURE ∨ readbuf.length = 0 then
    some (iauth_reconnect env.CurrentTime attempt iauth, env)
  else
    (iauth_read_loop lim readbuf (iauth.i_buffer.take iauth.i_count)
        (count_received iauth readbuf.length) env).map
      (fun r => ({ r.2.1 with i_count := r.1.length, i_buffer := r.1 }, r.2.2))

/-! ## Reference descriptions used in the statements -/

/-- What the splitter computes on a line without NUL bytes, said directly on
the text: `rest` is the unread part of the line, `argc` the number of
arguments found so far. -/
def params (M : Nat) : Nat → List Char → Nat → List (List Char)
  | 0, _, _ => []
  | fuel + 1, rest, argc =>
    if rest ≠ [] ∧ argc < M then
      let r := rest.dropWhile (fun c => c = ' ')
      if r = [] then []
      else if r.head? = some ':' then [r.tail]
      else
        let r' := r.dropWhile (fun c => c ≠ NUL ∧ c ≠ ' ')
        if r' ≠ [] ∧ argc + 1 < M then
          r.takeWhile (fun c => c ≠ NUL ∧ c ≠ ' ') :: params M fuel r' (argc + 1)
        else [r]
    else []

/-- A run of `n` spaces. -/
def spaces (n : Nat) : List Char := List.replicate n ' '

/-- A parameter that the splitter takes as one plain token: not empty, free
of spaces and NUL bytes, not starting with a colon. -/
def plain_param (p : List Char) : Prop :=
  p ≠ [] ∧ ' ' ∉ p ∧ NUL ∉ p ∧ p.head? ≠ some ':'

instance (p : List Char) : Decidable (plain_param p) := by
  unfold plain_param
  exact inferInstance

/-- The text made of the parameters of `ps` in order, each followed by a run
of one or more spaces: `(p, n)` is `p` followed by `n + 1` spaces. -/
def words : List (List Char × Nat) → List Char
  | [] => []
  | (p, n) :: ps => p ++ spaces (n + 1) ++ words ps

/-- The line that carries the arguments `args` in the shape of the format
strings of the file (line 678): the arguments joined by single spaces, the
last one prefixed by a colon. -/
def serialize (args : List (List Char)) : List Char :=
  words (args.dropLast.map (fun p => (p, 0))) ++ ':' :: args.getLastD []

/-! ## The states of the end-to-end scenarios of the specification -/

/-- The client "alice" of scenario S1, with `req` as its request back-pointer. -/
def S1_client (req : Option Nat) : Client :=
  { cli_name := "alice".toList, cli_username := "u".toList, realusername := [],
    host := "h".toList, account := [], cli_sock_ip := "1.2.3.4".toList,
    cli_passwd := "p".toList, cli_info := "real name".toList,
    FLAG_ACCOUNT := false, FLAG_IAUTHED := false, cli_iauth := req }

/-- The connection of scenario S1 after `iauth_connect("a.example", 9000, "",
60, 30)`, holding the requests `list`, with the connected flag `connected`
and the request timer armed or not as `armed` says. -/
def S1_conn (list : List Nat) (connected armed : Bool) : IAuth :=
  { i_list_head := list, i_sendQ := { length := 0, added := [] },
    i_reconn_timer := { t_active := false, t_expire := 0 },
    i_request_timer := { t_active := armed, t_expire := 1030 },
    i_flags := { IAUTH_BLOCKED := false, IAUTH_CONNECTED := connected, IAUTH_ABORT := false,
                 IAUTH_ICLASS := true, IAUTH_CLOSING := false },
    i_recvM := 0, i_sendM := 0, i_recvK := 0, i_sendK := 0, i_recvB := 0, i_sendB := 0,
    i_reconnect := 60, i_timeout := 30, i_count := 0, i_buffer := [], i_passwd := [],
    i_host := "a.example".toList, i_port := 9000 }

/-- The environment of scenario S1: every client is "alice", the client with
handle `ff00` (65280) has the request node at address 7 when `pending` is
set, that node is the one that armed the timer, the server is `srv1`, and
`os_sendv_nonb` will answer as `sendv` says. -/
def S1_env (pending : Bool) (sendv : List SendOutcome) : Env :=
  { clients := fun c => S1_client (if pending ∧ c = 65280 then some 7 else none),
    requests := fun _ => { iar_client := 65280, iar_timed := true },
    trace := [], sendv := sendv, CurrentTime := 1000, me := "srv1".toList }

/-- The answer of `os_sendv_nonb` that sends all `n` queued bytes. -/
def sent_all (n : Nat) : SendOutcome :=
  { iores := IOResult.IO_SUCCESS, bytes_tried := n, bytes_sent := n }

/-- What `iauth_write` may change of a connection: the queued byte count,
the sent-bytes registers and the blocked and connected flags. -/
def write_frame (a b : IAuth) : Prop :=
  b = { a with i_sendQ := { a.i_sendQ with length := b.i_sendQ.length },
               i_sendB := b.i_sendB, i_sendK := b.i_sendK,
               i_flags := { a.i_flags with IAUTH_BLOCKED := b.i_flags.IAUTH_BLOCKED,
                                           IAUTH_CONNECTED := b.i_flags.IAUTH_CONNECTED } }

/-- Whether the first word of `argv` is a command of `iauth_cmdtab` (lines
547 and 548). -/
def known_command (argv : List (List Char)) : Bool :=
  iauth_cmdtab.any (fun e => ircd_strcmp_eq e.iac_name (argv.headD []))

/-- The lines that are not accepted: the first word is no command of the
table, or it is `DoneAuth` with fewer than five words or an id that names no
listed request, or it is `BadAuth` with fewer than three words, an empty
reason or an id that names no listed request. -/
def rejected (lim : Limits) (iauth : IAuth) (argv : List (List Char)) (env : Env) : Prop :=
  known_command argv = false
  ∨ (ircd_strcmp_eq "DoneAuth".toList (argv.headD []) = true
      ∧ (argv.length < 5 ∨ iauth_find_request lim iauth (argv.getD 1 []) env = none))
  ∨ (ircd_strcmp_eq "BadAuth".toList (argv.headD []) = true
      ∧ (argv.length < 3 ∨ argv.getD 2 [] = []
          ∨ iauth_find_request lim iauth (argv.getD 1 []) env = none))

/-! ## The registry operations -/

/-- Modelled from the spec: `ircd_strncmp(a, b, n) == 0` (ircd_string.c, not
part of the file), equality "compared case-insensitively" over the first `n`
bytes. -/
def ircd_strncmp_eq (a b : List Char) (n : Nat) : Bool :=
  (a.take n).map ToLower = (b.take n).map ToLower

/-- The record that `MyCalloc(1, sizeof(struct IAuth))` returns, every field
zero, after lines 238 to 246 have set up the empty request list, the empty
queue, the host name, the port, the idle reconnect timer and the reconnect
delay. -/
def iauth_alloc (lim : Limits) (host : List Char) (port reconnect : Nat) : IAuth :=
  { i_list_head := [], i_sendQ := { length := 0, added := [] },
    i_reconn_timer := { t_active := false, t_expire := 0 },
    i_request_timer := { t_active := false, t_expire := 0 },
    i_flags := { IAUTH_BLOCKED := false, IAUTH_CONNECTED := false, IAUTH_ABORT := false,
                 IAUTH_ICLASS := false, IAUTH_CLOSING := false },
    i_recvM := 0, i_sendM := 0, i_recvK := 0, i_sendK := 0, i_recvB := 0, i_sendB := 0,
    i_reconnect := reconnect, i_timeout := 0, i_count := 0, i_buffer := [], i_passwd := [],
    i_host := ircd_strncpy host lim.HOSTLEN, i_port := port }

/-- Lines 226 to 229: what `iauth_connect` does to the connection it found. -/
def iauth_connect_update (now reconnect : Nat) (iauth : IAuth) : IAuth :=
  let cleared := { iauth with i_flags := { iauth.i_flags with IAUTH_CLOSING := false } }
  let updated := { cleared with i_reconnect := reconnect }
  if updated.i_reconn_timer.t_active ∧ updated.i_reconn_timer.t_expire > now + reconnect then
    { updated with i_reconn_timer := timer_chg updated.i_reconn_timer now reconnect }
  else updated

/-- Lines 249 to 254: the password, bounded to `PASSWDLEN` or emptied for a
null `passwd`, the request timeout and the announce flag. -/
def iauth_connect_finish (lim : Limits) (passwd : Option (List Char)) (timeout : Nat)
    (iauth : IAuth) : IAuth :=
  let stored : List Char :=
    match passwd with
    | some p => ircd_strncpy p lim.PASSWDLEN
    | none => []
  let flags : IAuthFlags := { iauth.i_flags with IAUTH_ICLASS := true }
  { iauth with i_passwd := stored, i_timeout := timeout, i_flags := flags }

/-- The test of lines 224 and 225: the stored host name equals `host` up to
case over `HOSTLEN` bytes and the port is `port`. -/
def same_server (lim : Limits) (host : List Char) (port : Nat) (c : IAuth) : Bool :=
  ircd_strncmp_eq c.i_host host lim.HOSTLEN && c.i_port = port

/-- Lines 219 to 256, `iauth_connect`. The result is the registry afterwards
and the position in it of the connection returned. The loop of lines 223 to
232 stops at the first connection whose host and port match. A new record
comes zeroed from `MyCalloc`, so its `i_next` is NULL, and line 244 makes it
`iauth_active`: the registry reachable from `iauth_active` is then the new
record alone. `attempt` is the fate of the connection attempt of line 247. -/
def iauth_connect (lim : Limits) (host : List Char) (port : Nat) (passwd : Option (List Char))
    (reconnect timeout : Nat) (attempt : ConnectAttempt) (w : World) : World × Nat :=
  let found := w.iauth_active.findIdx? (same_server lim host port)
  match found with
  | some i =>
    let update := fun c =>
      iauth_connect_finish lim passwd timeout (iauth_connect_update w.env.CurrentTime reconnect c)
    ({ w with iauth_active := w.iauth_active.modify update i }, i)
  | none =>
    let fresh := iauth_reconnect w.env.CurrentTime attempt (iauth_alloc lim host port reconnect)
    ({ w with iauth_active := [iauth_connect_finish lim passwd timeout fresh] }, 0)

/-- Lines 259 to 264, `iauth_mark_closing`. -/
def iauth_mark_closing (w : World) : World :=
  let mark := fun (c : IAuth) => { c with i_flags := { c.i_flags with IAUTH_CLOSING := true } }
  { w with iauth_active := w.iauth_active.map mark }

/-- Lines 298 to 303, the loop that approves the requests of a connection
being closed when there is no connection to take them; each pass takes the
node at the head of the list, and `fuel` bounds the passes (the length of the
list suffices, every pass unlinks one node). -/
def iauth_close_approve (lim : Limits) : Nat → IAuth → Env → IAuth × Env
  | 0, iauth, env => (iauth, env)
  | fuel + 1, iauth, env =>
    match iauth.i_list_head with
    | [] => (iauth, env)
    | iar :: _ =>
      let client := (env.requests iar).iar_client
      let copied := env.setClient client
        (fun c => { c with realusername := ircd_strncpy c.cli_username lim.USERLEN })
      let r := iauth_dispose_request iauth iar copied
      let registered := register_user r.2 client (r.2.clients client).cli_name
        (r.2.clients client).cli_username
      iauth_close_approve lim fuel r.1 registered

/-- Lines 290 to 295: the loop that sends the spliced requests on the
target unless the target is closing. -/
def iauth_close_send (list : List Nat) (target : IAuth) (env : Env) : IAuth × Env :=
  list.foldl
    (fun s iar => if !s.1.i_flags.IAUTH_CLOSING then iauth_send_request s.1 iar s.2 else s)
    (target, env)

/-- Lines 269 to 319, `iauth_close`, for a connection already taken out of
the registry `w`. The target of line 279 is `iauth_active`, the head of the
registry; with `iauth_active` NULL the requests are approved (for a
connection unlinked by `iauth_close_unused`, `i_next` is NULL whenever
`iauth_active` is). Lines 306 to 318 empty, stop and free the closed record,
which leaves the model with it. -/
def iauth_close (lim : Limits) (iauth : IAuth) (w : World) : World :=
  if iauth.i_list_head.isEmpty then w
  else
    match w.iauth_active with
    | target :: others =>
      let spliced := { target with i_list_head := target.i_list_head ++ iauth.i_list_head }
      let r := iauth_close_send iauth.i_list_head spliced w.env
      { iauth_active := r.1 :: others, env := r.2 }
    | [] =>
      { w with env := (iauth_close_approve lim iauth.i_list_head.length iauth w.env).2 }

/-- The loop of lines 326 to 339: `i` is the position of `iauth` in the
registry (`prev` is the connection before it), one connection is visited per
unit of fuel. Unlinking (lines 330 to 333) erases position `i`. -/
def iauth_close_unused_loop (lim : Limits) : Nat → Nat → World → World
  | 0, _, w => w
  | fuel + 1, i, w =>
    match w.iauth_active.get? i with
    | none => w
    | some iauth =>
      if iauth.i_flags.IAUTH_CLOSING then
        iauth_close_unused_loop lim fuel i
          (iauth_close lim iauth { w with iauth_active := w.iauth_active.eraseIdx i })
      else iauth_close_unused_loop lim fuel (i + 1) w

/-- Lines 322 to 340, `iauth_close_unused`. -/
def iauth_close_unused (lim : Limits) (w : World) : World :=
  iauth_close_unused_loop lim w.iauth_active.length 0 w

/-- Modelled from the spec: the events that the event loop delivers
(`enum EventType`, ircd_events.h, not part of the file), "connect, read,
write, error, eof, destroy, timer-expire". -/
inductive EventType where
  | ET_CONNECT
  | ET_DESTROY
  | ET_READ
  | ET_WRITE
  | ET_ERROR
  | ET_EOF
  | ET_EXPIRE
  deriving DecidableEq

/-- Lines 427 to 431, `iauth_reconnect_ev`, the callback of the reconnect
timer. -/
def iauth_reconnect_ev (ev : EventType) (attempt : ConnectAttempt) (iauth : IAuth)
    (env : Env) : IAuth :=
  if ev = EventType.ET_EXPIRE then iauth_reconnect env.CurrentTime attempt iauth else iauth

/-- Lines 644 to 651, `iauth_request_ev`, the callback of the request
timer. -/
def iauth_request_ev (ev : EventType) (attempt : ConnectAttempt) (iauth : IAuth)
    (env : Env) : IAuth :=
  if ev = EventType.ET_EXPIRE then iauth_reconnect env.CurrentTime attempt iauth else iauth

/-- Lines 602 to 637, `iauth_sock_callback`, on the connection the socket
belongs to. `iores` and `data` are what `os_recv_nonb` answers to a read,
`attempt` the fate of a connection attempt the event may lead to. An event
of another type runs into the `assert(0)` of line 634, which is `none`. -/
def iauth_sock_callback (lim : Limits) (ev : EventType) (iores : IOResult) (data : List Char)
    (attempt : ConnectAttempt) (iauth : IAuth) (env : Env) : Option (IAuth × Env) :=
  match ev with
  | EventType.ET_CONNECT => some (iauth_on_connect iauth env)
  | EventType.ET_DESTROY =>
    if !iauth.i_flags.IAUTH_CLOSING then some (iauth_schedule_reconnect env.CurrentTime iauth, env)
    else some (iauth, env)
  | EventType.ET_READ => iauth_read lim iores data attempt iauth env
  | EventType.ET_WRITE =>
    some (iauth_write { iauth with i_flags := { iauth.i_flags with IAUTH_BLOCKED := false } } env)
  | EventType.ET_ERROR =>
    some (iauth_schedule_reconnect env.CurrentTime (iauth_disconnect iauth), env)
  | EventType.ET_EOF =>
    some (iauth_schedule_reconnect env.CurrentTime (iauth_disconnect iauth), env)
  | EventType.ET_EXPIRE => none

/-- The number of end-of-line bytes of `chunk` that arrive while the line
buffer holds at least one byte; `held` says whether it does at the start. -/
def completed_lines : List Char → Bool → Nat
  | [], _ => 0
  | c :: cs, held =>
    if IsEol c then (if held then 1 else 0) + completed_lines cs false
    else completed_lines cs true

/-- The requests on the lists of the connections of a registry, connection
after connection, each list in its order. -/
def registry_requests (registry : List IAuth) : List Nat :=
  registry.flatMap (fun c => c.i_list_head)

/-- The record `c'` is the connection `c` later on: the same host and port,
and a request list that starts with the list `c` had. -/
def survives (c c' : IAuth) : Prop :=
  c'.i_host = c.i_host ∧ c'.i_port = c.i_port
    ∧ ∃ extra : List Nat, c'.i_list_head = c.i_list_head ++ extra

/-- The `register_user` call that approves the request `iar`. -/
def approval (env : Env) (iar : Nat) : Ext :=
  Ext.register_user (env.requests iar).iar_client
    (env.clients (env.requests iar).iar_client).cli_name
    (env.clients (env.requests iar).iar_client).cli_username

/-- Modelled from the spec: a relative timer that the event loop reports as
expired (`ET_EXPIRE`, ircd_events.c, not part of the file) is no longer
pending, "the timer is rearmed only when a new request is sent while no timer
is active". -/
def timer_fired (t : Timer) : Timer := { t with t_active := false }

/-- A run through the public operations and the event handlers, from the
empty registry: `iauth_connect("a.example", 9000, NULL, 5, 30)` at time 1000,
the connect-complete event, `iauth_start_client` for the client `ff00` with
the request node at address 7, the end-of-file event, the expiry of the
reconnect timer at time 1005 and the connect-complete event of the new
attempt. Every send succeeds in full. -/
def reconnect_run : Option World :=
  let w0 : World :=
    { iauth_active := [], env := S1_env false [sent_all 23, sent_all 46, sent_all 69] }
  let w1 := (iauth_connect ircu "a.example".toList 9000 none 5 30 ConnectAttempt.started w0).1
  match w1.iauth_active with
  | [created] =>
    (iauth_sock_callback ircu EventType.ET_CONNECT IOResult.IO_SUCCESS []
        ConnectAttempt.started created w1.env).bind fun connected =>
    let started := iauth_start_client connected.1 65280 (some 7) connected.2
    (iauth_sock_callback ircu EventType.ET_EOF IOResult.IO_SUCCESS []
        ConnectAttempt.started started.2.1 started.2.2).bind fun lost =>
    let later : Env := { lost.2 with CurrentTime := 1005 }
    let expired : IAuth := { lost.1 with i_reconn_timer := timer_fired lost.1.i_reconn_timer }
    let retried := iauth_reconnect_ev EventType.ET_EXPIRE ConnectAttempt.started expired later
    (iauth_sock_callback ircu EventType.ET_CONNECT IOResult.IO_SUCCESS []
        ConnectAttempt.started retried later).map fun again =>
    { iauth_active := [again.1], env := again.2 }
  | _ => none

/-- The same run up to and including `iauth_start_client`. -/
def reconnect_run_start : Option World :=
  let w0 : World :=
    { iauth_active := [], env := S1_env false [sent_all 23, sent_all 46, sent_all 69] }
  let w1 := (iauth_connect ircu "a.example".toList 9000 none 5 30 ConnectAttempt.started w0).1
  match w1.iauth_active with
  | [created] =>
    (iauth_sock_callback ircu EventType.ET_CONNECT IOResult.IO_SUCCESS []
        ConnectAttempt.started created w1.env).map fun connected =>
    let started := iauth_start_client connected.1 65280 (some 7) connected.2
    { iauth_active := [started.2.1], env := started.2.2 }
  | _ => none

/-- For each connection of the registry: whether its request timer is armed,
its request list, and the requests of the list whose arming flag is set. -/
def timer_owners (w : World) : List (Bool × List Nat × List Nat) :=
  w.iauth_active.map (fun c =>
    (c.i_request_timer.t_active, c.i_list_head,
      c.i_list_head.filter (fun iar => (w.env.requests iar).iar_timed)))

/-- The connection `dst` with the byte registers, the sent-message counter
and the line buffer of `src`: the fields that the command handlers neither
read nor write. -/
def copy_registers (src dst : IAuth) : IAuth :=
  { dst with i_recvK := src.i_recvK, i_recvB := src.i_recvB, i_sendM := src.i_sendM,
             i_sendK := src.i_sendK, i_sendB := src.i_sendB, i_count := src.i_count,
             i_buffer := src.i_buffer }

/-- The argument vectors that the loop of `iauth_read` hands to the
dispatcher while it goes through `chunk` with `line` buffered, in order, and
the line left in the buffer at the end. -/
def read_lines (lim : Limits) : List Char → List Char → List (List (List Char)) × List Char
  | [], line => ([], line)
  | c :: src, line =>
    if IsEol c then
      if line.isEmpty then read_lines lim src line
      else
        let r := read_lines lim src []
        ((tokenize lim.MAXPARA line).getD [] :: r.1, r.2)
    else if line.length < lim.BUFSIZE then read_lines lim src (line ++ [c])
    else read_lines lim src line

/-- Lines 543 to 555 for one line: the line is counted, then dispatched. -/
def count_dispatch (lim : Limits) (s : IAuth × Env) (argv : List (List Char)) : IAuth × Env :=
  iauth_dispatch lim { s.1 with i_recvM := (s.1.i_recvM + 1) % 2 ^ 32 } argv s.2

/-- The record that holds the registers after a read of `n` bytes (lines 513
to 517) and the buffer and count that line 560 stores when the loop leaves
`line` buffered. -/
def read_state (iauth : IAuth) (n : Nat) (line : List Char) : IAuth :=
  { count_received iauth n with i_count := line.length, i_buffer := line }

/-- The bytes that the answers of `os_sendv_nonb` consumed by the loop of
`iauth_write` report as sent, for a queue of `queued` bytes: the loop asks
while the queue is not empty, and stops at the first answer that is not a
success or that sent less than it tried. -/
def bytes_written : List SendOutcome → Nat → Nat
  | [], _ => 0
  | o :: os, queued =>
    if queued > 0 then
      match o.iores with
      | IOResult.IO_SUCCESS =>
        o.bytes_sent
          + (if o.bytes_tried = o.bytes_sent then bytes_written os (queued - o.bytes_sent) else 0)
      | IOResult.IO_BLOCKED => 0
      | IOResult.IO_FAILURE => 0
    else 0

/-- A step of the traffic of a connection: a read for which `os_recv_nonb`
answers `IO_SUCCESS` with the bytes `data`, a line handed to `iauth_send`, or
a run of `iauth_write` for which `os_sendv_nonb` answers as `answers` says. -/
inductive Transfer where
  | read (data : List Char)
  | queue (line : List Char)
  | write (answers : List SendOutcome)

/-- One step of traffic on the connection and environment `s`. -/
def transfer (lim : Limits) (t : Transfer) (s : IAuth × Env) : Option (IAuth × Env) :=
  match t with
  | Transfer.read data =>
    iauth_read lim IOResult.IO_SUCCESS data ConnectAttempt.started s.1 s.2
  | Transfer.queue line => some (iauth_send s.1 line, s.2)
  | Transfer.write answers => some (iauth_write s.1 { s.2 with sendv := answers })

/-- The bytes that the step `t` taken from `s` receives and sends. -/
def transferred (s : IAuth × Env) : Transfer → Nat × Nat
  | Transfer.read data => (data.length, 0)
  | Transfer.queue _ => (0, 0)
  | Transfer.write answers =>
    (0, if s.1.i_flags.IAUTH_BLOCKED then 0 else bytes_written answers s.1.i_sendQ.length)

/-- A sequence of steps of traffic from `s`: the state reached, the bytes
received and the bytes sent on the way. -/
def transfers (lim : Limits) : List Transfer → IAuth × Env → Option ((IAuth × Env) × Nat × Nat)
  | [], s => some (s, 0, 0)
  | t :: ts, s =>
    (transfer lim t s).bind fun s' =>
      (transfers lim ts s').map fun r =>
        (r.1, (transferred s t).1 + r.2.1, (transferred s t).2 + r.2.2)

/-- The steps within the sizes the registers are made for: a read brings
between one and `SERVER_TCP_WINDOW` bytes, and no answer of `os_sendv_nonb`
reports more sent bytes than fit the 16-bit bytes register on top of 1023. -/
def well_sized (lim : Limits) : Transfer → Bool
  | Transfer.read data => !data.isEmpty && decide (data.length ≤ lim.SERVER_TCP_WINDOW)
  | Transfer.queue _ => true
  | Transfer.write answers => answers.all (fun o => decide (o.bytes_sent + 1023 < 2 ^ 16))

/-! ## The parameter splitter: what it computes -/

theorem blank_spaces_eq (rest : List Char) : ∀ done : List Char,
    blank_spaces done rest =
      (done ++ List.replicate (rest.takeWhile (fun c => c = ' ')).length NUL,
        rest.dropWhile (fun c => c = ' ')) := by
  induction rest with
  | nil => intro done; simp [blank_spaces]
  | cons c cs ih =>
    intro done
    by_cases h : c = ' '
    · simp [blank_spaces, h, ih, List.replicate_succ]
    · simp [blank_spaces, h]

theorem skip_param_eq (rest : List Char) : ∀ done : List Char,
    skip_param done rest =
      (done ++ rest.takeWhile (fun c => c ≠ NUL ∧ c ≠ ' '),
        rest.dropWhile (fun c => c ≠ NUL ∧ c ≠ ' ')) := by
  induction rest with
  | nil => intro done; simp [skip_param]
  | cons c cs ih =>
    intro done
    by_cases h : c ≠ NUL ∧ c ≠ ' '
    · simp [skip_param, h, ih]
    · rw [skip_param, if_neg h]
      simp only [not_and_or, not_not] at h
      rcases h with h | h <;> simp [h]

theorem cstr_append_right (a b : List Char) (i : Nat) :
    cstr (a ++ b) (a.length + i) = cstr b i := by
  simp [cstr]

theorem takeWhile_ne_NUL_of_not_mem (l : List Char) (h : NUL ∉ l) :
    l.takeWhile (fun c => c ≠ NUL) = l := by
  rw [List.takeWhile_eq_self_iff]
  intro x hx
  simpa using fun e : x = NUL => h (e ▸ hx)

theorem cstr_zero_append (p t : List Char) (h : NUL ∉ p) :
    cstr (p ++ t) 0 = p ++ cstr t 0 := by
  simp only [cstr, List.drop_zero]
  rw [List.takeWhile_append_of_pos]
  intro x hx
  simpa using fun e : x = NUL => h (e ▸ hx)

theorem cstr_zero_of_head (t : List Char) (h : t.head? = some NUL) : cstr t 0 = [] := by
  cases t with
  | nil => simp at h
  | cons c cs =>
    simp only [List.head?_cons, Option.some.injEq] at h
    simp [cstr, h]

theorem cstr_zero_of_not_mem (t : List Char) (h : NUL ∉ t) : cstr t 0 = t := by
  simpa [cstr] using takeWhile_ne_NUL_of_not_mem t h

theorem deref_ne_NUL_iff (l : List Char) (hl : NUL ∉ l) : deref l ≠ NUL ↔ l ≠ [] := by
  cases l with
  | nil => simp [deref]
  | cons c cs =>
    simp only [List.mem_cons, not_or] at hl
    simp [deref, Ne.symm hl.1]

theorem deref_eq_iff_head (l : List Char) (c : Char) (hc : c ≠ NUL) :
    deref l = c ↔ l.head? = some c := by
  cases l with
  | nil => simp [deref, Ne.symm hc]
  | cons d ds => simp [deref]

theorem split_params_spec (M : Nat) : ∀ (fuel : Nat) (done rest : List Char) (argv : List Nat),
    NUL ∉ rest → rest.length < fuel →
    ∃ (tail : List Char) (offs : List Nat), split_params M fuel done rest argv
        = some (done ++ tail, argv ++ offs.map (fun o => done.length + o))
      ∧ offs.map (cstr tail) = params M fuel rest argv.length
      ∧ (rest ≠ [] → argv.length < M → rest.head? = some ' ' → tail.head? = some NUL)
      ∧ (¬ (rest ≠ [] ∧ argv.length < M) → tail = rest) := by
  intro fuel
  induction fuel with
  | zero => intro done rest argv _ h; simp at h
  | succ fuel ih =>
    intro done rest argv hnul hlen
    by_cases hrun : rest ≠ [] ∧ argv.length < M
    · have hrun' : deref rest ≠ NUL ∧ argv.length < M := by
        rw [deref_ne_NUL_iff rest hnul]; exact hrun
      have hsplit : rest.takeWhile (fun c => c = ' ') ++ rest.dropWhile (fun c => c = ' ') = rest :=
        List.takeWhile_append_dropWhile _ _
      generalize hk : (rest.takeWhile (fun c => c = ' ')).length = k at *
      generalize hr : rest.dropWhile (fun c => c = ' ') = r at *
      have hrnul : NUL ∉ r := by
        intro h; apply hnul; rw [← hsplit]; exact List.mem_append_right _ h
      have hrlen : r.length ≤ rest.length := by
        rw [← hsplit]; simp
      have hhead : rest.head? = some ' ' → (List.replicate k NUL ++ r).head? = some NUL := by
        intro h
        cases rest with
        | nil => simp at h
        | cons c cs =>
          simp only [List.head?_cons, Option.some.injEq] at h
          subst h
          simp at hk
          subst hk
          simp [List.replicate_succ]
      rw [split_params, if_pos hrun', blank_spaces_eq]
      simp only [hk, hr]
      rw [params, if_pos hrun]
      simp only [hr]
      by_cases hr0 : r = []
      · subst hr0
        refine ⟨List.replicate k NUL, [], ?_, ?_, ?_, ?_⟩
        · simp [deref]
        · simp
        · intro _ _ h; simpa using hhead h
        · intro h; exact absurd hrun h
      · have hd0 : deref r ≠ NUL := (deref_ne_NUL_iff r hrnul).2 hr0
        rw [if_neg hd0, if_neg hr0]
        by_cases hcolon : r.head? = some ':'
        · have hd1 : deref r = ':' := (deref_eq_iff_head r ':' (by decide)).2 hcolon
          rw [if_pos hd1, if_pos hcolon]
          refine ⟨List.replicate k NUL ++ r, [k + 1], ?_, ?_, ?_, ?_⟩
          · simp [Nat.add_assoc]
          · have : cstr (List.replicate k NUL ++ r) (k + 1) = cstr r 1 := by
              have := cstr_append_right (List.replicate k NUL) r 1
              simpa using this
            simp only [List.map_cons, List.map_nil, this]
            cases r with
            | nil => exact absurd rfl hr0
            | cons c cs =>
              simp only [List.mem_cons, not_or] at hrnul
              simp only [cstr, List.drop_succ_cons, List.drop_zero, List.tail_cons]
              rw [takeWhile_ne_NUL_of_not_mem cs hrnul.2]
          · intro _ _ h; exact hhead h
          · intro h; exact absurd hrun h
        · have hd1 : ¬ deref r = ':' := fun h => hcolon ((deref_eq_iff_head r ':' (by decide)).1 h)
          rw [if_neg hd1, if_neg hcolon, skip_param_eq]
          have hpr : r.takeWhile (fun c => c ≠ NUL ∧ c ≠ ' ')
              ++ r.dropWhile (fun c => c ≠ NUL ∧ c ≠ ' ') = r :=
            List.takeWhile_append_dropWhile _ _
          have hp_ne : r.takeWhile (fun c => c ≠ NUL ∧ c ≠ ' ') ≠ [] := by
            have h1 := List.head?_dropWhile_not (fun c => decide (c = ' ')) rest
            rw [hr] at h1
            cases r with
            | nil => exact absurd rfl hr0
            | cons c cs =>
              simp only [List.mem_cons, not_or] at hrnul
              have hc1 : c ≠ NUL := Ne.symm hrnul.1
              have hc2 : c ≠ ' ' := by simpa using h1
              simp [hc1, hc2]
          have hhead2 : ∀ x, (r.dropWhile (fun c => c ≠ NUL ∧ c ≠ ' ')).head? = some x →
              x ∈ r → x = ' ' := by
            intro x hx _
            have h1 := List.head?_dropWhile_not (fun c => decide (c ≠ NUL ∧ c ≠ ' ')) r
            rw [hx] at h1
            have hx' : x ∈ r.dropWhile (fun c => c ≠ NUL ∧ c ≠ ' ') := List.mem_of_mem_head? hx
            have hxn : x ≠ NUL := by
              intro e; apply hrnul; rw [← hpr]; exact List.mem_append_right _ (e ▸ hx')
            simpa [hxn] using h1
          generalize hp : r.takeWhile (fun c => c ≠ NUL ∧ c ≠ ' ') = p at *
          generalize hr' : r.dropWhile (fun c => c ≠ NUL ∧ c ≠ ' ') = r' at *
          have hpnul : NUL ∉ p := by
            intro h; apply hrnul; rw [← hpr]; exact List.mem_append_left _ h
          have hr'nul : NUL ∉ r' := by
            intro h; apply hrnul; rw [← hpr]; exact List.mem_append_right _ h
          have hr'len : r'.length < fuel := by
            have h1 : p.length + r'.length = r.length := by rw [← hpr]; simp
            have h2 : 0 < p.length := List.length_pos.2 hp_ne
            omega
          obtain ⟨tail2, offs2, h1, h2, h3, h4⟩ :=
            ih (done ++ List.replicate k NUL ++ p) r'
              (argv ++ [(done ++ List.replicate k NUL).length]) hr'nul hr'len
          refine ⟨List.replicate k NUL ++ p ++ tail2,
            k :: offs2.map (fun o => k + p.length + o), ?_, ?_, ?_, ?_⟩
          · simp only [] at h1 ⊢
            rw [h1]
            simp [List.append_assoc, Nat.add_assoc, List.map_map, Function.comp_def]
          · have hc1 : cstr (List.replicate k NUL ++ p ++ tail2) k = p ++ cstr tail2 0 := by
              have := cstr_append_right (List.replicate k NUL) (p ++ tail2) 0
              simp only [List.length_replicate, Nat.add_zero] at this
              rw [List.append_assoc, this, cstr_zero_append p tail2 hpnul]
            have hc2 : ∀ o, cstr (List.replicate k NUL ++ p ++ tail2) (k + p.length + o)
                = cstr tail2 o := by
              intro o
              have := cstr_append_right (List.replicate k NUL ++ p) tail2 o
              simpa using this
            simp only [List.map_cons, List.map_map, Function.comp_def, hc1, hc2]
            simp only [List.length_append, List.length_singleton] at h2
            by_cases hcont : r' ≠ [] ∧ argv.length + 1 < M
            · rw [if_pos hcont, ← h2]
              have hx : r'.head? = some ' ' := by
                cases r' with
                | nil => exact absurd rfl hcont.1
                | cons x xs =>
                  have := hhead2 x rfl (by rw [← hpr]; simp)
                  simp [this]
              have := h3 hcont.1 (by simpa using hcont.2) hx
              rw [cstr_zero_of_head tail2 this]
              simp
            · rw [if_neg hcont]
              have ht : tail2 = r' := h4 (by simpa using hcont)
              have ho : offs2 = [] := by
                have : params M fuel r' (argv.length + 1) = [] := by
                  cases fuel with
                  | zero => rfl
                  | succ f => rw [params, if_neg hcont]
                rw [this] at h2
                simpa using h2
              subst ht ho
              simp [cstr_zero_of_not_mem _ hr'nul, hpr]
          · intro _ _ h
            have := hhead h
            cases k with
            | zero => simp at this; cases rest with
              | nil => simp at h
              | cons c cs =>
                simp only [List.head?_cons, Option.some.injEq] at h
                subst h
                simp at hk
            | succ k => simp [List.replicate_succ]
          · intro h; exact absurd hrun h
    · refine ⟨rest, [], ?_, ?_, ?_, ?_⟩
      · have : ¬ (deref rest ≠ NUL ∧ argv.length < M) := by
          rw [deref_ne_NUL_iff rest hnul]; exact hrun
        simp [split_params, this]
      · simp [params, hrun]
      · intro h1 h2; exact absurd ⟨h1, h2⟩ hrun
      · intro _; rfl


theorem blank_spaces_length (rest : List Char) : ∀ done : List Char,
    (blank_spaces done rest).2.length ≤ rest.length := by
  intro done
  rw [blank_spaces_eq]
  have := List.takeWhile_append_dropWhile (fun c => decide (c = ' ')) rest
  have h := congrArg List.length this
  simp only [List.length_append] at h
  simp only
  omega

theorem skip_param_length (rest : List Char) (done : List Char)
    (h0 : deref rest ≠ NUL) (h1 : deref rest ≠ ' ') :
    (skip_param done rest).2.length < rest.length := by
  cases rest with
  | nil => simp [deref] at h0
  | cons c cs =>
    simp only [deref, List.headD_cons] at h0 h1
    rw [skip_param, if_pos ⟨h0, h1⟩, skip_param_eq]
    have := List.takeWhile_append_dropWhile (fun c => decide (c ≠ NUL ∧ c ≠ ' ')) cs
    have h := congrArg List.length this
    simp only [List.length_append] at h
    simp only [List.length_cons]
    omega

theorem blank_spaces_deref (rest : List Char) (done : List Char) :
    deref (blank_spaces done rest).2 ≠ ' ' := by
  rw [blank_spaces_eq]
  simp only
  have h1 := List.head?_dropWhile_not (fun c => decide (c = ' ')) rest
  cases h : rest.dropWhile (fun c => decide (c = ' ')) with
  | nil => simp [deref, NUL]
  | cons c cs =>
    rw [h] at h1
    simpa [deref] using h1

theorem split_params_total (M : Nat) : ∀ (fuel : Nat) (done rest : List Char) (argv : List Nat),
    rest.length < fuel → (split_params M fuel done rest argv).isSome := by
  intro fuel
  induction fuel with
  | zero => intro done rest argv h; simp at h
  | succ fuel ih =>
    intro done rest argv hlen
    rw [split_params]
    split
    · simp only []
      split
      · rfl
      · split
        · rfl
        · rename_i h0 h1
          apply ih
          have h2 := skip_param_length (blank_spaces done rest).2 (blank_spaces done rest).1 h0
            (blank_spaces_deref rest done)
          have h3 := blank_spaces_length rest done
          omega
    · rfl

theorem split_params_argc (M : Nat) : ∀ (fuel : Nat) (done rest : List Char) (argv : List Nat)
    (r : List Char × List Nat), split_params M fuel done rest argv = some r →
    r.2.length ≤ max argv.length M := by
  intro fuel
  induction fuel with
  | zero => intro done rest argv r h; simp [split_params] at h
  | succ fuel ih =>
    intro done rest argv r h
    rw [split_params] at h
    split at h
    · rename_i hc
      simp only [] at h
      split at h
      · cases h; simp
      · split at h
        · cases h; simp; omega
        · have := ih _ _ _ r h
          simp at this
          omega
    · cases h; simp

theorem tokenize_total (M : Nat) (line : List Char) :
    ∃ argv, tokenize M line = some argv ∧ argv.length ≤ M := by
  have h := split_params_total M (line.length + 1) [] line [] (Nat.lt_succ_self _)
  obtain ⟨r, hr⟩ := Option.isSome_iff_exists.1 h
  refine ⟨r.2.map (cstr r.1), ?_, ?_⟩
  · simp [tokenize, hr]
  · have := split_params_argc M _ _ _ _ r hr
    simpa using this

theorem tokenize_eq_params (M : Nat) (line : List Char) (h : NUL ∉ line) :
    tokenize M line = some (params M (line.length + 1) line 0) := by
  obtain ⟨tail, offs, h1, h2, -, -⟩ :=
    split_params_spec M (line.length + 1) [] line [] h (Nat.lt_succ_self _)
  simp only [tokenize, h1, Option.map_some']
  simp only [List.nil_append, List.length_nil, Nat.zero_add] at h2 ⊢
  rw [← h2]
  simp


theorem spaces_all (m : Nat) : ∀ a ∈ spaces m, (fun c => decide (c = ' ')) a = true := by
  intro a ha
  simp only [spaces, List.mem_replicate] at ha
  simp [ha.2]

theorem dropWhile_spaces (m : Nat) (x : List Char) (hx : x.head? ≠ some ' ') :
    (spaces m ++ x).dropWhile (fun c => c = ' ') = x := by
  rw [List.dropWhile_append_of_pos (spaces_all m)]
  cases x with
  | nil => rfl
  | cons c cs =>
    simp only [List.head?_cons, ne_eq, Option.some.injEq] at hx
    simp [hx]

theorem plain_all (p : List Char) (hp : plain_param p) :
    ∀ a ∈ p, (fun c => decide (c ≠ NUL ∧ c ≠ ' ')) a = true := by
  intro a ha
  obtain ⟨-, h1, h2, -⟩ := hp
  have e1 : a ≠ NUL := fun e => h2 (e ▸ ha)
  have e2 : a ≠ ' ' := fun e => h1 (e ▸ ha)
  simp [e1, e2]

theorem plain_head (p : List Char) (hp : plain_param p) (y : List Char) :
    (p ++ y).head? ≠ some ' ' ∧ (p ++ y).head? ≠ some ':' ∧ p ++ y ≠ [] := by
  obtain ⟨h0, h1, -, h3⟩ := hp
  cases p with
  | nil => exact absurd rfl h0
  | cons c cs =>
    simp only [List.mem_cons, not_or] at h1
    simp only [List.head?_cons, ne_eq, Option.some.injEq] at h3
    refine ⟨?_, ?_, ?_⟩
    · simpa using Ne.symm h1.1
    · simpa using h3
    · simp

theorem takeWhile_plain (p y : List Char) (hp : plain_param p)
    (hy : y = [] ∨ y.head? = some ' ') :
    (p ++ y).takeWhile (fun c => c ≠ NUL ∧ c ≠ ' ') = p
      ∧ (p ++ y).dropWhile (fun c => c ≠ NUL ∧ c ≠ ' ') = y := by
  rw [List.takeWhile_append_of_pos (plain_all p hp), List.dropWhile_append_of_pos (plain_all p hp)]
  rcases hy with hy | hy
  · subst hy; simp
  · cases y with
    | nil => simp at hy
    | cons c cs =>
      simp only [List.head?_cons, Option.some.injEq] at hy
      subst hy
      simp

theorem params_spaces (M : Nat) (fuel m argc : Nat) : params M fuel (spaces m) argc = [] := by
  cases fuel with
  | zero => rfl
  | succ fuel =>
    rw [params]
    split
    · have := dropWhile_spaces m [] (by simp)
      simp only [List.append_nil] at this
      simp [this]
    · rfl

theorem words_length (ps : List (List Char × Nat)) : ps.length ≤ (words ps).length := by
  induction ps with
  | nil => simp
  | cons a ps ih =>
    obtain ⟨p, n⟩ := a
    simp only [words, List.length_cons, List.length_append, spaces, List.length_replicate]
    omega

theorem params_words_colon (M : Nat) (tail : List Char) :
    ∀ (ps : List (List Char × Nat)) (fuel m argc : Nat),
    (∀ p ∈ ps, plain_param p.1) → argc + ps.length < M → ps.length < fuel →
    params M fuel (spaces m ++ words ps ++ ':' :: tail) argc = ps.map Prod.fst ++ [tail] := by
  intro ps
  induction ps with
  | nil =>
    intro fuel m argc _ hM hf
    cases fuel with
    | zero => simp at hf
    | succ fuel =>
      have hd := dropWhile_spaces m (':' :: tail) (by simp)
      simp only [words, List.append_nil, List.length_nil, Nat.add_zero] at hM ⊢
      rw [params, if_pos ⟨by simp, hM⟩]
      simp [hd]
  | cons a ps ih =>
    intro fuel m argc hplain hM hf
    obtain ⟨p, n⟩ := a
    have hp : plain_param p := hplain (p, n) (by simp)
    cases fuel with
    | zero => simp at hf
    | succ fuel =>
      simp only [List.length_cons] at hM hf
      have hshape : spaces m ++ words ((p, n) :: ps) ++ ':' :: tail
          = spaces m ++ (p ++ (spaces (n + 1) ++ words ps ++ ':' :: tail)) := by
        simp [words, List.append_assoc]
      obtain ⟨hh1, hh2, hh3⟩ := plain_head p hp (spaces (n + 1) ++ words ps ++ ':' :: tail)
      have hd := dropWhile_spaces m _ hh1
      obtain ⟨ht1, ht2⟩ := takeWhile_plain p (spaces (n + 1) ++ words ps ++ ':' :: tail) hp
        (Or.inr (by simp [spaces, List.replicate_succ]))
      rw [hshape, params, if_pos ⟨by simp, by omega⟩]
      simp only [hd, ht1, ht2]
      rw [if_neg hh3, if_neg hh2, if_pos ⟨by simp [spaces, List.replicate_succ], by omega⟩]
      rw [ih fuel (n + 1) (argc + 1) (fun q hq => hplain q (List.mem_cons_of_mem _ hq))
        (by omega) (by omega)]
      simp


theorem params_words_last (M : Nat) (last : List Char) (trail : Nat) (hlast : plain_param last) :
    ∀ (ps : List (List Char × Nat)) (fuel m argc : Nat),
    (∀ p ∈ ps, plain_param p.1) → argc + ps.length < M → ps.length < fuel →
    params M fuel (spaces m ++ words ps ++ last ++ spaces trail) argc
      = ps.map Prod.fst ++ [if argc + ps.length + 1 < M then last else last ++ spaces trail] := by
  intro ps
  induction ps with
  | nil =>
    intro fuel m argc _ hM hf
    cases fuel with
    | zero => simp at hf
    | succ fuel =>
      obtain ⟨hh1, hh2, hh3⟩ := plain_head last hlast (spaces trail)
      have hd := dropWhile_spaces m _ hh1
      have hy : spaces trail = [] ∨ (spaces trail).head? = some ' ' := by
        cases trail with
        | zero => left; rfl
        | succ t => right; simp [spaces, List.replicate_succ]
      obtain ⟨ht1, ht2⟩ := takeWhile_plain last (spaces trail) hlast hy
      simp only [words, List.append_nil, List.length_nil, Nat.add_zero, List.map_nil,
        List.nil_append] at hM ⊢
      rw [List.append_assoc, params, if_pos ⟨fun h => hh3 (List.append_eq_nil.1 h).2, hM⟩]
      simp only [hd, ht1, ht2]
      rw [if_neg hh3, if_neg hh2]
      by_cases hc : spaces trail ≠ [] ∧ argc + 1 < M
      · rw [if_pos hc, if_pos hc.2, params_spaces]
      · rw [if_neg hc]
        by_cases h2 : argc + 1 < M
        · have : spaces trail = [] := by
            by_contra h; exact hc ⟨h, h2⟩
          rw [if_pos h2, this]; simp
        · rw [if_neg h2]
  | cons a ps ih =>
    intro fuel m argc hplain hM hf
    obtain ⟨p, n⟩ := a
    have hp : plain_param p := hplain (p, n) (by simp)
    cases fuel with
    | zero => simp at hf
    | succ fuel =>
      simp only [List.length_cons] at hM hf
      have hshape : spaces m ++ words ((p, n) :: ps) ++ last ++ spaces trail
          = spaces m ++ (p ++ (spaces (n + 1) ++ words ps ++ last ++ spaces trail)) := by
        simp [words, List.append_assoc]
      obtain ⟨hh1, hh2, hh3⟩ :=
        plain_head p hp (spaces (n + 1) ++ words ps ++ last ++ spaces trail)
      have hd := dropWhile_spaces m _ hh1
      obtain ⟨ht1, ht2⟩ :=
        takeWhile_plain p (spaces (n + 1) ++ words ps ++ last ++ spaces trail) hp
          (Or.inr (by simp [spaces, List.replicate_succ]))
      rw [hshape, params, if_pos ⟨fun h => hh3 (List.append_eq_nil.1 h).2, by omega⟩]
      simp only [hd, ht1, ht2]
      rw [if_neg hh3, if_neg hh2, if_pos ⟨by simp [spaces, List.replicate_succ], by omega⟩]
      rw [ih fuel (n + 1) (argc + 1) (fun q hq => hplain q (List.mem_cons_of_mem _ hq))
        (by omega) (by omega)]
      simp [Nat.add_assoc, Nat.add_comm 1]

theorem NUL_not_mem_spaces (m : Nat) : NUL ∉ spaces m := by
  intro h
  simp only [spaces, List.mem_replicate] at h
  exact absurd h.2 (by decide)

theorem NUL_not_mem_words (ps : List (List Char × Nat)) (h : ∀ p ∈ ps, plain_param p.1) :
    NUL ∉ words ps := by
  induction ps with
  | nil => simp [words]
  | cons a ps ih =>
    obtain ⟨p, n⟩ := a
    have hp : plain_param p := h (p, n) (by simp)
    simp only [words, List.mem_append, not_or]
    exact ⟨⟨hp.2.2.1, NUL_not_mem_spaces _⟩, ih (fun q hq => h q (List.mem_cons_of_mem _ hq))⟩

theorem tokenize_words_colon (M lead : Nat) (ps : List (List Char × Nat)) (tail : List Char)
    (hps : ∀ p ∈ ps, plain_param p.1) (htail : NUL ∉ tail) (hM : ps.length + 1 ≤ M) :
    tokenize M (spaces lead ++ words ps ++ ':' :: tail) = some (ps.map Prod.fst ++ [tail]) := by
  have hnul : NUL ∉ spaces lead ++ words ps ++ ':' :: tail := by
    simp only [List.mem_append, List.mem_cons, not_or]
    exact ⟨⟨NUL_not_mem_spaces _, NUL_not_mem_words ps hps⟩, by decide, htail⟩
  rw [tokenize_eq_params M _ hnul, params_words_colon M tail ps _ lead 0 hps (by omega)]
  have := words_length ps
  simp only [List.length_append]
  omega

theorem tokenize_words_last (M lead : Nat) (ps : List (List Char × Nat)) (last : List Char)
    (trail : Nat) (hps : ∀ p ∈ ps, plain_param p.1) (hlast : plain_param last)
    (hM : ps.length + 1 ≤ M) :
    tokenize M (spaces lead ++ words ps ++ last ++ spaces trail)
      = some (ps.map Prod.fst ++ [if ps.length + 1 < M then last else last ++ spaces trail]) := by
  have hnul : NUL ∉ spaces lead ++ words ps ++ last ++ spaces trail := by
    simp only [List.mem_append, not_or]
    exact ⟨⟨⟨NUL_not_mem_spaces _, NUL_not_mem_words ps hps⟩, hlast.2.2.1⟩, NUL_not_mem_spaces _⟩
  rw [tokenize_eq_params M _ hnul,
    params_words_last M last trail hlast ps _ lead 0 hps (by omega)]
  · simp
  · have := words_length ps
    simp only [List.length_append]
    omega

theorem tokenize_spaces (M lead : Nat) : tokenize M (spaces lead) = some [] := by
  rw [tokenize_eq_params M _ (NUL_not_mem_spaces _), params_spaces]


/-- C4 (amended). The splitter always returns, with at most `MAXPARA`
arguments. On a line without NUL byte of `k < MAXPARA` plain tokens, each
followed by a run of spaces, and then a token starting with a colon, it
returns the `k` tokens and then everything after the colon. On a line without
NUL byte of `k + 1 ≤ MAXPARA` plain tokens separated by runs of spaces, with
no colon token, it returns the tokens, the last of which keeps the spaces
that follow it when it is the `MAXPARA`-th token. A line of spaces alone has
no arguments. -/
theorem tokenize_line (M : Nat) :
    (∀ line : List Char, ∃ argv, tokenize M line = some argv ∧ argv.length ≤ M) ∧
    (∀ (lead : Nat) (ps : List (List Char × Nat)) (tail : List Char),
      (∀ p ∈ ps, plain_param p.1) → NUL ∉ tail → ps.length + 1 ≤ M →
      tokenize M (spaces lead ++ words ps ++ ':' :: tail) = some (ps.map Prod.fst ++ [tail])) ∧
    (∀ (lead : Nat) (ps : List (List Char × Nat)) (last : List Char) (trail : Nat),
      (∀ p ∈ ps, plain_param p.1) → plain_param last → ps.length + 1 ≤ M →
      tokenize M (spaces lead ++ words ps ++ last ++ spaces trail)
        = some (ps.map Prod.fst
            ++ [if ps.length + 1 < M then last else last ++ spaces trail])) ∧
    (∀ lead : Nat, tokenize M (spaces lead) = some []) :=
  ⟨tokenize_total M, tokenize_words_colon M, tokenize_words_last M, tokenize_spaces M⟩

/-- The two shapes of C4 at `MAXPARA = 3`: a colon tail after two tokens, and
three tokens of which the last is followed by two spaces. -/
theorem tokenize_line_witness :
    ((∀ p ∈ [("BadAuth".toList, 0), ("ff00".toList, 2)], plain_param p.1)
      ∧ NUL ∉ "banned by policy".toList
      ∧ tokenize 3 (spaces 1 ++ words [("BadAuth".toList, 0), ("ff00".toList, 2)]
            ++ ':' :: "banned by policy".toList)
          = some (["BadAuth".toList, "ff00".toList] ++ ["banned by policy".toList]))
    ∧ (plain_param "c".toList
      ∧ tokenize 3 (spaces 0 ++ words [("a".toList, 0), ("b".toList, 1)] ++ "c".toList ++ spaces 2)
          = some (["a".toList, "b".toList] ++ ["c  ".toList])) :=
  ⟨⟨by decide, by decide,
      (tokenize_line 3).2.1 1 [("BadAuth".toList, 0), ("ff00".toList, 2)]
        "banned by policy".toList (by decide) (by decide) (by decide)⟩,
    ⟨by decide,
      (tokenize_line 3).2.2.1 0 [("a".toList, 0), ("b".toList, 1)] "c".toList 2
        (by decide) (by decide) (by decide)⟩⟩

/-- C4 as stated fails: the line of the fifteen tokens `a` to `o` separated
by single spaces and followed by one space has `MAXPARA = 15` tokens and no
colon token, yet its last argument is `o` with the space, not the run `o`. -/
theorem tokenize_trailing_space :
    (∀ p ∈ "abcdefghijklmno".toList, plain_param [p])
    ∧ tokenize ircu.MAXPARA
        (words ("abcdefghijklmn".toList.map (fun c => ([c], 0))) ++ ['o'] ++ spaces 1)
      = some ("abcdefghijklmn".toList.map (fun c => [c]) ++ [['o', ' ']])
    ∧ tokenize ircu.MAXPARA
        (words ("abcdefghijklmn".toList.map (fun c => ([c], 0))) ++ ['o'] ++ spaces 1)
      ≠ some ("abcdefghijklmn".toList.map (fun c => [c]) ++ [['o']]) := by
  refine ⟨by decide, by decide, by decide⟩

/-- C5. For one to `MAXPARA` arguments of which all but the last are plain
tokens and none holds a NUL byte, splitting the serialized line gives back the
arguments, and so does splitting any line that differs from it only in the
width of the runs of spaces. -/
theorem serialize_tokenize (M : Nat) (args : List (List Char))
    (h1 : 1 ≤ args.length) (hM : args.length ≤ M)
    (hplain : ∀ p ∈ args.dropLast, plain_param p) (hlast : NUL ∉ args.getLastD []) :
    tokenize M (serialize args) = some args ∧
    ∀ ps : List (List Char × Nat), ps.map Prod.fst = args.dropLast →
      tokenize M (words ps ++ ':' :: args.getLastD []) = tokenize M (serialize args) := by
  rcases List.eq_nil_or_concat args with h | ⟨l, a, h⟩
  · subst h; simp at h1
  · subst h
    simp only [List.concat_eq_append] at h1 hM hplain hlast ⊢
    simp only [List.dropLast_concat] at hplain ⊢
    simp only [List.getLastD_concat] at hlast ⊢
    simp only [List.length_append, List.length_singleton] at hM
    have key : ∀ ps : List (List Char × Nat), ps.map Prod.fst = l →
        tokenize M (words ps ++ ':' :: a) = some (l ++ [a]) := by
      intro ps hps
      have hp : ∀ p ∈ ps, plain_param p.1 := by
        intro p hp
        apply hplain
        rw [← hps]
        exact List.mem_map_of_mem _ hp
      have hlen : ps.length = l.length := by rw [← hps]; simp
      have := tokenize_words_colon M 0 ps a hp hlast (by omega)
      simpa [spaces, hps] using this
    have hser : tokenize M (serialize (l ++ [a])) = some (l ++ [a]) := by
      simp only [serialize, List.dropLast_concat, List.getLastD_concat]
      apply key
      simp [List.map_map, Function.comp_def]
    exact ⟨hser, fun ps hps => (key ps hps).trans hser.symm⟩

/-- C5 at the line of scenario S2. -/
theorem serialize_tokenize_witness :
    tokenize 15 (serialize ["BadAuth".toList, "ff00".toList, "banned by policy".toList])
      = some ["BadAuth".toList, "ff00".toList, "banned by policy".toList] ∧
    ∀ ps : List (List Char × Nat),
      ps.map Prod.fst
        = ["BadAuth".toList, "ff00".toList, "banned by policy".toList].dropLast →
      tokenize 15 (words ps ++ ':' ::
          ["BadAuth".toList, "ff00".toList, "banned by policy".toList].getLastD [])
        = tokenize 15 (serialize ["BadAuth".toList, "ff00".toList, "banned by policy".toList]) :=
  serialize_tokenize 15 ["BadAuth".toList, "ff00".toList, "banned by policy".toList]
    (by decide) (by decide) (by decide) (by decide)

/-! ## Hexadecimal ids and the request lookup -/

theorem hexval_hexdigit : ∀ d < 16, hexval (hexdigit d) = some d := by decide

theorem ToLower_hexdigit : ∀ d < 16, ToLower (hexdigit d) = hexdigit d := by decide

theorem hexval_upper_aux : ∀ k < 91, 65 ≤ k → ∀ d < 16,
    ToLower (Char.ofNat k) = hexdigit d → hexval (Char.ofNat k) = some d := by decide

theorem hexval_of_ToLower (c : Char) (d : Nat) (hd : d < 16) (h : ToLower c = hexdigit d) :
    hexval c = some d := by
  by_cases hu : 65 ≤ c.toNat ∧ c.toNat ≤ 90
  · have := hexval_upper_aux c.toNat (by omega) hu.1 d hd
    rw [Char.ofNat_toNat] at this
    exact this h
  · rw [ToLower, if_neg hu] at h
    rw [h]
    exact hexval_hexdigit d hd


theorem hex_run_append (a b : List Char) (h : ∀ c ∈ a, (hexval c).isSome) :
    ∀ acc, hex_run (a ++ b) acc = hex_run b (hex_run a acc) := by
  induction a with
  | nil => intro acc; simp [hex_run]
  | cons c cs ih =>
    intro acc
    have hc := h c (by simp)
    obtain ⟨d, hd⟩ := Option.isSome_iff_exists.1 hc
    simp only [List.cons_append, hex_run, hd]
    exact ih (fun x hx => h x (List.mem_cons_of_mem _ hx)) _

/-- Any spelling `id` that lower-cases to the digits of `n` consists of
hexadecimal digits and has the value `n`. -/
theorem hex_run_fmt_x_aux : ∀ (fuel n : Nat) (id : List Char), n < fuel →
    id.map ToLower = fmt_x_aux fuel n →
    (∀ c ∈ id, (hexval c).isSome) ∧ id ≠ [] ∧
      ∀ acc, hex_run id acc = acc * 16 ^ id.length + n := by
  intro fuel
  induction fuel with
  | zero => intro n id h; omega
  | succ fuel ih =>
    intro n id hn hid
    rw [fmt_x_aux] at hid
    by_cases h16 : n < 16
    · rw [if_pos h16] at hid
      cases id with
      | nil => simp at hid
      | cons c cs =>
        cases cs with
        | cons c2 cs2 => simp at hid
        | nil =>
          simp only [List.map_cons, List.map_nil, List.cons.injEq, and_true] at hid
          have hv := hexval_of_ToLower c n h16 hid
          refine ⟨by simp [hv], by simp, ?_⟩
          intro acc
          simp [hex_run, hv]
    · rw [if_neg h16] at hid
      rcases List.eq_nil_or_concat id with h | ⟨l, c, h⟩
      · subst h; simp at hid
      · subst h
        simp only [List.concat_eq_append, List.map_append, List.map_cons, List.map_nil] at hid ⊢
        have hlen : (l.map ToLower).length = (fmt_x_aux fuel (n / 16)).length := by
          have := congrArg List.length hid
          simpa using this
        obtain ⟨h1, h2⟩ := List.append_inj hid hlen
        simp only [List.cons.injEq, and_true] at h2
        have hv := hexval_of_ToLower c (n % 16) (Nat.mod_lt _ (by omega)) h2
        obtain ⟨i1, -, i3⟩ := ih (n / 16) l (by omega) h1
        refine ⟨?_, by simp, ?_⟩
        · intro x hx
          rcases List.mem_append.1 hx with hx | hx
          · exact i1 x hx
          · simp only [List.mem_singleton] at hx
            subst hx; simp [hv]
        · intro acc
          rw [hex_run_append l [c] i1, i3]
          simp only [hex_run, hv, List.length_append, List.length_singleton, pow_succ]
          have := Nat.div_add_mod n 16
          nlinarith [Nat.div_add_mod n 16]


theorem hexval_isSome_range (c : Char) (h : (hexval c).isSome) :
    48 ≤ c.toNat ∧ c.toNat ≤ 102 := by
  unfold hexval at h
  split_ifs at h <;> first | omega | simp at h

theorem hexval_not_special (c : Char) (h : (hexval c).isSome) :
    isspace c = false ∧ c ≠ '-' ∧ c ≠ '+' ∧ c ≠ 'x' ∧ c ≠ 'X' := by
  have hr := hexval_isSome_range c h
  refine ⟨?_, ?_, ?_, ?_, ?_⟩
  · have h1 : c ≠ ' ' := by
      rintro rfl
      exact absurd h (by decide)
    simp only [isspace, h1, decide_False, Bool.false_or, Bool.and_eq_false_imp,
      decide_eq_true_eq, decide_eq_false_iff_not]
    omega
  all_goals
    rintro rfl
    exact absurd h (by decide)

theorem strtoul16_of_lower (MAX X : Nat) (id : List Char) (hX : X ≤ MAX)
    (hid : id.map ToLower = fmt_x X) : strtoul16 MAX id = X := by
  obtain ⟨hall, hne, hval⟩ := hex_run_fmt_x_aux (X + 1) X id (Nat.lt_succ_self _) hid
  cases id with
  | nil => exact absurd rfl hne
  | cons c cs =>
    obtain ⟨s1, s2, s3, s4, s5⟩ := hexval_not_special c (hall c (by simp))
    have htail : ¬ (cs.head? = some 'x' ∨ cs.head? = some 'X') := by
      rintro (h | h)
      · have := hexval_not_special 'x' (hall _ (List.mem_cons_of_mem _ (List.mem_of_mem_head? h)))
        exact this.2.2.2.1 rfl
      · have := hexval_not_special 'X' (hall _ (List.mem_cons_of_mem _ (List.mem_of_mem_head? h)))
        exact this.2.2.2.2 rfl
    have hv := hval 0
    simp only [Nat.zero_mul, Nat.zero_add] at hv
    simp only [strtoul16, List.dropWhile_cons, s1, Bool.false_eq_true, if_false,
      List.head?_cons, Option.some.injEq, s2, s3, or_self, List.tail_cons, htail,
      false_and, and_false, hv, decide_False]
    rw [if_neg (by omega)]

theorem fmt_x_aux_lower : ∀ (fuel n : Nat), (fmt_x_aux fuel n).map ToLower = fmt_x_aux fuel n := by
  intro fuel
  induction fuel with
  | zero => intro n; rfl
  | succ fuel ih =>
    intro n
    rw [fmt_x_aux]
    split
    · rename_i h; simp [ToLower_hexdigit n h]
    · simp [ih, ToLower_hexdigit (n % 16) (Nat.mod_lt _ (by omega))]

theorem strtoul16_fmt_x (MAX X : Nat) (hX : X ≤ MAX) : strtoul16 MAX (fmt_x X) = X :=
  strtoul16_of_lower MAX X (fmt_x X) hX (fmt_x_aux_lower _ _)

theorem fmt_x_injective (X Y : Nat) (h : fmt_x X = fmt_x Y) : X = Y := by
  have h1 := strtoul16_fmt_x (max X Y) X (le_max_left _ _)
  have h2 := strtoul16_fmt_x (max X Y) Y (le_max_right _ _)
  rw [h] at h1
  exact h1.symm.trans h2



/-- The round trip of the id for a handle that fits an `unsigned int`: on
any connection, an id that spells in either case the id printed for the
client of a listed request whose handle is below `2^32` is resolved by
`iauth_find_request` to a listed request of that client, the very request
when the client has no other; an id whose `strtoul` value is the handle of no
listed client is resolved to nothing; the `FullAuth` line carries the id as
its second word; and two different handles below `2^32` are never printed
alike. -/
theorem find_request_handle (lim : Limits) (iauth : IAuth) (env : Env) :
    (∀ (iar : Nat) (id : List Char), iar ∈ iauth.i_list_head →
      (env.requests iar).iar_client ≤ lim.ULONG_MAX →
      (env.requests iar).iar_client < 2 ^ 32 →
      ircd_strcmp_eq id (handle_id (env.requests iar).iar_client) = true →
      ∃ r, iauth_find_request lim iauth id env = some r ∧ r ∈ iauth.i_list_head
        ∧ (env.requests r).iar_client = (env.requests iar).iar_client
        ∧ ((∀ r' ∈ iauth.i_list_head,
              (env.requests r').iar_client = (env.requests iar).iar_client → r' = iar)
            → r = iar)) ∧
    (∀ id : List Char,
      (∀ iar ∈ iauth.i_list_head, (env.requests iar).iar_client ≠ strtoul16 lim.ULONG_MAX id) →
      iauth_find_request lim iauth id env = none) ∧
    (∀ X : Nat, ∃ rest, fullauth_line env X = "FullAuth ".toList ++ handle_id X ++ ' ' :: rest) ∧
    (∀ X Y : Nat, X < 2 ^ 32 → Y < 2 ^ 32 → X ≠ Y → handle_id X ≠ handle_id Y) := by
  refine ⟨?_, ?_, ?_, ?_⟩
  · intro iar id hmem hmax h32 hid
    have hmod : (env.requests iar).iar_client % 2 ^ 32 = (env.requests iar).iar_client :=
      Nat.mod_eq_of_lt h32
    rw [handle_id, hmod] at hid
    have hid' : id.map ToLower = fmt_x (env.requests iar).iar_client := by
      have : id.map ToLower = (fmt_x (env.requests iar).iar_client).map ToLower := by
        simpa [ircd_strcmp_eq] using hid
      rw [this, fmt_x, fmt_x_aux_lower]
    have hval := strtoul16_of_lower lim.ULONG_MAX _ id hmax hid'
    cases hf : iauth_find_request lim iauth id env with
    | none =>
      simp only [iauth_find_request, List.find?_eq_none, hval] at hf
      exact absurd (by simp) (hf iar hmem)
    | some r =>
      have hr := hf
      simp only [iauth_find_request, hval] at hr
      have h1 := List.mem_of_find?_eq_some hr
      have h2 : (env.requests r).iar_client = (env.requests iar).iar_client := by
        simpa using List.find?_some hr
      exact ⟨r, rfl, h1, h2, fun huniq => huniq r h1 h2⟩
  · intro id hno
    simp only [iauth_find_request, List.find?_eq_none]
    intro x hx
    simpa using hno x hx
  · intro X
    refine ⟨(env.clients X).cli_name ++ [' '] ++ (env.clients X).cli_username ++ [' ']
      ++ (env.clients X).host ++ [' '] ++ (env.clients X).cli_sock_ip ++ [' ']
      ++ (env.clients X).cli_passwd ++ [' ', ':'] ++ (env.clients X).cli_info, ?_⟩
    simp [fullauth_line, List.append_assoc]
  · intro X Y hX hY hne h
    rw [handle_id, handle_id, Nat.mod_eq_of_lt hX, Nat.mod_eq_of_lt hY] at h
    exact hne (fmt_x_injective X Y h)

/-- The round trip in scenario S1: the id `FF00` finds the request of the
client `ff00`. -/
theorem find_request_handle_S1 :
    ∃ r, iauth_find_request ircu (S1_conn [7] true true) "FF00".toList (S1_env true [sent_all 46]) = some r
      ∧ r ∈ (S1_conn [7] true true).i_list_head
      ∧ ((S1_env true [sent_all 46]).requests r).iar_client = ((S1_env true [sent_all 46]).requests 7).iar_client
      ∧ ((∀ r' ∈ (S1_conn [7] true true).i_list_head,
            ((S1_env true [sent_all 46]).requests r').iar_client = ((S1_env true [sent_all 46]).requests 7).iar_client
              → r' = 7)
          → r = 7) :=
  (find_request_handle ircu (S1_conn [7] true true) (S1_env true [sent_all 46])).1 7 "FF00".toList
    (by decide) (by decide) (by decide) (by decide)

/-- C9 (what the code does). Where a pointer and an `unsigned long` have 64
bits, take the client at address `0x10000ff00` (4295032576) with the request
node 7 on the list of a connected connection. `iauth_send_request` queues the
line `FullAuth ff00 ...`: the id is the low 32 bits of the address.
`iauth_find_request` of that id, whose `strtoul` value is `0xff00`, returns no
request, in lower and in upper case. And the client at address `0xff00` is
printed with the same id. -/
theorem handle_id_truncated :
    (iauth_send_request (S1_conn [7] true false) 7
        { S1_env true [sent_all 46] with
          requests := fun _ => { iar_client := 4295032576, iar_timed := false } }).1.i_sendQ.added
      = ["FullAuth ff00 alice u h 1.2.3.4 p :real name".toList]
    ∧ iauth_find_request { ircu with ULONG_MAX := 18446744073709551615 }
        (S1_conn [7] true false) "ff00".toList
        { S1_env true [sent_all 46] with
          requests := fun _ => { iar_client := 4295032576, iar_timed := false } } = none
    ∧ iauth_find_request { ircu with ULONG_MAX := 18446744073709551615 }
        (S1_conn [7] true false) "FF00".toList
        { S1_env true [sent_all 46] with
          requests := fun _ => { iar_client := 4295032576, iar_timed := false } } = none
    ∧ handle_id 4295032576 = handle_id 65280
    ∧ (4295032576 : Nat) ≠ 65280 := by
  refine ⟨by decide, by decide, by decide, by decide, by decide⟩

/-! ## Sending requests -/

theorem write_frame_refl (a : IAuth) : write_frame a a := by
  cases a; rfl

theorem write_frame_trans {a b c : IAuth} (h1 : write_frame a b) (h2 : write_frame b c) :
    write_frame a c := by
  unfold write_frame at *
  rw [h2, h1]

theorem count_sent_frame (a : IAuth) (n : Nat) : write_frame a (count_sent a n) := by
  unfold write_frame count_sent
  cases a
  simp only []
  split <;> rfl

theorem iauth_write_loop_frame : ∀ (os : List SendOutcome) (iauth : IAuth),
    write_frame iauth (iauth_write_loop os iauth).1
    ∧ ((∀ o ∈ os, o.iores ≠ IOResult.IO_FAILURE) →
        (iauth_write_loop os iauth).1.i_flags.IAUTH_CONNECTED = iauth.i_flags.IAUTH_CONNECTED)
    ∧ (∀ o ∈ (iauth_write_loop os iauth).2, o ∈ os) := by
  intro os
  induction os with
  | nil =>
    intro iauth
    rw [iauth_write_loop]
    split
    · refine ⟨?_, fun _ => rfl, by simp⟩
      cases iauth; rfl
    · exact ⟨write_frame_refl _, fun _ => rfl, by simp⟩
  | cons o os ih =>
    intro iauth
    rw [iauth_write_loop]
    split
    · cases hres : o.iores with
      | IO_FAILURE =>
        refine ⟨?_, fun h => absurd hres (h o (by simp)), fun x hx => List.mem_cons_of_mem _ hx⟩
        cases iauth; rfl
      | IO_BLOCKED =>
        refine ⟨?_, fun _ => rfl, fun x hx => List.mem_cons_of_mem _ hx⟩
        cases iauth; rfl
      | IO_SUCCESS =>
        have hs : write_frame iauth
            (count_sent { iauth with i_sendQ := msgq_delete iauth.i_sendQ o.bytes_sent }
              o.bytes_sent) := by
          refine write_frame_trans ?_ (count_sent_frame _ _)
          cases iauth; rfl
        have hc : (count_sent { iauth with i_sendQ := msgq_delete iauth.i_sendQ o.bytes_sent }
              o.bytes_sent).i_flags = iauth.i_flags := by
          unfold count_sent
          simp only []
          split <;> rfl
        simp only []
        split
        · obtain ⟨i1, i2, i3⟩ := ih (count_sent
            { iauth with i_sendQ := msgq_delete iauth.i_sendQ o.bytes_sent } o.bytes_sent)
          refine ⟨write_frame_trans hs i1, ?_, fun x hx => List.mem_cons_of_mem _ (i3 x hx)⟩
          intro h
          rw [i2 (fun x hx => h x (List.mem_cons_of_mem _ hx)), hc]
        · refine ⟨write_frame_trans hs ?_, ?_, fun x hx => List.mem_cons_of_mem _ hx⟩
          · generalize count_sent _ _ = s
            cases s; rfl
          · intro _
            simp only [hc]
    · exact ⟨write_frame_refl _, fun _ => rfl, by simp⟩


theorem write_frame_fields {a b : IAuth} (h : write_frame a b) :
    b.i_list_head = a.i_list_head ∧ b.i_sendQ.added = a.i_sendQ.added
    ∧ b.i_request_timer = a.i_request_timer ∧ b.i_reconn_timer = a.i_reconn_timer
    ∧ b.i_flags.IAUTH_ABORT = a.i_flags.IAUTH_ABORT
    ∧ b.i_flags.IAUTH_ICLASS = a.i_flags.IAUTH_ICLASS
    ∧ b.i_flags.IAUTH_CLOSING = a.i_flags.IAUTH_CLOSING
    ∧ b.i_timeout = a.i_timeout ∧ b.i_reconnect = a.i_reconnect
    ∧ b.i_passwd = a.i_passwd := by
  unfold write_frame at h
  rw [h]
  simp

/-- The environment after `iauth_write` differs at most in the unread
answers of `os_sendv_nonb`, and the connection within `write_frame`; with no
failing answer the connected flag stays as it is. -/
theorem iauth_write_frame (iauth : IAuth) (env : Env) :
    write_frame iauth (iauth_write iauth env).1
    ∧ (iauth_write iauth env).2 = { env with sendv := (iauth_write iauth env).2.sendv }
    ∧ ((∀ o ∈ env.sendv, o.iores ≠ IOResult.IO_FAILURE) →
        (iauth_write iauth env).1.i_flags.IAUTH_CONNECTED = iauth.i_flags.IAUTH_CONNECTED)
    ∧ (∀ o ∈ (iauth_write iauth env).2.sendv, o ∈ env.sendv) := by
  unfold iauth_write
  split
  · exact ⟨write_frame_refl _, rfl, fun _ => rfl, fun _ h => h⟩
  · obtain ⟨h1, h2, h3⟩ := iauth_write_loop_frame env.sendv iauth
    exact ⟨h1, rfl, h2, h3⟩

/-- The effect of `iauth_send_request` on a connected connection. -/
theorem iauth_send_request_connected (iauth : IAuth) (iar : Nat) (env : Env)
    (hc : iauth.i_flags.IAUTH_CONNECTED = true) :
    (iauth_send_request iauth iar env).1.i_sendQ.added
        = iauth.i_sendQ.added ++ [fullauth_line env (env.requests iar).iar_client]
    ∧ (iauth_send_request iauth iar env).1.i_request_timer
        = (if iauth.i_request_timer.t_active then iauth.i_request_timer
           else timer_add env.CurrentTime iauth.i_timeout)
    ∧ (iauth_send_request iauth iar env).2.requests
        = Function.update env.requests iar
            { env.requests iar with iar_timed := !iauth.i_request_timer.t_active }
    ∧ (iauth_send_request iauth iar env).1.i_list_head = iauth.i_list_head
    ∧ (iauth_send_request iauth iar env).2.clients = env.clients
    ∧ (iauth_send_request iauth iar env).2.trace = env.trace
    ∧ (iauth_send_request iauth iar env).2.CurrentTime = env.CurrentTime
    ∧ (iauth_send_request iauth iar env).2.me = env.me
    ∧ ((∀ o ∈ env.sendv, o.iores ≠ IOResult.IO_FAILURE) →
        (iauth_send_request iauth iar env).1.i_flags.IAUTH_CONNECTED = true)
    ∧ (∀ o ∈ (iauth_send_request iauth iar env).2.sendv, o ∈ env.sendv)
    ∧ (iauth_send_request iauth iar env).1.i_timeout = iauth.i_timeout
    ∧ (iauth_send_request iauth iar env).1.i_passwd = iauth.i_passwd
    ∧ (iauth_send_request iauth iar env).1.i_flags.IAUTH_ICLASS = iauth.i_flags.IAUTH_ICLASS := by
  unfold iauth_send_request
  simp only [hc, Bool.not_true, Bool.false_eq_true, if_false]
  generalize hi : (iauth_send
      (if (!iauth.i_request_timer.t_active) = true then
        { iauth with i_request_timer := timer_add env.CurrentTime iauth.i_timeout }
      else iauth)
      (fullauth_line (env.setRequest iar fun r => { r with iar_timed := !iauth.i_request_timer.t_active })
        ((env.setRequest iar fun r => { r with iar_timed := !iauth.i_request_timer.t_active }).requests iar).iar_client))
    = sent
  generalize he : (env.setRequest iar fun r => { r with iar_timed := !iauth.i_request_timer.t_active })
    = env1
  obtain ⟨w1, w2, w3, w4⟩ := iauth_write_frame sent env1
  obtain ⟨f1, f2, f3, f4, f5, f6, f7, f8, f9, f10⟩ := write_frame_fields w1
  have hline : fullauth_line env1 (env1.requests iar).iar_client
      = fullauth_line env (env.requests iar).iar_client := by
    subst he
    simp [fullauth_line, Env.setRequest]
  rw [he] at hi
  rw [hline] at hi
  subst hi
  rw [w2]
  subst he
  refine ⟨?_, ?_, ?_, ?_, ?_, ?_, ?_, ?_, ?_, ?_, ?_, ?_, ?_⟩
  · rw [f2]; cases h : iauth.i_request_timer.t_active <;> simp [iauth_send, msgq_add]
  · rw [f3]; cases h : iauth.i_request_timer.t_active <;> simp [iauth_send]
  · simp [Env.setRequest]
  · rw [f1]; cases h : iauth.i_request_timer.t_active <;> simp [iauth_send]
  · simp [Env.setRequest]
  · simp [Env.setRequest]
  · simp [Env.setRequest]
  · simp [Env.setRequest]
  · intro hno
    rw [w3 (by simpa [Env.setRequest] using hno)]
    cases h : iauth.i_request_timer.t_active <;> simp [iauth_send, hc]
  · intro o ho
    simpa [Env.setRequest] using w4 o ho
  · rw [f8]; cases h : iauth.i_request_timer.t_active <;> simp [iauth_send]
  · rw [f10]; cases h : iauth.i_request_timer.t_active <;> simp [iauth_send]
  · rw [f6]; cases h : iauth.i_request_timer.t_active <;> simp [iauth_send]


theorem iauth_send_request_deferred (iauth : IAuth) (iar : Nat) (env : Env)
    (hc : iauth.i_flags.IAUTH_CONNECTED = false) :
    iauth_send_request iauth iar env = (iauth, env) := by
  simp [iauth_send_request, hc]

theorem fullauth_line_serialize (env : Env) (X : Nat) :
    fullauth_line env X
      = serialize ["FullAuth".toList, handle_id X, (env.clients X).cli_name,
          (env.clients X).cli_username, (env.clients X).host, (env.clients X).cli_sock_ip,
          (env.clients X).cli_passwd, (env.clients X).cli_info] := by
  simp [fullauth_line, serialize, words, spaces, List.append_assoc]

/-- C6. On a connection whose connected flag is clear `iauth_send_request`
changes nothing. Otherwise it adds to the queue exactly the line `FullAuth
<id> <name> <username> <host> <ip> <password> :<info>` of the request's
client; if the request timer was idle it arms it at the current time plus
`i_timeout` and sets the request's `iar_timed`, and if the timer was armed it
leaves the timer alone and clears `iar_timed`. The request list, the clients,
the other request nodes and the calls to collaborators stay as they were. -/
theorem send_request_contract (iauth : IAuth) (iar : Nat) (env : Env) :
    (iauth.i_flags.IAUTH_CONNECTED = false → iauth_send_request iauth iar env = (iauth, env)) ∧
    (iauth.i_flags.IAUTH_CONNECTED = true →
      (iauth_send_request iauth iar env).1.i_sendQ.added
          = iauth.i_sendQ.added ++
            [serialize ["FullAuth".toList, handle_id (env.requests iar).iar_client,
              (env.clients (env.requests iar).iar_client).cli_name,
              (env.clients (env.requests iar).iar_client).cli_username,
              (env.clients (env.requests iar).iar_client).host,
              (env.clients (env.requests iar).iar_client).cli_sock_ip,
              (env.clients (env.requests iar).iar_client).cli_passwd,
              (env.clients (env.requests iar).iar_client).cli_info]]
      ∧ (iauth.i_request_timer.t_active = false →
          (iauth_send_request iauth iar env).1.i_request_timer
              = { t_active := true, t_expire := env.CurrentTime + iauth.i_timeout }
          ∧ ((iauth_send_request iauth iar env).2.requests iar).iar_timed = true)
      ∧ (iauth.i_request_timer.t_active = true →
          (iauth_send_request iauth iar env).1.i_request_timer = iauth.i_request_timer
          ∧ ((iauth_send_request iauth iar env).2.requests iar).iar_timed = false)
      ∧ ((iauth_send_request iauth iar env).2.requests iar).iar_client
          = (env.requests iar).iar_client
      ∧ (∀ other, other ≠ iar →
          (iauth_send_request iauth iar env).2.requests other = env.requests other)
      ∧ (iauth_send_request iauth iar env).1.i_list_head = iauth.i_list_head
      ∧ (iauth_send_request iauth iar env).2.clients = env.clients
      ∧ (iauth_send_request iauth iar env).2.trace = env.trace) := by
  refine ⟨iauth_send_request_deferred iauth iar env, ?_⟩
  intro hc
  obtain ⟨h1, h2, h3, h4, h5, h6, -⟩ := iauth_send_request_connected iauth iar env hc
  refine ⟨?_, ?_, ?_, ?_, ?_, h4, h5, h6⟩
  · rw [h1, fullauth_line_serialize]
  · intro ht
    rw [h2, h3]
    simp [ht, timer_add]
  · intro ht
    rw [h2, h3]
    simp [ht]
  · rw [h3]; simp
  · intro other ho
    rw [h3]
    simp [Function.update_noteq ho]

/-- C6 in scenario S1: the request of `alice` is sent on the connected
connection, and deferred on the one that is not connected. -/
theorem send_request_contract_witness :
    iauth_send_request (S1_conn [7] false false) 7 (S1_env true [sent_all 46])
        = (S1_conn [7] false false, S1_env true [sent_all 46])
    ∧ (iauth_send_request (S1_conn [7] true false) 7 (S1_env true [sent_all 46])).1.i_sendQ.added
        = ["FullAuth ff00 alice u h 1.2.3.4 p :real name".toList]
    ∧ (iauth_send_request (S1_conn [7] true false) 7 (S1_env true [sent_all 46])).1.i_request_timer
        = { t_active := true, t_expire := 1030 } :=
  ⟨(send_request_contract (S1_conn [7] false false) 7 (S1_env true [sent_all 46])).1 (by decide),
   ((send_request_contract (S1_conn [7] true false) 7 (S1_env true [sent_all 46])).2 (by decide)).1.trans
     (by decide),
   (((send_request_contract (S1_conn [7] true false) 7 (S1_env true [sent_all 46])).2 (by decide)).2.1
     (by decide)).1⟩

/-! ## Starting and cancelling requests, the handshake -/

/-- What `iauth_send_request` leaves alone whether or not it sends. -/
theorem iauth_send_request_frame (iauth : IAuth) (iar : Nat) (env : Env) :
    (iauth_send_request iauth iar env).1.i_list_head = iauth.i_list_head
    ∧ (iauth_send_request iauth iar env).2.clients = env.clients
    ∧ (iauth_send_request iauth iar env).2.trace = env.trace
    ∧ (∀ a, ((iauth_send_request iauth iar env).2.requests a).iar_client
          = (env.requests a).iar_client)
    ∧ (∀ a, a ≠ iar → (iauth_send_request iauth iar env).2.requests a = env.requests a)
    ∧ (∀ o ∈ (iauth_send_request iauth iar env).2.sendv, o ∈ env.sendv)
    ∧ (iauth_send_request iauth iar env).2.me = env.me := by
  cases hc : iauth.i_flags.IAUTH_CONNECTED with
  | false =>
    rw [iauth_send_request_deferred iauth iar env hc]
    exact ⟨rfl, rfl, rfl, fun _ => rfl, fun _ _ => rfl, fun _ h => h, rfl⟩
  | true =>
    obtain ⟨-, -, h3, h4, h5, h6, -, h8, -, h10, -⟩ :=
      iauth_send_request_connected iauth iar env hc
    refine ⟨h4, h5, h6, ?_, ?_, h10, h8⟩
    · intro a
      rw [h3]
      by_cases ha : a = iar
      · subst ha; simp
      · simp [Function.update_noteq ha]
    · intro a ha
      rw [h3]
      simp [Function.update_noteq ha]

/-- The effect of `iauth_start_client` when the allocation succeeds. -/
theorem iauth_start_client_effect (iauth : IAuth) (cptr iar : Nat) (env : Env) :
    (iauth_start_client iauth cptr (some iar) env).1 = 0
    ∧ (iauth_start_client iauth cptr (some iar) env).2.1.i_list_head
        = iauth.i_list_head ++ [iar]
    ∧ ((iauth_start_client iauth cptr (some iar) env).2.2.clients cptr).cli_iauth = some iar
    ∧ ((iauth_start_client iauth cptr (some iar) env).2.2.requests iar).iar_client = cptr
    ∧ (∀ other, other ≠ iar →
        (iauth_start_client iauth cptr (some iar) env).2.2.requests other
          = env.requests other) := by
  simp only [iauth_start_client]
  generalize he : Env.setRequest (Env.setClient
      { env with requests := Function.update env.requests iar ⟨0, false⟩ } cptr
        (fun c => { c with cli_iauth := some iar })) iar
      (fun r => { r with iar_client := cptr }) = env1
  obtain ⟨f1, f2, -, f4, f5, -⟩ :=
    iauth_send_request_frame { iauth with i_list_head := iauth.i_list_head ++ [iar] } iar env1
  refine ⟨trivial, f1, ?_, ?_, ?_⟩
  · rw [f2, ← he]; simp [Env.setClient, Env.setRequest]
  · rw [f4, ← he]; simp [Env.setClient, Env.setRequest]
  · intro other ho
    rw [f5 other ho, ← he]
    simp [Env.setClient, Env.setRequest, Function.update_noteq ho]

/-- C7. When the allocation succeeds `iauth_start_client` returns 0, the
request list is the old list followed by the new node, the client's
back-pointer refers to the new node, the new node's client is that client,
and every other node is as before: the requests already listed (none of
which is the freshly allocated node) keep their order and their clients. -/
theorem start_client_appends (iauth : IAuth) (cptr iar : Nat) (env : Env) :
    (iauth_start_client iauth cptr (some iar) env).1 = 0
    ∧ (iauth_start_client iauth cptr (some iar) env).2.1.i_list_head
        = iauth.i_list_head ++ [iar]
    ∧ ((iauth_start_client iauth cptr (some iar) env).2.2.clients cptr).cli_iauth = some iar
    ∧ ((iauth_start_client iauth cptr (some iar) env).2.2.requests iar).iar_client = cptr
    ∧ (∀ other, other ≠ iar →
        (iauth_start_client iauth cptr (some iar) env).2.2.requests other
          = env.requests other)
    ∧ (iar ∉ iauth.i_list_head → ∀ r ∈ iauth.i_list_head,
        ((iauth_start_client iauth cptr (some iar) env).2.2.requests r).iar_client
          = (env.requests r).iar_client) := by
  obtain ⟨h1, h2, h3, h4, h5⟩ := iauth_start_client_effect iauth cptr iar env
  refine ⟨h1, h2, h3, h4, h5, ?_⟩
  intro hfresh r hr
  rw [h5 r (fun e => hfresh (e ▸ hr))]

/-- C7 in scenario S1: a second client joins the list after the first. -/
theorem start_client_appends_witness :
    (iauth_start_client (S1_conn [7] true true) 4660 (some 9)
        (S1_env true [sent_all 46])).2.1.i_list_head = [7, 9]
    ∧ (iauth_start_client (S1_conn [7] true true) 4660 (some 9)
        (S1_env true [sent_all 46])).2.2.requests 7 = (S1_env true [sent_all 46]).requests 7
    ∧ ∀ r ∈ (S1_conn [7] true true).i_list_head,
        ((iauth_start_client (S1_conn [7] true true) 4660 (some 9)
          (S1_env true [sent_all 46])).2.2.requests r).iar_client
          = ((S1_env true [sent_all 46]).requests r).iar_client :=
  ⟨(start_client_appends (S1_conn [7] true true) 4660 9 (S1_env true [sent_all 46])).2.1,
   (start_client_appends (S1_conn [7] true true) 4660 9 (S1_env true [sent_all 46])).2.2.2.2.1 7
     (by decide),
   (start_client_appends (S1_conn [7] true true) 4660 9 (S1_env true [sent_all 46])).2.2.2.2.2
     (by decide)⟩

theorem iauth_dispose_request_effect (iauth : IAuth) (iar : Nat) (env : Env) :
    (iauth_dispose_request iauth iar env).1.i_list_head = iauth.i_list_head.erase iar
    ∧ (iauth_dispose_request iauth iar env).1.i_request_timer
        = (if (env.requests iar).iar_timed && iauth.i_request_timer.t_active
            then timer_del iauth.i_request_timer else iauth.i_request_timer)
    ∧ (iauth_dispose_request iauth iar env).1.i_flags = iauth.i_flags
    ∧ (iauth_dispose_request iauth iar env).1.i_sendQ = iauth.i_sendQ
    ∧ (iauth_dispose_request iauth iar env).2
        = env.setClient (env.requests iar).iar_client (fun c => { c with cli_iauth := none }) := by
  unfold iauth_dispose_request unlink
  simp only []
  refine ⟨?_, ?_, ?_, ?_, trivial⟩ <;> (try split) <;> rfl

/-- C8. On the active connection, `iauth_start_client` of a client with a
freshly allocated node followed by `iauth_exit_client` of that client leaves
the request list as it was and the client's back-pointer null, and
`iauth_exit_client` adds to the queue the one line `ExitUser <id>` if the
connection is connected when it runs, nothing otherwise. -/
theorem start_exit_client (C : IAuth) (others : List IAuth) (env : Env) (X iar : Nat)
    (hfresh : iar ∉ C.i_list_head) :
    ∃ w C2 others2,
      iauth_exit_client
          { iauth_active := (iauth_start_client C X (some iar) env).2.1 :: others,
            env := (iauth_start_client C X (some iar) env).2.2 } X = some w
      ∧ w.iauth_active = C2 :: others2
      ∧ C2.i_list_head = C.i_list_head
      ∧ (w.env.clients X).cli_iauth = none
      ∧ C2.i_sendQ.added
          = (iauth_start_client C X (some iar) env).2.1.i_sendQ.added
            ++ (if (iauth_start_client C X (some iar) env).2.1.i_flags.IAUTH_CONNECTED
                then ["ExitUser ".toList ++ handle_id X] else []) := by
  obtain ⟨-, s2, s3, s4, -⟩ := iauth_start_client_effect C X iar env
  generalize (iauth_start_client C X (some iar) env).2.1 = C1 at *
  generalize (iauth_start_client C X (some iar) env).2.2 = env1 at *
  obtain ⟨d1, -, d3, d4, d5⟩ := iauth_dispose_request_effect C1 iar env1
  have hlist : (iauth_dispose_request C1 iar env1).1.i_list_head = C.i_list_head := by
    rw [d1, s2, List.erase_append_right _ hfresh]
    simp
  simp only [iauth_exit_client, s3, Option.map_some']
  cases hc : C1.i_flags.IAUTH_CONNECTED with
  | false =>
    have hc' : (iauth_dispose_request C1 iar env1).1.i_flags.IAUTH_CONNECTED = false := by
      rw [d3]; exact hc
    simp only [hc', Bool.false_eq_true, if_false]
    refine ⟨_, _, _, rfl, rfl, hlist, ?_, ?_⟩
    · simp [Env.setClient]
    · simp [d4]
  | true =>
    have hc' : (iauth_dispose_request C1 iar env1).1.i_flags.IAUTH_CONNECTED = true := by
      rw [d3]; exact hc
    simp only [hc', if_true]
    generalize hq : iauth_send (iauth_dispose_request C1 iar env1).1
      ("ExitUser ".toList ++ handle_id X) = queued
    generalize he : (iauth_dispose_request C1 iar env1).2.setClient X
      (fun c => { c with cli_iauth := none }) = env2
    obtain ⟨w1, w2, -, -⟩ := iauth_write_frame queued env2
    obtain ⟨f1, f2, -⟩ := write_frame_fields w1
    refine ⟨_, _, _, rfl, rfl, ?_, ?_, ?_⟩
    · rw [f1, ← hq]; exact hlist
    · rw [w2, ← he]; simp [Env.setClient]
    · rw [f2, ← hq]; simp [iauth_send, msgq_add, d4]

/-- C8 in scenario S1: `alice` is started on the connected connection and
exits at once. -/
theorem start_exit_client_witness :
    ∃ w C2 others2,
      iauth_exit_client
          { iauth_active :=
              (iauth_start_client (S1_conn [] true false) 65280 (some 7) (S1_env false [sent_all 46, sent_all 15])).2.1 :: [],
            env := (iauth_start_client (S1_conn [] true false) 65280 (some 7) (S1_env false [sent_all 46, sent_all 15])).2.2 }
          65280 = some w
      ∧ w.iauth_active = C2 :: others2
      ∧ C2.i_list_head = (S1_conn [] true false).i_list_head
      ∧ (w.env.clients 65280).cli_iauth = none
      ∧ C2.i_sendQ.added
          = (iauth_start_client (S1_conn [] true false) 65280 (some 7) (S1_env false [sent_all 46, sent_all 15])).2.1.i_sendQ.added
            ++ (if (iauth_start_client (S1_conn [] true false) 65280 (some 7)
                  (S1_env false [sent_all 46, sent_all 15])).2.1.i_flags.IAUTH_CONNECTED
                then ["ExitUser ".toList ++ handle_id 65280] else []) :=
  start_exit_client (S1_conn [] true false) [] (S1_env false [sent_all 46, sent_all 15]) 65280 7 (by decide)


theorem fullauth_line_congr (env env1 : Env) (X : Nat) (h : env1.clients = env.clients) :
    fullauth_line env1 X = fullauth_line env X := by
  simp [fullauth_line, h]

/-- The loop of lines 388 to 391 on a connected connection whose sends do not
fail: one `FullAuth` line per listed request, in list order. -/
theorem send_request_fold : ∀ (L : List Nat) (iauth : IAuth) (env : Env),
    iauth.i_flags.IAUTH_CONNECTED = true →
    (∀ o ∈ env.sendv, o.iores ≠ IOResult.IO_FAILURE) →
    (L.foldl (fun s iar => iauth_send_request s.1 iar s.2) (iauth, env)).1.i_sendQ.added
        = iauth.i_sendQ.added
          ++ L.map (fun iar => fullauth_line env (env.requests iar).iar_client)
    ∧ (L.foldl (fun s iar => iauth_send_request s.1 iar s.2)
        (iauth, env)).1.i_flags.IAUTH_CONNECTED = true
    ∧ (L.foldl (fun s iar => iauth_send_request s.1 iar s.2) (iauth, env)).1.i_list_head
        = iauth.i_list_head
    ∧ (∀ o ∈ (L.foldl (fun s iar => iauth_send_request s.1 iar s.2) (iauth, env)).2.sendv,
        o.iores ≠ IOResult.IO_FAILURE) := by
  intro L
  induction L with
  | nil => intro iauth env hc hok; exact ⟨by simp, hc, rfl, hok⟩
  | cons a L ih =>
    intro iauth env hc hok
    obtain ⟨h1, -, -, h4, -, -, -, -, h9, h10, -⟩ := iauth_send_request_connected iauth a env hc
    obtain ⟨-, f2, -, f4, -, -, -⟩ := iauth_send_request_frame iauth a env
    have hok1 : ∀ o ∈ (iauth_send_request iauth a env).2.sendv, o.iores ≠ IOResult.IO_FAILURE :=
      fun o ho => hok o (h10 o ho)
    obtain ⟨i1, i2, i3, i4⟩ := ih (iauth_send_request iauth a env).1
      (iauth_send_request iauth a env).2 (h9 hok) hok1
    simp only [List.foldl_cons, List.map_cons]
    generalize iauth_send_request iauth a env = r at *
    have hmap : L.map (fun iar => fullauth_line r.2 (r.2.requests iar).iar_client)
        = L.map (fun iar => fullauth_line env (env.requests iar).iar_client) := by
      apply List.map_congr_left
      intro b _
      rw [f4 b, fullauth_line_congr env r.2 _ f2]
    refine ⟨?_, i2, i3.trans h4, i4⟩
    rw [i1, h1, hmap, List.append_assoc]
    rfl

/-- C10. When no send fails, `iauth_on_connect` adds to the queue, in this
order, the greeting `Server <name>` (with the password appended when one is
stored), `EndUsers` if the announce flag is set, and one `FullAuth` line per
listed request in list order; it sets the connected flag and leaves the
request list as it was. -/
theorem on_connect_burst (iauth : IAuth) (env : Env)
    (hok : ∀ o ∈ env.sendv, o.iores ≠ IOResult.IO_FAILURE) :
    (iauth_on_connect iauth env).1.i_sendQ.added
        = iauth.i_sendQ.added
          ++ [if iauth.i_passwd = [] then "Server ".toList ++ env.me
              else "Server ".toList ++ env.me ++ [' '] ++ iauth.i_passwd]
          ++ (if iauth.i_flags.IAUTH_ICLASS then ["EndUsers".toList] else [])
          ++ iauth.i_list_head.map
              (fun iar => fullauth_line env (env.requests iar).iar_client)
    ∧ (iauth_on_connect iauth env).1.i_flags.IAUTH_CONNECTED = true
    ∧ (iauth_on_connect iauth env).1.i_list_head = iauth.i_list_head := by
  unfold iauth_on_connect
  simp only []
  generalize hg : (if EmptyString iauth.i_passwd = true then
      iauth_send iauth ("Server ".toList ++ env.me)
    else iauth_send iauth ("Server ".toList ++ env.me ++ [' '] ++ iauth.i_passwd)) = greeted
  have g1 : greeted.i_sendQ.added = iauth.i_sendQ.added
      ++ [if iauth.i_passwd = [] then "Server ".toList ++ env.me
          else "Server ".toList ++ env.me ++ [' '] ++ iauth.i_passwd] := by
    rw [← hg]
    cases h : iauth.i_passwd <;> simp [EmptyString, iauth_send, msgq_add]
  have g2 : greeted.i_list_head = iauth.i_list_head ∧ greeted.i_flags = iauth.i_flags := by
    rw [← hg]
    constructor <;> split <;> rfl
  generalize hu : (if greeted.i_flags.IAUTH_ICLASS = true then iauth_send greeted "EndUsers".toList
    else greeted) = announced
  have u1 : announced.i_sendQ.added = greeted.i_sendQ.added
      ++ (if iauth.i_flags.IAUTH_ICLASS then ["EndUsers".toList] else []) := by
    rw [← hu, g2.2]
    cases h : iauth.i_flags.IAUTH_ICLASS <;> simp [iauth_send, msgq_add]
  have u2 : announced.i_list_head = iauth.i_list_head := by
    rw [← hu, ← g2.1]
    split <;> rfl
  obtain ⟨l1, l2, l3, l4⟩ := send_request_fold announced.i_list_head
    { announced with i_flags := { announced.i_flags with IAUTH_CONNECTED := true } } env rfl hok
  simp only [] at l1 l2 l3 l4
  generalize List.foldl (fun s iar => iauth_send_request s.1 iar s.2)
    ({ announced with i_flags := { announced.i_flags with IAUTH_CONNECTED := true } }, env)
    announced.i_list_head = sent at *
  obtain ⟨w1, -, w3, -⟩ := iauth_write_frame sent.1 sent.2
  obtain ⟨f1, f2, -⟩ := write_frame_fields w1
  refine ⟨?_, ?_, ?_⟩
  · rw [f2, l1, u1, g1, u2]
  · rw [w3 l4, l2]
  · rw [f1, l3, u2]


/-- C10 in scenario S1: the handshake of the connection that holds the
request of `alice`. -/
theorem on_connect_burst_witness :
    (iauth_on_connect (S1_conn [7] false false) (S1_env true [sent_all 69])).1.i_sendQ.added
        = ["Server srv1".toList, "EndUsers".toList,
           "FullAuth ff00 alice u h 1.2.3.4 p :real name".toList]
    ∧ (iauth_on_connect (S1_conn [7] false false)
        (S1_env true [sent_all 69])).1.i_flags.IAUTH_CONNECTED = true :=
  ⟨(on_connect_burst (S1_conn [7] false false) (S1_env true [sent_all 69])
      (by decide)).1.trans (by decide),
   (on_connect_burst (S1_conn [7] false false) (S1_env true [sent_all 69]) (by decide)).2.1⟩

/-! ## The command handlers and the dispatcher -/

theorem find_request_mem (lim : Limits) (iauth : IAuth) (id : List Char) (env : Env) (iar : Nat)
    (h : iauth_find_request lim iauth id env = some iar) : iar ∈ iauth.i_list_head :=
  List.mem_of_find?_eq_some h

/-- C2. With at least three arguments, a non-empty reason and an id that
names a listed request, `iauth_cmd_badauth` takes the request off the list,
clears the client's back-pointer and passes the client to `exit_client` with
the reason `argv[2]` as it stands; with an empty reason it reports one
protocol violation and changes nothing else. The reason of a line `BadAuth
<id> :<reason>` reaches the handler whole, spaces included. -/
theorem badauth_contract (lim : Limits) (iauth : IAuth) (argv : List (List Char)) (env : Env) :
    (∀ iar X, 3 ≤ argv.length → argv.getD 2 [] ≠ [] →
      iauth_find_request lim iauth (argv.getD 1 []) env = some iar →
      (env.requests iar).iar_client = X →
      iar ∈ iauth.i_list_head
      ∧ (iauth_cmd_badauth lim iauth argv env).1.i_list_head = iauth.i_list_head.erase iar
      ∧ (iauth_cmd_badauth lim iauth argv env).2.clients
          = Function.update env.clients X { env.clients X with cli_iauth := none }
      ∧ (iauth_cmd_badauth lim iauth argv env).2.trace
          = env.trace ++ [Ext.exit_client X (argv.getD 2 [])]) ∧
    (3 ≤ argv.length → argv.getD 2 [] = [] →
      iauth_cmd_badauth lim iauth argv env
        = (iauth, { env with trace := env.trace ++ [Ext.protocol_violation
            ("IAuth protocol violation: Empty BadAuth reason for id ".toList
              ++ argv.getD 1 [])] })) ∧
    (∀ (id reason : List Char), plain_param id → NUL ∉ reason → 3 ≤ lim.MAXPARA →
      tokenize lim.MAXPARA ("BadAuth ".toList ++ id ++ " :".toList ++ reason)
        = some ["BadAuth".toList, id, reason]) := by
  refine ⟨?_, ?_, ?_⟩
  · intro iar X h hr hf hX
    have h' : ¬ argv.length < 3 := by omega
    have hr' : EmptyString (argv.getD 2 []) = false := by
      cases hq : argv.getD 2 [] with
      | nil => exact absurd hq hr
      | cons a b => rfl
    refine ⟨find_request_mem lim iauth _ env iar hf, ?_⟩
    subst hX
    unfold iauth_cmd_badauth
    simp only [if_neg h', hr', Bool.false_eq_true, if_false, hf]
    obtain ⟨d1, -, -, -, d5⟩ := iauth_dispose_request_effect iauth iar env
    refine ⟨d1, ?_, ?_⟩
    · simp only [exit_client, Env.note, d5, Env.setClient]
    · simp only [exit_client, Env.note, d5, Env.setClient]
  · intro h hr
    have h' : ¬ argv.length < 3 := by omega
    unfold iauth_cmd_badauth
    simp only [if_neg h', hr]
    simp [EmptyString, iauth_protocol_violation, Env.note]
  · intro id reason hid hreason hM
    have := tokenize_words_colon lim.MAXPARA 0 [("BadAuth".toList, 0), (id, 0)] reason
      (by
        intro p hp
        simp only [List.mem_cons, List.mem_singleton, List.not_mem_nil, or_false] at hp
        rcases hp with rfl | rfl
        · decide
        · exact hid)
      hreason (by simpa using hM)
    simpa [spaces, words, List.append_assoc] using this

/-- C2 in scenario S2: the reply `BadAuth ff00 :banned by policy`. -/
theorem badauth_contract_witness :
    (iauth_cmd_badauth ircu (S1_conn [7] true true)
        ["BadAuth".toList, "ff00".toList, "banned by policy".toList] (S1_env true [])).1.i_list_head
      = []
    ∧ (iauth_cmd_badauth ircu (S1_conn [7] true true)
        ["BadAuth".toList, "ff00".toList, "banned by policy".toList] (S1_env true [])).2.trace
      = [Ext.exit_client 65280 "banned by policy".toList]
    ∧ tokenize ircu.MAXPARA ("BadAuth ".toList ++ "ff00".toList ++ " :".toList
          ++ "banned by policy".toList)
      = some ["BadAuth".toList, "ff00".toList, "banned by policy".toList] := by
  have h := (badauth_contract ircu (S1_conn [7] true true)
    ["BadAuth".toList, "ff00".toList, "banned by policy".toList] (S1_env true [])).1 7 65280
    (by decide) (by decide) (by decide) (by decide)
  exact ⟨h.2.1.trans (by decide), h.2.2.2.trans (by decide),
    (badauth_contract ircu (S1_conn [7] true true) [] (S1_env true [])).2.2
      "ff00".toList "banned by policy".toList (by decide) (by decide) (by decide)⟩


theorem find_request_congr (lim : Limits) (a b : IAuth) (id : List Char) (env : Env)
    (h : b.i_list_head = a.i_list_head) :
    iauth_find_request lim b id env = iauth_find_request lim a id env := by
  simp only [iauth_find_request, h]

theorem iauth_cmd_doneauth_rejected (lim : Limits) (iauth : IAuth) (argv : List (List Char))
    (env : Env)
    (h : argv.length < 5 ∨ iauth_find_request lim iauth (argv.getD 1 []) env = none) :
    ∃ text, ∀ b : IAuth, b.i_list_head = iauth.i_list_head →
      iauth_cmd_doneauth lim b argv env
        = (b, { env with trace := env.trace ++ [Ext.protocol_violation text] }) := by
  by_cases h5 : argv.length < 5
  · refine ⟨"IAuth protocol violation: ".toList ++ ("Only ".toList ++ fmt_d argv.length
      ++ " parameters for DoneAuth (expected >=5)".toList), fun b _ => ?_⟩
    unfold iauth_cmd_doneauth
    simp only [if_pos h5, iauth_protocol_violation, Env.note]
  · have hf := h.resolve_left h5
    refine ⟨"IAuth protocol violation: ".toList
      ++ ("Got unexpected DoneAuth for id ".toList ++ argv.getD 1 []), fun b hb => ?_⟩
    rw [← find_request_congr lim iauth b _ env hb] at hf
    unfold iauth_cmd_doneauth
    simp only [if_neg h5, hf]
    simp only [iauth_protocol_violation, Env.note]

theorem iauth_cmd_badauth_rejected (lim : Limits) (iauth : IAuth) (argv : List (List Char))
    (env : Env)
    (h : argv.length < 3 ∨ argv.getD 2 [] = []
      ∨ iauth_find_request lim iauth (argv.getD 1 []) env = none) :
    ∃ text, ∀ b : IAuth, b.i_list_head = iauth.i_list_head →
      iauth_cmd_badauth lim b argv env
        = (b, { env with trace := env.trace ++ [Ext.protocol_violation text] }) := by
  by_cases h3 : argv.length < 3
  · refine ⟨"IAuth protocol violation: ".toList ++ ("Only ".toList ++ fmt_d argv.length
      ++ " parameters for BadAuth (expected >=3)".toList), fun b _ => ?_⟩
    unfold iauth_cmd_badauth
    simp only [if_pos h3, iauth_protocol_violation, Env.note]
  · by_cases hr : argv.getD 2 [] = []
    · refine ⟨"IAuth protocol violation: ".toList
        ++ ("Empty BadAuth reason for id ".toList ++ argv.getD 1 []), fun b _ => ?_⟩
      unfold iauth_cmd_badauth
      simp only [if_neg h3, hr]
      simp only [EmptyString, List.isEmpty_nil, if_true, iauth_protocol_violation, Env.note]
    · have hf := (h.resolve_left h3).resolve_left hr
      have hr' : EmptyString (argv.getD 2 []) = false := by
        cases hq : argv.getD 2 [] with
        | nil => exact absurd hq hr
        | cons a b => rfl
      refine ⟨"IAuth protocol violation: ".toList
        ++ ("Got unexpected BadAuth for id ".toList ++ argv.getD 1 []), fun b hb => ?_⟩
      rw [← find_request_congr lim iauth b _ env hb] at hf
      unfold iauth_cmd_badauth
      simp only [if_neg h3, hr', Bool.false_eq_true, if_false, hf]
      simp only [iauth_protocol_violation, Env.note]

theorem not_both_commands (a : List Char) (h1 : ircd_strcmp_eq "DoneAuth".toList a = true)
    (h2 : ircd_strcmp_eq "BadAuth".toList a = true) : False := by
  simp only [ircd_strcmp_eq, decide_eq_true_eq] at h1 h2
  have := congrArg List.length (h1.trans h2.symm)
  simp at this

/-- The dispatcher on a line that is not accepted: the connection is
untouched and the environment gains at most one notice, the same for every
connection record with this request list and a clear abort flag. -/
theorem iauth_dispatch_rejected (lim : Limits) (iauth : IAuth) (argv : List (List Char))
    (env : Env) (hrej : rejected lim iauth argv env) :
    ∃ notices : List Ext,
      (∀ b : IAuth, b.i_list_head = iauth.i_list_head → b.i_flags.IAUTH_ABORT = false →
        iauth_dispatch lim b argv env = (b, { env with trace := env.trace ++ notices }))
      ∧ (known_command argv = true → ∃ text, notices = [Ext.protocol_violation text])
      ∧ (known_command argv = false → notices = []) := by
  by_cases hd : ircd_strcmp_eq "DoneAuth".toList (argv.headD []) = true
  · have hk : known_command argv = true := by
      simp only [known_command, iauth_cmdtab, List.any_cons, hd, Bool.true_or]
    have hlen : argv.length > 0 := by
      cases argv with
      | nil => exact absurd hd (by decide)
      | cons a b => simp
    have hcase : argv.length < 5 ∨ iauth_find_request lim iauth (argv.getD 1 []) env = none := by
      rcases hrej with h | h | h
      · rw [hk] at h; exact absurd h (by decide)
      · exact h.2
      · exact (not_both_commands _ hd h.1).elim
    obtain ⟨text, ht⟩ := iauth_cmd_doneauth_rejected lim iauth argv env hcase
    refine ⟨[Ext.protocol_violation text], ?_, fun _ => ⟨text, rfl⟩, fun h => ?_⟩
    · intro b hb habort
      simp only [iauth_dispatch, if_pos hlen, iauth_cmdtab, List.find?_cons, hd, ht b hb, habort]
      rfl
    · rw [hk] at h; exact absurd h (by decide)
  · by_cases hb : ircd_strcmp_eq "BadAuth".toList (argv.headD []) = true
    · have hk : known_command argv = true := by
        simp only [known_command, iauth_cmdtab, List.any_cons, hb, Bool.true_or, Bool.or_true]
      have hlen : argv.length > 0 := by
        cases argv with
        | nil => exact absurd hb (by decide)
        | cons a b => simp
      have hcase : argv.length < 3 ∨ argv.getD 2 [] = []
          ∨ iauth_find_request lim iauth (argv.getD 1 []) env = none := by
        rcases hrej with h | h | h
        · rw [hk] at h; exact absurd h (by decide)
        · exact absurd h.1 hd
        · exact h.2
      obtain ⟨text, ht⟩ := iauth_cmd_badauth_rejected lim iauth argv env hcase
      have hd' : ircd_strcmp_eq "DoneAuth".toList (argv.headD []) = false := by
        simpa using hd
      refine ⟨[Ext.protocol_violation text], ?_, fun _ => ⟨text, rfl⟩, fun h => ?_⟩
      · intro b hbl habort
        simp only [iauth_dispatch, if_pos hlen, iauth_cmdtab, List.find?_cons, hd', hb,
          ht b hbl, habort]
        rfl
      · rw [hk] at h; exact absurd h (by decide)
    · have hd' : ircd_strcmp_eq "DoneAuth".toList (argv.headD []) = false := by
        simpa using hd
      have hb' : ircd_strcmp_eq "BadAuth".toList (argv.headD []) = false := by
        simpa using hb
      have hk : known_command argv = false := by
        simp only [known_command, iauth_cmdtab, List.any_cons, hd', hb', List.any_nil,
          Bool.or_self]
      refine ⟨[], ?_, fun h => ?_, fun _ => rfl⟩
      · intro b _ _
        unfold iauth_dispatch
        split
        · simp only [iauth_cmdtab, List.find?_cons, hd', hb', List.find?_nil, List.append_nil]
        · simp
      · rw [hk] at h; exact absurd h (by decide)

/-- The loop of `iauth_read` at an end-of-line byte that completes a
buffered line: the line is counted and dispatched, and the buffer restarts
empty. -/
theorem iauth_read_loop_eol (lim : Limits) (iauth : IAuth) (env : Env) (line : List Char)
    (argv : List (List Char)) (c : Char) (src : List Char)
    (hc : IsEol c = true) (hline : line ≠ [])
    (htok : tokenize lim.MAXPARA line = some argv) :
    iauth_read_loop lim (c :: src) line iauth env
      = iauth_read_loop lim src []
          (iauth_dispatch lim { iauth with i_recvM := (iauth.i_recvM + 1) % 2 ^ 32 } argv env).1
          (iauth_dispatch lim { iauth with i_recvM := (iauth.i_recvM + 1) % 2 ^ 32 } argv env).2 := by
  have hne : line.isEmpty = false := by
    cases line with
    | nil => exact absurd rfl hline
    | cons a b => rfl
  rw [iauth_read_loop]
  simp only [hc, if_true, hne, Bool.false_eq_true, if_false, htok]

/-- Bytes that are not end-of-line bytes and fit the buffer are appended to
the buffered line. -/
theorem iauth_read_loop_plain (lim : Limits) (src : List Char) (iauth : IAuth) (env : Env) :
    ∀ (bytes line : List Char), (∀ b ∈ bytes, IsEol b = false) →
    (line ++ bytes).length ≤ lim.BUFSIZE →
    iauth_read_loop lim (bytes ++ src) line iauth env
      = iauth_read_loop lim src (line ++ bytes) iauth env := by
  intro bytes
  induction bytes with
  | nil => intro line _ _; simp
  | cons b bs ih =>
    intro line hplain hlen
    have hb : IsEol b = false := hplain b (by simp)
    have hlt : line.length < lim.BUFSIZE := by
      simp only [List.length_append, List.length_cons] at hlen
      omega
    rw [List.cons_append, iauth_read_loop]
    simp only [hb, Bool.false_eq_true, if_false, if_pos hlt]
    rw [ih (line ++ [b]) (fun x hx => hplain x (List.mem_cons_of_mem _ hx))
      (by simpa [List.append_assoc] using hlen)]
    simp [List.append_assoc]

theorem count_received_frame (iauth : IAuth) (n : Nat) :
    (count_received iauth n).i_list_head = iauth.i_list_head
    ∧ (count_received iauth n).i_flags = iauth.i_flags
    ∧ (count_received iauth n).i_recvM = iauth.i_recvM
    ∧ (count_received iauth n).i_buffer = iauth.i_buffer
    ∧ (count_received iauth n).i_count = iauth.i_count := by
  unfold count_received
  simp only []
  refine ⟨?_, ?_, ?_, ?_, ?_⟩ <;> split <;> rfl

theorem rejected_congr (lim : Limits) (a b : IAuth) (argv : List (List Char)) (env : Env)
    (h : b.i_list_head = a.i_list_head) (hr : rejected lim a argv env) :
    rejected lim b argv env := by
  simpa only [rejected, iauth_find_request, h] using hr


/-- C3. When an end-of-line byte completes a buffered line that is not
accepted, on a connection whose abort flag is clear, the rest of the input is
processed from a state in which the received-message counter has advanced by
one, the line buffer is empty and nothing else of the connection, the clients
or the request nodes has changed; one protocol-violation notice has been
issued if the command is one of the table, and none otherwise. In
particular a read that brings exactly such a line and its end-of-line byte
into an empty buffer changes only the receive registers of the connection
and appends those notices to the calls made. -/
theorem rejected_line (lim : Limits) (iauth : IAuth) (env : Env) (line : List Char)
    (argv : List (List Char)) (c : Char)
    (hc : IsEol c = true) (hline : line ≠ [])
    (htok : tokenize lim.MAXPARA line = some argv)
    (habort : iauth.i_flags.IAUTH_ABORT = false) (hrej : rejected lim iauth argv env) :
    ∃ notices : List Ext,
      (known_command argv = true → ∃ text, notices = [Ext.protocol_violation text])
      ∧ (known_command argv = false → notices = [])
      ∧ (∀ src : List Char,
          iauth_read_loop lim (c :: src) line iauth env
            = iauth_read_loop lim src []
                { iauth with i_recvM := (iauth.i_recvM + 1) % 2 ^ 32 }
                { env with trace := env.trace ++ notices })
      ∧ (iauth.i_count = 0 → (∀ b ∈ line, IsEol b = false) → line.length ≤ lim.BUFSIZE →
          line.length + 1 ≤ lim.SERVER_TCP_WINDOW → ∀ attempt : ConnectAttempt,
          iauth_read lim IOResult.IO_SUCCESS (line ++ [c]) attempt iauth env
            = some ({ count_received iauth (line.length + 1) with
                        i_recvM := (iauth.i_recvM + 1) % 2 ^ 32, i_count := 0, i_buffer := [] },
                    { env with trace := env.trace ++ notices })) := by
  obtain ⟨notices, h1, h2, h3⟩ := iauth_dispatch_rejected lim iauth argv env hrej
  refine ⟨notices, h2, h3, ?_, ?_⟩
  · intro src
    rw [iauth_read_loop_eol lim iauth env line argv c src hc hline htok,
      h1 { iauth with i_recvM := (iauth.i_recvM + 1) % 2 ^ 32 } rfl habort]
  · intro hcount hplain hlen hwin attempt
    obtain ⟨f1, f2, f3, -, -⟩ := count_received_frame iauth (line.length + 1)
    have hlen1 : (line ++ [c]).length = line.length + 1 := by simp
    have htake : List.take lim.SERVER_TCP_WINDOW (line ++ [c]) = line ++ [c] :=
      List.take_of_length_le (by omega)
    have hloop : iauth_read_loop lim (line ++ [c]) [] (count_received iauth (line.length + 1)) env
        = some ([], { count_received iauth (line.length + 1) with
                        i_recvM := (iauth.i_recvM + 1) % 2 ^ 32 },
                    { env with trace := env.trace ++ notices }) := by
      rw [iauth_read_loop_plain lim [c] _ env line [] hplain (by simpa using hlen),
        List.nil_append,
        iauth_read_loop_eol lim _ env line argv c [] hc hline htok,
        h1 { count_received iauth (line.length + 1) with
              i_recvM := ((count_received iauth (line.length + 1)).i_recvM + 1) % 2 ^ 32 }
          f1 (by rw [← habort, ← f2]), f3]
      rfl
    unfold iauth_read
    simp only [if_true, htake, hlen1, hcount, List.take_zero]
    rw [if_neg (by simp), hloop]
    rfl

/-- C3 in scenario S6: the line `DoneAuth deadbeef` and the end-of-line byte
after it, read into the empty buffer of the connection of scenario S1. -/
theorem rejected_line_witness :
    ∃ notices : List Ext,
      (known_command ["DoneAuth".toList, "deadbeef".toList] = true →
          ∃ text, notices = [Ext.protocol_violation text])
      ∧ (known_command ["DoneAuth".toList, "deadbeef".toList] = false → notices = [])
      ∧ (∀ src : List Char,
          iauth_read_loop ircu (Char.ofNat 10 :: src) "DoneAuth deadbeef".toList
              (S1_conn [7] true true) (S1_env true [])
            = iauth_read_loop ircu src []
                { S1_conn [7] true true with
                    i_recvM := ((S1_conn [7] true true).i_recvM + 1) % 2 ^ 32 }
                { S1_env true [] with trace := (S1_env true []).trace ++ notices })
      ∧ ((S1_conn [7] true true).i_count = 0 →
          (∀ b ∈ "DoneAuth deadbeef".toList, IsEol b = false) →
          "DoneAuth deadbeef".toList.length ≤ ircu.BUFSIZE →
          "DoneAuth deadbeef".toList.length + 1 ≤ ircu.SERVER_TCP_WINDOW →
          ∀ attempt : ConnectAttempt,
          iauth_read ircu IOResult.IO_SUCCESS ("DoneAuth deadbeef".toList ++ [Char.ofNat 10])
              attempt (S1_conn [7] true true) (S1_env true [])
            = some ({ count_received (S1_conn [7] true true)
                          ("DoneAuth deadbeef".toList.length + 1) with
                        i_recvM := ((S1_conn [7] true true).i_recvM + 1) % 2 ^ 32,
                        i_count := 0, i_buffer := [] },
                    { S1_env true [] with trace := (S1_env true []).trace ++ notices })) :=
  rejected_line ircu (S1_conn [7] true true) (S1_env true []) "DoneAuth deadbeef".toList
    ["DoneAuth".toList, "deadbeef".toList] (Char.ofNat 10) (by decide) (by decide)
    (by decide) (by decide) (Or.inr (Or.inl ⟨by decide, Or.inl (by decide)⟩))

/-! ## The line buffer and the message counter -/

/-- Bytes that are not end-of-line bytes are appended to the buffered line as
long as it holds fewer than `BUFSIZE` bytes, and are dropped after that. -/
theorem iauth_read_loop_run (lim : Limits) (src : List Char) (iauth : IAuth) (env : Env) :
    ∀ (bytes line : List Char), (∀ b ∈ bytes, IsEol b = false) →
    line.length ≤ lim.BUFSIZE →
    iauth_read_loop lim (bytes ++ src) line iauth env
      = iauth_read_loop lim src ((line ++ bytes).take lim.BUFSIZE) iauth env := by
  intro bytes
  induction bytes with
  | nil =>
    intro line _ hlen
    simp [List.take_of_length_le hlen]
  | cons b bs ih =>
    intro line hplain hlen
    have hb : IsEol b = false := hplain b (by simp)
    have hbs : ∀ x ∈ bs, IsEol x = false := fun x hx => hplain x (List.mem_cons_of_mem _ hx)
    rw [List.cons_append, iauth_read_loop]
    simp only [hb, Bool.false_eq_true, if_false]
    by_cases hlt : line.length < lim.BUFSIZE
    · rw [if_pos hlt, ih (line ++ [b]) hbs (by simp; omega)]
      simp [List.append_assoc]
    · have heq : line.length = lim.BUFSIZE := by omega
      rw [if_neg hlt, ih line hbs hlen]
      have h1 : (line ++ bs).take lim.BUFSIZE = line := by
        rw [← heq, List.take_left']
        rfl
      have h2 : (line ++ b :: bs).take lim.BUFSIZE = line := by
        rw [← heq, List.take_left']
        rfl
      rw [h1, h2]

theorem iauth_dispose_request_recvM (iauth : IAuth) (iar : Nat) (env : Env) :
    (iauth_dispose_request iauth iar env).1.i_recvM = iauth.i_recvM := by
  unfold iauth_dispose_request
  simp only []
  split <;> rfl

theorem iauth_dispatch_recvM (lim : Limits) (iauth : IAuth) (argv : List (List Char))
    (env : Env) : (iauth_dispatch lim iauth argv env).1.i_recvM = iauth.i_recvM := by
  have hd : (iauth_cmd_doneauth lim iauth argv env).1.i_recvM = iauth.i_recvM := by
    unfold iauth_cmd_doneauth
    split
    · rfl
    · simp only []
      split
      · rfl
      · exact iauth_dispose_request_recvM _ _ _
  have hb : (iauth_cmd_badauth lim iauth argv env).1.i_recvM = iauth.i_recvM := by
    unfold iauth_cmd_badauth
    split
    · rfl
    · simp only []
      split
      · rfl
      · split
        · rfl
        · exact iauth_dispose_request_recvM _ _ _
  have hdis : ∀ a : IAuth, (if a.i_flags.IAUTH_ABORT = true then iauth_disconnect a else a).i_recvM
      = a.i_recvM := by
    intro a; split <;> rfl
  unfold iauth_dispatch
  split
  · simp only [iauth_cmdtab, List.find?_cons]
    split
    · rename_i e he
      split at he
      · cases he
        simp only [hdis, hd]
      · split at he
        · cases he
          simp only [hdis, hb]
        · simp at he
    · rfl
  · rfl


/-- The loop of `iauth_read` always returns; it advances the message counter
once per end-of-line byte that finds the buffer occupied, and never holds
more than `BUFSIZE` bytes. -/
theorem iauth_read_loop_count (lim : Limits) (hB : 1 ≤ lim.BUFSIZE) :
    ∀ (chunk line : List Char) (iauth : IAuth) (env : Env),
    iauth.i_recvM < 2 ^ 32 → line.length ≤ lim.BUFSIZE →
    ∃ r, iauth_read_loop lim chunk line iauth env = some r
      ∧ r.2.1.i_recvM = (iauth.i_recvM + completed_lines chunk (!line.isEmpty)) % 2 ^ 32
      ∧ r.1.length ≤ lim.BUFSIZE := by
  intro chunk
  induction chunk with
  | nil =>
    intro line iauth env hM hlen
    refine ⟨_, rfl, ?_, hlen⟩
    simp only [completed_lines, Nat.add_zero]
    exact (Nat.mod_eq_of_lt hM).symm
  | cons c cs ih =>
    intro line iauth env hM hlen
    rw [iauth_read_loop]
    by_cases hc : IsEol c = true
    · simp only [hc, if_true]
      cases hl : line.isEmpty with
      | true =>
        obtain ⟨r, h1, h2, h3⟩ := ih line iauth env hM hlen
        refine ⟨r, by simpa using h1, ?_, h3⟩
        rw [h2, hl]
        simp [completed_lines, hc]
      | false =>
        obtain ⟨argv, htok, -⟩ := tokenize_total lim.MAXPARA line
        simp only [Bool.false_eq_true, if_false, htok]
        have hfr := iauth_dispatch_recvM lim
          { iauth with i_recvM := (iauth.i_recvM + 1) % 2 ^ 32 } argv env
        obtain ⟨r, h1, h2, h3⟩ := ih []
          (iauth_dispatch lim { iauth with i_recvM := (iauth.i_recvM + 1) % 2 ^ 32 } argv env).1
          (iauth_dispatch lim { iauth with i_recvM := (iauth.i_recvM + 1) % 2 ^ 32 } argv env).2
          (by rw [hfr]; exact Nat.mod_lt _ (by norm_num)) (Nat.zero_le _)
        refine ⟨r, h1, ?_, h3⟩
        rw [h2, hfr]
        simp only [completed_lines, hc, if_true, List.isEmpty_nil, Bool.not_true, Bool.not_false]
        omega
    · have hc' : IsEol c = false := by simpa using hc
      simp only [hc', Bool.false_eq_true, if_false]
      by_cases hlt : line.length < lim.BUFSIZE
      · obtain ⟨r, h1, h2, h3⟩ := ih (line ++ [c]) iauth env hM (by simp; omega)
        refine ⟨r, by simpa [hlt] using h1, ?_, h3⟩
        have hne : (line ++ [c]).isEmpty = false := by
          cases line <;> rfl
        rw [h2, hne]
        simp [completed_lines, hc']
      · obtain ⟨r, h1, h2, h3⟩ := ih line iauth env hM hlen
        refine ⟨r, by simpa [hlt] using h1, ?_, h3⟩
        have hne : line.isEmpty = false := by
          cases line with
          | nil => simp at hlt; omega
          | cons a b => rfl
        rw [h2, hne]
        simp [completed_lines, hc']


theorem iauth_read_loop_length (lim : Limits) :
    ∀ (chunk line : List Char) (iauth : IAuth) (env : Env) (r : List Char × IAuth × Env),
    line.length ≤ lim.BUFSIZE → iauth_read_loop lim chunk line iauth env = some r →
    r.1.length ≤ lim.BUFSIZE := by
  intro chunk
  induction chunk with
  | nil =>
    intro line iauth env r hlen h
    rw [iauth_read_loop] at h
    cases h
    exact hlen
  | cons c cs ih =>
    intro line iauth env r hlen h
    rw [iauth_read_loop] at h
    split at h
    · split at h
      · exact ih _ _ _ r hlen h
      · split at h
        · cases h
        · exact ih _ _ _ r (Nat.zero_le _) h
    · split at h
      · exact ih _ _ _ r (by simp; omega) h
      · exact ih _ _ _ r hlen h

theorem iauth_read_count (lim : Limits) (iores : IOResult) (data : List Char)
    (attempt : ConnectAttempt) (iauth : IAuth) (env : Env) (r : IAuth × Env)
    (hcount : iauth.i_count ≤ lim.BUFSIZE)
    (h : iauth_read lim iores data attempt iauth env = some r) :
    r.1.i_count ≤ lim.BUFSIZE := by
  unfold iauth_read at h
  simp only [] at h
  generalize (if iores = IOResult.IO_SUCCESS then List.take lim.SERVER_TCP_WINDOW data else [])
    = readbuf at h
  by_cases hcond : iores = IOResult.IO_FAILURE ∨ readbuf.length = 0
  · rw [if_pos hcond] at h
    cases h
    have : ∀ a : IAuth, (iauth_reconnect env.CurrentTime attempt a).i_count = a.i_count := by
      intro a
      unfold iauth_reconnect iauth_schedule_reconnect iauth_disconnect
      split
      · split <;> rfl
      · split <;> (try split) <;> rfl
    rw [this]; exact hcount
  · rw [if_neg hcond] at h
    cases hq : iauth_read_loop lim readbuf (iauth.i_buffer.take iauth.i_count)
        (count_received iauth readbuf.length) env with
    | none => rw [hq] at h; cases h
    | some q =>
      rw [hq] at h
      cases h
      exact iauth_read_loop_length lim _ _ _ _ q (by rw [List.length_take]; omega) hq

/-- C19. With a buffer of at least one byte, a run of bytes without
end-of-line byte that arrives into the empty buffer and is followed by an
end-of-line byte is handed to the splitter cut to its first `BUFSIZE` bytes
(whole when it has no more than that), counted and dispatched like any line,
and the input after it is read into an empty buffer; the loop never buffers
more than `BUFSIZE` bytes, and neither does `iauth_read`. -/
theorem long_line_cut (lim : Limits) (iauth : IAuth) (env : Env) (run : List Char) (c : Char)
    (hB : 1 ≤ lim.BUFSIZE) (hrun : run ≠ []) (hplain : ∀ b ∈ run, IsEol b = false)
    (hc : IsEol c = true) :
    (run.take lim.BUFSIZE).length = min run.length lim.BUFSIZE
    ∧ (∃ argv, tokenize lim.MAXPARA (run.take lim.BUFSIZE) = some argv
        ∧ ∀ src : List Char,
          iauth_read_loop lim (run ++ c :: src) [] iauth env
            = iauth_read_loop lim src []
                (iauth_dispatch lim { iauth with i_recvM := (iauth.i_recvM + 1) % 2 ^ 32 }
                  argv env).1
                (iauth_dispatch lim { iauth with i_recvM := (iauth.i_recvM + 1) % 2 ^ 32 }
                  argv env).2)
    ∧ (∀ (chunk line : List Char) (r : List Char × IAuth × Env),
        line.length ≤ lim.BUFSIZE →
        iauth_read_loop lim chunk line iauth env = some r → r.1.length ≤ lim.BUFSIZE)
    ∧ (∀ (iores : IOResult) (data : List Char) (attempt : ConnectAttempt) (r : IAuth × Env),
        iauth.i_count ≤ lim.BUFSIZE →
        iauth_read lim iores data attempt iauth env = some r → r.1.i_count ≤ lim.BUFSIZE) := by
  refine ⟨by rw [List.length_take, Nat.min_comm], ?_, ?_, ?_⟩
  · obtain ⟨argv, htok, -⟩ := tokenize_total lim.MAXPARA (run.take lim.BUFSIZE)
    refine ⟨argv, htok, fun src => ?_⟩
    have hne : run.take lim.BUFSIZE ≠ [] := by
      cases run with
      | nil => exact absurd rfl hrun
      | cons a b =>
        cases hq : lim.BUFSIZE with
        | zero => omega
        | succ n => simp
    rw [iauth_read_loop_run lim (c :: src) iauth env run [] hplain (Nat.zero_le _),
      List.nil_append, iauth_read_loop_eol lim iauth env _ argv c src hc hne htok]
  · intro chunk line r hlen h
    exact iauth_read_loop_length lim chunk line iauth env r hlen h
  · intro iores data attempt r hcount h
    exact iauth_read_count lim iores data attempt iauth env r hcount h


/-- C19 at a buffer of four bytes: the six bytes `ab cde` are cut to `ab c`. -/
theorem long_line_cut_witness :
    ("ab cde".toList.take ({ ircu with BUFSIZE := 4 } : Limits).BUFSIZE).length
        = min "ab cde".toList.length ({ ircu with BUFSIZE := 4 } : Limits).BUFSIZE
    ∧ tokenize 15 ("ab cde".toList.take 4) = some ["ab".toList, "c".toList]
    ∧ (iauth_read_loop { ircu with BUFSIZE := 4 } ("ab cde".toList ++ [Char.ofNat 10]) []
          (S1_conn [7] true true) (S1_env true [])).map (fun r => (r.1, r.2.1.i_recvM))
        = some ([], 1) :=
  ⟨(long_line_cut { ircu with BUFSIZE := 4 } (S1_conn [7] true true) (S1_env true [])
      "ab cde".toList (Char.ofNat 10) (by decide) (by decide) (by decide) (by decide)).1,
   by decide, by decide⟩

/-- C20. With a buffer of at least one byte, the loop of `iauth_read` over
any chunk returns, and the 32-bit received-message counter has then advanced
by the number of end-of-line bytes that arrived while the buffer held a byte
(so by exactly that number unless the register wraps); the same holds for
`iauth_read` on a successful read. An end-of-line byte that arrives while the
buffer is empty leaves the connection and the environment as they are. -/
theorem received_messages (lim : Limits) (iauth : IAuth) (env : Env)
    (hB : 1 ≤ lim.BUFSIZE) (hM : iauth.i_recvM < 2 ^ 32) :
    (∀ (chunk line : List Char), line.length ≤ lim.BUFSIZE →
      ∃ r, iauth_read_loop lim chunk line iauth env = some r
        ∧ r.2.1.i_recvM
            = (iauth.i_recvM + completed_lines chunk (!line.isEmpty)) % 2 ^ 32
        ∧ (iauth.i_recvM + completed_lines chunk (!line.isEmpty) < 2 ^ 32 →
            r.2.1.i_recvM = iauth.i_recvM + completed_lines chunk (!line.isEmpty)))
    ∧ (∀ (data : List Char) (attempt : ConnectAttempt), data ≠ [] →
        data.length ≤ lim.SERVER_TCP_WINDOW → iauth.i_count ≤ lim.BUFSIZE →
        ∃ r, iauth_read lim IOResult.IO_SUCCESS data attempt iauth env = some r
          ∧ r.1.i_recvM
              = (iauth.i_recvM
                  + completed_lines data (!(iauth.i_buffer.take iauth.i_count).isEmpty))
                % 2 ^ 32)
    ∧ (∀ (c : Char) (src : List Char), IsEol c = true →
        iauth_read_loop lim (c :: src) [] iauth env = iauth_read_loop lim src [] iauth env) := by
  refine ⟨?_, ?_, ?_⟩
  · intro chunk line hlen
    obtain ⟨r, h1, h2, -⟩ := iauth_read_loop_count lim hB chunk line iauth env hM hlen
    exact ⟨r, h1, h2, fun h => by rw [h2, Nat.mod_eq_of_lt h]⟩
  · intro data attempt hne hwin hcount
    obtain ⟨-, -, f3, -, -⟩ := count_received_frame iauth data.length
    obtain ⟨q, h1, h2, -⟩ := iauth_read_loop_count lim hB data
      (iauth.i_buffer.take iauth.i_count) (count_received iauth data.length)
      env (by rw [f3]; exact hM) (by rw [List.length_take]; omega)
    have hlen : data.length ≠ 0 := by
      cases data with
      | nil => exact absurd rfl hne
      | cons a b => simp
    refine ⟨({ q.2.1 with i_count := q.1.length, i_buffer := q.1 }, q.2.2), ?_, ?_⟩
    · unfold iauth_read
      simp only [if_true, List.take_of_length_le hwin]
      rw [if_neg (by simp [hlen]), h1]
      rfl
    · show q.2.1.i_recvM = _
      rw [h2, f3]
  · intro c src hc
    rw [iauth_read_loop]
    simp [hc]

/-- C20 on the chunk `CR LF a LF LF b`: one line is completed. -/
theorem received_messages_witness :
    ∃ r, iauth_read_loop ircu
        [Char.ofNat 13, Char.ofNat 10, 'a', Char.ofNat 10, Char.ofNat 10, 'b'] []
        (S1_conn [7] true true) (S1_env true []) = some r
      ∧ r.2.1.i_recvM
          = ((S1_conn [7] true true).i_recvM
              + completed_lines
                  [Char.ofNat 13, Char.ofNat 10, 'a', Char.ofNat 10, Char.ofNat 10, 'b']
                  (!([] : List Char).isEmpty)) % 2 ^ 32
      ∧ ((S1_conn [7] true true).i_recvM
              + completed_lines
                  [Char.ofNat 13, Char.ofNat 10, 'a', Char.ofNat 10, Char.ofNat 10, 'b']
                  (!([] : List Char).isEmpty) < 2 ^ 32 →
          r.2.1.i_recvM
            = (S1_conn [7] true true).i_recvM
              + completed_lines
                  [Char.ofNat 13, Char.ofNat 10, 'a', Char.ofNat 10, Char.ofNat 10, 'b']
                  (!([] : List Char).isEmpty)) :=
  (received_messages ircu (S1_conn [7] true true) (S1_env true []) (by decide) (by decide)).1
    [Char.ofNat 13, Char.ofNat 10, 'a', Char.ofNat 10, Char.ofNat 10, 'b'] [] (by decide)

/-! ## The registry: connecting -/

theorem findIdx?_first {α : Type} (p : α → Bool) (a : α) (post : List α) (ha : p a = true) :
    ∀ (pre : List α) (start : Nat), (∀ c ∈ pre, p c = false) →
    List.findIdx? p (pre ++ a :: post) start = some (start + pre.length) := by
  intro pre
  induction pre with
  | nil => intro start _; simp [ha]
  | cons c cs ih =>
    intro start h
    have hc : p c = false := h c (by simp)
    simp only [List.cons_append, List.findIdx?_cons, hc, Bool.false_eq_true, if_false]
    rw [ih (start + 1) (fun x hx => h x (List.mem_cons_of_mem _ hx))]
    simp only [List.length_cons]
    congr 1
    omega

theorem findIdx?_none_of_all {α : Type} (p : α → Bool) :
    ∀ (l : List α) (start : Nat), (∀ c ∈ l, p c = false) → List.findIdx? p l start = none := by
  intro l
  induction l with
  | nil => intro _ _; rfl
  | cons c cs ih =>
    intro start h
    simp only [List.findIdx?_cons, h c (by simp), Bool.false_eq_true, if_false]
    exact ih _ (fun x hx => h x (List.mem_cons_of_mem _ hx))

theorem modify_at_length {α : Type} (f : α → α) (a : α) (post : List α) :
    ∀ pre : List α, List.modify f pre.length (pre ++ a :: post) = pre ++ f a :: post := by
  intro pre
  induction pre with
  | nil => rfl
  | cons c cs ih =>
    simp only [List.length_cons, List.cons_append]
    rw [List.modify]
    simp only [List.modifyTailIdx, List.cons.injEq, true_and]
    exact ih

/-- `iauth_connect` for a host and port that a registered connection has:
the first such connection is updated in place and returned. -/
theorem iauth_connect_found (lim : Limits) (host : List Char) (port : Nat)
    (passwd : Option (List Char)) (reconnect timeout : Nat) (attempt : ConnectAttempt)
    (pre post : List IAuth) (A : IAuth) (env : Env)
    (hpre : ∀ c ∈ pre, same_server lim host port c = false)
    (hA : same_server lim host port A = true) :
    iauth_connect lim host port passwd reconnect timeout attempt
        { iauth_active := pre ++ A :: post, env := env }
      = ({ iauth_active := pre ++ iauth_connect_finish lim passwd timeout
              (iauth_connect_update env.CurrentTime reconnect A) :: post, env := env },
         pre.length) := by
  unfold iauth_connect
  simp only []
  rw [findIdx?_first (same_server lim host port) A post hA pre 0 hpre]
  simp only [Nat.zero_add]
  rw [modify_at_length]

/-- `iauth_connect` for a host and port that no registered connection has:
the registry afterwards is the new record alone. -/
theorem iauth_connect_fresh (lim : Limits) (host : List Char) (port : Nat)
    (passwd : Option (List Char)) (reconnect timeout : Nat) (attempt : ConnectAttempt)
    (w : World) (hnone : ∀ c ∈ w.iauth_active, same_server lim host port c = false) :
    iauth_connect lim host port passwd reconnect timeout attempt w
      = ({ w with iauth_active := [iauth_connect_finish lim passwd timeout
              (iauth_reconnect w.env.CurrentTime attempt
                (iauth_alloc lim host port reconnect))] }, 0) := by
  unfold iauth_connect
  simp only []
  rw [findIdx?_none_of_all (same_server lim host port) _ 0 hnone]


/-- C15 (amended). When the first registered connection `A` whose host and
port match is found, `iauth_connect` returns its position and allocates
nothing: the registry keeps its members and their order, every request list
is as it was, and `A` differs only in that its closing flag is clear, its
reconnect delay and request timeout have the new values, its password is the
given one cut to `PASSWDLEN` bytes (empty when none is given), its announce
flag is set, and its reconnect timer may have been shortened; the connected,
blocked and abort flags, the counters, the queue, the request timer, the line
buffer, the host and the port are unchanged. -/
theorem connect_existing (lim : Limits) (host : List Char) (port : Nat)
    (passwd : Option (List Char)) (reconnect timeout : Nat) (attempt : ConnectAttempt)
    (pre post : List IAuth) (A : IAuth) (env : Env)
    (hpre : ∀ c ∈ pre, same_server lim host port c = false)
    (hA : same_server lim host port A = true) :
    ∃ A' : IAuth,
      iauth_connect lim host port passwd reconnect timeout attempt
          { iauth_active := pre ++ A :: post, env := env }
        = ({ iauth_active := pre ++ A' :: post, env := env }, pre.length)
      ∧ A'.i_list_head = A.i_list_head
      ∧ A'.i_flags.IAUTH_CLOSING = false
      ∧ A'.i_reconnect = reconnect
      ∧ A'.i_timeout = timeout
      ∧ A'.i_passwd = (passwd.map (fun p => p.take lim.PASSWDLEN)).getD []
      ∧ A'.i_flags.IAUTH_ICLASS = true
      ∧ A'.i_flags.IAUTH_CONNECTED = A.i_flags.IAUTH_CONNECTED
      ∧ A'.i_flags.IAUTH_BLOCKED = A.i_flags.IAUTH_BLOCKED
      ∧ A'.i_flags.IAUTH_ABORT = A.i_flags.IAUTH_ABORT
      ∧ (A'.i_recvM = A.i_recvM ∧ A'.i_recvK = A.i_recvK ∧ A'.i_recvB = A.i_recvB)
      ∧ (A'.i_sendM = A.i_sendM ∧ A'.i_sendK = A.i_sendK ∧ A'.i_sendB = A.i_sendB)
      ∧ A'.i_sendQ = A.i_sendQ
      ∧ A'.i_request_timer = A.i_request_timer
      ∧ (A'.i_count = A.i_count ∧ A'.i_buffer = A.i_buffer)
      ∧ (A'.i_host = A.i_host ∧ A'.i_port = A.i_port) := by
  refine ⟨_, iauth_connect_found lim host port passwd reconnect timeout attempt pre post A env
    hpre hA, ?_⟩
  unfold iauth_connect_finish iauth_connect_update
  simp only []
  cases passwd with
  | none =>
    split <;> simp [ircd_strncpy]
  | some p =>
    split <;> simp [ircd_strncpy]

/-- C15 in scenario S1: `a.example:9000` is registered again with a password
after `iauth_mark_closing`. -/
theorem connect_existing_witness :
    ∃ A' : IAuth,
      iauth_connect ircu "A.Example".toList 9000 (some "secret".toList) 5 7
          ConnectAttempt.started
          { iauth_active := [] ++ (iauth_mark_closing
              { iauth_active := [S1_conn [7] true true], env := S1_env true [] }).iauth_active.headD
                (S1_conn [] false false) :: [],
            env := S1_env true [] }
        = ({ iauth_active := [] ++ A' :: [], env := S1_env true [] }, ([] : List IAuth).length)
      ∧ A'.i_list_head = [7]
      ∧ A'.i_flags.IAUTH_CLOSING = false
      ∧ A'.i_passwd = "secret".toList := by
  obtain ⟨A', h1, h2, h3, -, -, h6, -⟩ := connect_existing ircu "A.Example".toList 9000
    (some "secret".toList) 5 7 ConnectAttempt.started [] []
    ((iauth_mark_closing
      { iauth_active := [S1_conn [7] true true], env := S1_env true [] }).iauth_active.headD
        (S1_conn [] false false))
    (S1_env true []) (by decide) (by decide)
  exact ⟨A', h1, h2, h3, h6⟩

/-- C15 as stated fails: a password of 21 bytes given for the registered
`a.example:9000` is stored cut to `PASSWDLEN = 20` bytes, not as given. -/
theorem connect_password_cut :
    same_server ircu "a.example".toList 9000 (S1_conn [7] true true) = true
    ∧ ((iauth_connect ircu "a.example".toList 9000 (some "0123456789abcdefghijk".toList) 60 30
          ConnectAttempt.started
          { iauth_active := [S1_conn [7] true true], env := S1_env true [] }).1.iauth_active.map
        (fun c => c.i_passwd)) = ["0123456789abcdefghij".toList]
    ∧ "0123456789abcdefghij".toList ≠ "0123456789abcdefghijk".toList := by
  refine ⟨by decide, by decide, by decide⟩

/-- C16. When `iauth_connect` finds the matching connection `A`, the
reconnect timer stays armed or idle as it was; if it was pending with expiry
`e`, its expiry afterwards is the smaller of `e` and the current time plus
the new delay, so it is never later than `e` and changes only when `e` is
later than the current time plus the new delay; an idle timer is left as it
is. -/
theorem connect_shortens_reconnect (lim : Limits) (host : List Char) (port : Nat)
    (passwd : Option (List Char)) (reconnect timeout : Nat) (attempt : ConnectAttempt)
    (pre post : List IAuth) (A : IAuth) (env : Env)
    (hpre : ∀ c ∈ pre, same_server lim host port c = false)
    (hA : same_server lim host port A = true) :
    ∃ A' : IAuth,
      iauth_connect lim host port passwd reconnect timeout attempt
          { iauth_active := pre ++ A :: post, env := env }
        = ({ iauth_active := pre ++ A' :: post, env := env }, pre.length)
      ∧ A'.i_reconn_timer.t_active = A.i_reconn_timer.t_active
      ∧ (A.i_reconn_timer.t_active = true →
          A'.i_reconn_timer.t_expire
            = min A.i_reconn_timer.t_expire (env.CurrentTime + reconnect))
      ∧ A'.i_reconn_timer.t_expire ≤ A.i_reconn_timer.t_expire
      ∧ (A.i_reconn_timer.t_expire ≤ env.CurrentTime + reconnect →
          A'.i_reconn_timer = A.i_reconn_timer)
      ∧ (A.i_reconn_timer.t_active = false → A'.i_reconn_timer = A.i_reconn_timer) := by
  refine ⟨_, iauth_connect_found lim host port passwd reconnect timeout attempt pre post A env
    hpre hA, ?_⟩
  unfold iauth_connect_finish iauth_connect_update
  simp only []
  by_cases h : A.i_reconn_timer.t_active = true ∧ A.i_reconn_timer.t_expire > env.CurrentTime + reconnect
  · rw [if_pos h]
    simp only [timer_chg]
    refine ⟨trivial, fun _ => ?_, ?_, fun h2 => ?_, fun h2 => ?_⟩
    · rw [Nat.min_def]; split <;> omega
    · omega
    · omega
    · rw [h.1] at h2; cases h2
  · rw [if_neg h]
    simp only []
    refine ⟨trivial, fun h1 => ?_, Nat.le_refl _, fun _ => trivial, fun _ => trivial⟩
    have : ¬ A.i_reconn_timer.t_expire > env.CurrentTime + reconnect := fun h2 => h ⟨h1, h2⟩
    rw [Nat.min_def]; split <;> omega

/-- C16 on the connection of scenario S1 with a reconnect pending at 1060:
at time 1000 the new delay 5 brings the expiry to 1005. -/
theorem connect_shortens_reconnect_witness :
    ∃ A' : IAuth,
      iauth_connect ircu "a.example".toList 9000 none 5 30 ConnectAttempt.started
          { iauth_active := [] ++ { S1_conn [7] false true with
                i_reconn_timer := { t_active := true, t_expire := 1060 } } :: [],
            env := S1_env true [] }
        = ({ iauth_active := [] ++ A' :: [], env := S1_env true [] }, ([] : List IAuth).length)
      ∧ A'.i_reconn_timer.t_active = true
      ∧ A'.i_reconn_timer.t_expire = 1005 := by
  obtain ⟨A', h1, h2, h3, -⟩ := connect_shortens_reconnect ircu "a.example".toList 9000 none 5 30
    ConnectAttempt.started [] []
    { S1_conn [7] false true with i_reconn_timer := { t_active := true, t_expire := 1060 } }
    (S1_env true []) (by decide) (by decide)
  exact ⟨A', h1, h2, h3 rfl⟩


theorem iauth_reconnect_frame (now : Nat) (attempt : ConnectAttempt) (iauth : IAuth) :
    (iauth_reconnect now attempt iauth).i_list_head = iauth.i_list_head
    ∧ (iauth_reconnect now attempt iauth).i_host = iauth.i_host
    ∧ (iauth_reconnect now attempt iauth).i_port = iauth.i_port
    ∧ (iauth_reconnect now attempt iauth).i_flags.IAUTH_CLOSING = iauth.i_flags.IAUTH_CLOSING
    ∧ (iauth_reconnect now attempt iauth).i_flags.IAUTH_CONNECTED = false
    ∧ (iauth_reconnect now attempt iauth).i_sendQ = iauth.i_sendQ
    ∧ (iauth_reconnect now attempt iauth).i_request_timer = iauth.i_request_timer := by
  unfold iauth_reconnect iauth_schedule_reconnect iauth_disconnect
  by_cases hc : iauth.i_flags.IAUTH_CONNECTED = true
  · rw [if_pos hc]
    split <;> simp
  · rw [if_neg hc]
    cases attempt <;> simp only [] <;> (try split) <;> simp [hc]

/-- The connection that `iauth_connect` creates for a host and port that
match no registered connection. -/
theorem iauth_connect_fresh_fields (lim : Limits) (host : List Char) (port : Nat)
    (passwd : Option (List Char)) (reconnect timeout : Nat) (attempt : ConnectAttempt)
    (w : World)
    (hnone : ∀ c ∈ w.iauth_active, same_server lim host port c = false) :
    ∃ B : IAuth,
      iauth_connect lim host port passwd reconnect timeout attempt w
        = ({ iauth_active := [B], env := w.env }, 0)
      ∧ B.i_list_head = []
      ∧ B.i_host = host.take lim.HOSTLEN
      ∧ B.i_port = port
      ∧ B.i_flags.IAUTH_CLOSING = false
      ∧ B.i_flags.IAUTH_CONNECTED = false
      ∧ B.i_sendQ.added = [] := by
  refine ⟨_, iauth_connect_fresh lim host port passwd reconnect timeout attempt w hnone, ?_⟩
  obtain ⟨h1, h2, h3, h4, h5, h6, -⟩ := iauth_reconnect_frame w.env.CurrentTime attempt
    (iauth_alloc lim host port reconnect)
  unfold iauth_connect_finish
  simp only [h1, h2, h3, h4, h5, h6]
  simp [iauth_alloc, ircd_strncpy]

theorem iauth_close_unused_keep (lim : Limits) (B : IAuth) (env : Env)
    (hB : B.i_flags.IAUTH_CLOSING = false) :
    iauth_close_unused lim { iauth_active := [B], env := env }
      = { iauth_active := [B], env := env } := by
  simp [iauth_close_unused, iauth_close_unused_loop, hB]

/-- C14 (what the code does). For a host and port that match no registered
connection, `iauth_connect` returns a new connection with an empty request
list, and the registry afterwards is that connection alone: line 244 makes it
`iauth_active` while its `i_next` is still the NULL of `MyCalloc`. When the
registry held any connection before, the registry afterwards is not the new
connection followed by the previous ones, and no request is on the list of a
registered connection. -/
theorem connect_new_alone (lim : Limits) (host : List Char) (port : Nat)
    (passwd : Option (List Char)) (reconnect timeout : Nat) (attempt : ConnectAttempt)
    (w : World)
    (hnone : ∀ c ∈ w.iauth_active, same_server lim host port c = false) :
    ∃ B : IAuth,
      iauth_connect lim host port passwd reconnect timeout attempt w
        = ({ iauth_active := [B], env := w.env }, 0)
      ∧ B.i_list_head = []
      ∧ (B.i_host = host.take lim.HOSTLEN ∧ B.i_port = port)
      ∧ (w.iauth_active ≠ [] → [B] ≠ B :: w.iauth_active)
      ∧ (∀ c ∈ w.iauth_active, c ∈ [B] → c.i_list_head = []) := by
  obtain ⟨B, h1, h2, h3, h4, -⟩ := iauth_connect_fresh_fields lim host port passwd reconnect
    timeout attempt w hnone
  refine ⟨B, h1, h2, ⟨h3, h4⟩, fun hne => ?_, fun c _ hc => ?_⟩
  · cases hw : w.iauth_active with
    | nil => exact absurd hw hne
    | cons a l => simp
  · rw [List.mem_singleton] at hc
    rw [hc]; exact h2

/-- C14 on the registry of scenario S1 holding `a.example:9000` with the
request 7: after `iauth_connect("b.example", 9000, NULL, 60, 30)` the
registry is the new connection alone and request 7 is on no registered
list. -/
theorem connect_new_alone_witness :
    ∃ B : IAuth,
      iauth_connect ircu "b.example".toList 9000 none 60 30 ConnectAttempt.started
          { iauth_active := [S1_conn [7] true true], env := S1_env true [] }
        = ({ iauth_active := [B], env := S1_env true [] }, 0)
      ∧ B.i_list_head = []
      ∧ [B] ≠ [B, S1_conn [7] true true] := by
  obtain ⟨B, h1, h2, -, h4, -⟩ := connect_new_alone ircu "b.example".toList 9000 none 60 30
    ConnectAttempt.started { iauth_active := [S1_conn [7] true true], env := S1_env true [] }
    (by decide)
  exact ⟨B, h1, h2, h4 (by simp)⟩

/-- C12 (what the code does). Starting from a registry that holds the single
connection `A`, `iauth_mark_closing`, then `iauth_connect` with a host and
port that do not match `A`, then `iauth_close_unused` leave a registry that
holds the new connection `B` alone, with an empty request list, and the rest
of the state as it was before the three calls: `A` left the registry in
`iauth_connect`, so `iauth_close_unused` never visits it, none of its
requests moves to `B`, and the handshake of `B` queues the greeting and no
`FullAuth` line. -/
theorem rotation_drops_requests (lim : Limits) (host : List Char) (port : Nat)
    (passwd : Option (List Char)) (reconnect timeout : Nat) (attempt : ConnectAttempt)
    (A : IAuth) (env : Env)
    (hdiff : same_server lim host port A = false) :
    ∃ B : IAuth,
      iauth_close_unused lim
          (iauth_connect lim host port passwd reconnect timeout attempt
            (iauth_mark_closing { iauth_active := [A], env := env })).1
        = { iauth_active := [B], env := env }
      ∧ B.i_list_head = []
      ∧ (A.i_list_head ≠ [] → B.i_list_head ≠ A.i_list_head)
      ∧ (B.i_host = host.take lim.HOSTLEN ∧ B.i_port = port)
      ∧ B.i_sendQ.added = []
      ∧ ∀ line ∈ (iauth_on_connect B env).1.i_sendQ.added,
          line = "Server ".toList ++ env.me
          ∨ line = "Server ".toList ++ env.me ++ [' '] ++ B.i_passwd
          ∨ line = "EndUsers".toList := by
  have hnone : ∀ c ∈ (iauth_mark_closing { iauth_active := [A], env := env }).iauth_active,
      same_server lim host port c = false := by
    intro c hc
    simp only [iauth_mark_closing, List.map_cons, List.map_nil, List.mem_singleton] at hc
    rw [hc]
    simpa [same_server] using hdiff
  obtain ⟨B, h1, h2, h3, h4, h5, h6, h7⟩ := iauth_connect_fresh_fields lim host port passwd
    reconnect timeout attempt _ hnone
  refine ⟨B, ?_, h2, fun hne => by rw [h2]; exact fun h => hne h.symm, ⟨h3, h4⟩, h7, ?_⟩
  · rw [h1]
    exact iauth_close_unused_keep lim B _ h5
  · intro line hline
    have hf := fun x e => (write_frame_fields (iauth_write_frame x e).1).2.1
    unfold iauth_on_connect at hline
    simp only [] at hline
    rw [hf] at hline
    by_cases hp : EmptyString B.i_passwd = true <;>
      by_cases hi : B.i_flags.IAUTH_ICLASS = true <;>
      simp [hp, hi, iauth_send, msgq_add, h2, h7] at hline <;>
      simp only [String.toList, List.cons_append, List.nil_append, List.append_assoc,
        List.singleton_append] <;>
      tauto

/-- C12 in scenario S4 with the connection `a.example:9000` of scenario S1
holding the request 7 and the successor `b.example:9000`: the registry ends
as the successor alone with an empty request list, not `[7]`. -/
theorem rotation_drops_requests_witness :
    ∃ B : IAuth,
      iauth_close_unused ircu
          (iauth_connect ircu "b.example".toList 9000 none 60 30 ConnectAttempt.started
            (iauth_mark_closing
              { iauth_active := [S1_conn [7] true true], env := S1_env true [] })).1
        = { iauth_active := [B], env := S1_env true [] }
      ∧ B.i_list_head = []
      ∧ B.i_list_head ≠ (S1_conn [7] true true).i_list_head := by
  obtain ⟨B, h1, h2, h3, -⟩ := rotation_drops_requests ircu "b.example".toList 9000 none 60 30
    ConnectAttempt.started (S1_conn [7] true true) (S1_env true []) (by decide)
  exact ⟨B, h1, h2, h3 (by decide)⟩

/-! ## The registry: closing connections -/

theorem write_frame_server {a b : IAuth} (h : write_frame a b) :
    b.i_host = a.i_host ∧ b.i_port = a.i_port := by
  unfold write_frame at h
  rw [h]
  simp

/-- The fields of the connection that `iauth_send_request` never changes. -/
theorem iauth_send_request_keeps (iauth : IAuth) (iar : Nat) (env : Env) :
    (iauth_send_request iauth iar env).1.i_host = iauth.i_host
    ∧ (iauth_send_request iauth iar env).1.i_port = iauth.i_port
    ∧ (iauth_send_request iauth iar env).1.i_flags.IAUTH_CLOSING = iauth.i_flags.IAUTH_CLOSING := by
  unfold iauth_send_request
  split
  · exact ⟨rfl, rfl, rfl⟩
  · simp only []
    generalize hx : iauth_send _ _ = x
    generalize he : Env.setRequest env iar _ = e
    obtain ⟨hw, -⟩ := iauth_write_frame x e
    obtain ⟨s1, s2⟩ := write_frame_server hw
    have s3 := (write_frame_fields hw).2.2.2.2.2.2.1
    rw [s1, s2, s3, ← hx]
    unfold iauth_send
    refine ⟨?_, ?_, ?_⟩ <;> split <;> rfl

theorem iauth_close_send_cons (a : Nat) (L : List Nat) (target : IAuth) (env : Env) :
    iauth_close_send (a :: L) target env
      = if target.i_flags.IAUTH_CLOSING = true then iauth_close_send L target env
        else iauth_close_send L (iauth_send_request target a env).1
          (iauth_send_request target a env).2 := by
  unfold iauth_close_send
  rw [List.foldl_cons]
  cases target.i_flags.IAUTH_CLOSING <;> rfl

/-- What the loop of lines 290 to 295 leaves alone. -/
theorem iauth_close_send_frame : ∀ (L : List Nat) (target : IAuth) (env : Env),
    (iauth_close_send L target env).1.i_list_head = target.i_list_head
    ∧ (iauth_close_send L target env).1.i_host = target.i_host
    ∧ (iauth_close_send L target env).1.i_port = target.i_port
    ∧ (iauth_close_send L target env).1.i_flags.IAUTH_CLOSING = target.i_flags.IAUTH_CLOSING
    ∧ (iauth_close_send L target env).2.clients = env.clients
    ∧ (iauth_close_send L target env).2.trace = env.trace
    ∧ (∀ a, ((iauth_close_send L target env).2.requests a).iar_client
          = (env.requests a).iar_client) := by
  intro L
  induction L with
  | nil => intro target env; exact ⟨rfl, rfl, rfl, rfl, rfl, rfl, fun _ => rfl⟩
  | cons a L ih =>
    intro target env
    rw [iauth_close_send_cons]
    by_cases hc : target.i_flags.IAUTH_CLOSING = true
    · rw [if_pos hc]
      exact ih target env
    · rw [if_neg hc]
      obtain ⟨f1, f2, f3, f4, -, -, -⟩ := iauth_send_request_frame target a env
      obtain ⟨k1, k2, k3⟩ := iauth_send_request_keeps target a env
      obtain ⟨i1, i2, i3, i4, i5, i6, i7⟩ := ih (iauth_send_request target a env).1
        (iauth_send_request target a env).2
      exact ⟨i1.trans f1, i2.trans k1, i3.trans k2, i4.trans k3, i5.trans f2,
        i6.trans f3, fun x => (i7 x).trans (f4 x)⟩

/-- With the target closing, the loop of lines 290 to 295 sends nothing. -/
theorem iauth_close_send_closing : ∀ (L : List Nat) (target : IAuth) (env : Env),
    target.i_flags.IAUTH_CLOSING = true → iauth_close_send L target env = (target, env) := by
  intro L
  induction L with
  | nil => intro target env _; rfl
  | cons a L ih =>
    intro target env hc
    rw [iauth_close_send_cons, if_pos hc]
    exact ih target env hc

/-- With the target not closing, the loop of lines 290 to 295 is one
`iauth_send_request` per request, in list order. -/
theorem iauth_close_send_open : ∀ (L : List Nat) (target : IAuth) (env : Env),
    target.i_flags.IAUTH_CLOSING = false →
    iauth_close_send L target env
      = L.foldl (fun s iar => iauth_send_request s.1 iar s.2) (target, env) := by
  intro L
  induction L with
  | nil => intro target env _; rfl
  | cons a L ih =>
    intro target env hc
    rw [iauth_close_send_cons, if_neg (by simp [hc]), List.foldl_cons]
    exact ih (iauth_send_request target a env).1 (iauth_send_request target a env).2
      ((iauth_send_request_keeps target a env).2.2.trans hc)

/-- The loop of lines 298 to 303 with enough fuel: the list empties, every
request of the list, in order, gets its client's real username set from the
provisional one, the back-pointer cleared and one `register_user` call. -/
theorem iauth_close_approve_effect (lim : Limits) : ∀ (L : List Nat) (fuel : Nat) (iauth : IAuth)
    (env : Env), iauth.i_list_head = L → L.length ≤ fuel →
    (iauth_close_approve lim fuel iauth env).1.i_list_head = []
    ∧ (iauth_close_approve lim fuel iauth env).2.trace
        = env.trace ++ L.map (fun iar => Ext.register_user (env.requests iar).iar_client
            (env.clients (env.requests iar).iar_client).cli_name
            (env.clients (env.requests iar).iar_client).cli_username)
    ∧ (iauth_close_approve lim fuel iauth env).2.requests = env.requests
    ∧ (∀ c, c ∈ L.map (fun iar => (env.requests iar).iar_client) →
        (iauth_close_approve lim fuel iauth env).2.clients c
          = { env.clients c with
              realusername := (env.clients c).cli_username.take lim.USERLEN,
              cli_iauth := none })
    ∧ (∀ c, c ∉ L.map (fun iar => (env.requests iar).iar_client) →
        (iauth_close_approve lim fuel iauth env).2.clients c = env.clients c)
    ∧ (iauth_close_approve lim fuel iauth env).2.sendv = env.sendv
    ∧ (iauth_close_approve lim fuel iauth env).2.CurrentTime = env.CurrentTime
    ∧ (iauth_close_approve lim fuel iauth env).2.me = env.me := by
  intro L
  induction L with
  | nil =>
    intro fuel iauth env hL _
    cases fuel with
    | zero => simp [iauth_close_approve, hL]
    | succ f => simp [iauth_close_approve, hL]
  | cons a L ih =>
    intro fuel iauth env hL hfuel
    cases fuel with
    | zero => simp at hfuel
    | succ f =>
      have hf : L.length ≤ f := by simpa using hfuel
      rw [iauth_close_approve]
      simp only [hL]
      generalize he : register_user _ _ _ _ = env1
      generalize hi : (iauth_dispose_request iauth a _).1 = iauth1
      have hl1 : iauth1.i_list_head = L := by
        rw [← hi, (iauth_dispose_request_effect _ _ _).1, hL]
        simp
      obtain ⟨i1, i2, i3, i4, i5, i6, i7, i8⟩ := ih f iauth1 env1 hl1 hf
      have e_req : env1.requests = env.requests := by
        rw [← he]; rfl
      have e_cl : ∀ c, env1.clients c
          = if c = (env.requests a).iar_client then
              { env.clients c with
                realusername := (env.clients c).cli_username.take lim.USERLEN,
                cli_iauth := none }
            else env.clients c := by
        intro c
        rw [← he]
        simp only [register_user, Env.note, iauth_dispose_request, Env.setClient, ircd_strncpy]
        by_cases hc : c = (env.requests a).iar_client
        · subst hc; simp
        · simp [Function.update_noteq hc, hc]
      have e_names : ∀ c, (env1.clients c).cli_name = (env.clients c).cli_name
          ∧ (env1.clients c).cli_username = (env.clients c).cli_username := by
        intro c
        rw [e_cl c]
        split <;> exact ⟨rfl, rfl⟩
      have e_tr : env1.trace = env.trace ++ [Ext.register_user (env.requests a).iar_client
            (env.clients (env.requests a).iar_client).cli_name
            (env.clients (env.requests a).iar_client).cli_username] := by
        rw [← he]
        simp [register_user, Env.note, iauth_dispose_request, Env.setClient]
      refine ⟨i1, ?_, i3.trans e_req, ?_, ?_, ?_, ?_, ?_⟩
      · rw [i2, e_tr, e_req]
        simp only [List.map_cons, List.append_assoc, List.singleton_append]
        congr 2
        apply List.map_congr_left
        intro x _
        rw [(e_names _).1, (e_names _).2]
      · intro c hc
        rw [e_req] at i4 i5
        by_cases hin : c ∈ L.map (fun iar => (env.requests iar).iar_client)
        · rw [i4 c hin, e_cl c]
          split <;> simp
        · rw [i5 c hin, e_cl c]
          have : c = (env.requests a).iar_client := by
            simp only [List.map_cons, List.mem_cons] at hc
            rcases hc with h | h
            · exact h
            · exact absurd h hin
          rw [if_pos this]
      · intro c hc
        rw [e_req] at i5
        simp only [List.map_cons, List.mem_cons, not_or] at hc
        rw [i5 c hc.2, e_cl c, if_neg hc.1]
      · rw [i6, ← he]; rfl
      · rw [i7, ← he]; rfl
      · rw [i8, ← he]; rfl

/-- C13. Rotation without successor: from a registry holding the single
connection `A`, `iauth_mark_closing` followed by `iauth_close_unused` leaves
the registry empty; the calls made to collaborators are, after the earlier
ones, one `register_user` per request of the list of `A`, in list order, for
the client of the request with its nick and its provisional username, and no
`exit_client`; every client of a request of the list has its real username
set to the provisional one cut to `USERLEN` and its request back-pointer
cleared, with no other field changed, and every other client is as it was. -/
theorem rotation_fail_open (lim : Limits) (A : IAuth) (env : Env) :
    (iauth_close_unused lim
        (iauth_mark_closing { iauth_active := [A], env := env })).iauth_active = []
    ∧ (iauth_close_unused lim
        (iauth_mark_closing { iauth_active := [A], env := env })).env.trace
        = env.trace ++ A.i_list_head.map (fun iar =>
            Ext.register_user (env.requests iar).iar_client
              (env.clients (env.requests iar).iar_client).cli_name
              (env.clients (env.requests iar).iar_client).cli_username)
    ∧ (∀ cptr comment,
        Ext.exit_client cptr comment ∈ (iauth_close_unused lim
          (iauth_mark_closing { iauth_active := [A], env := env })).env.trace →
        Ext.exit_client cptr comment ∈ env.trace)
    ∧ (∀ c, c ∈ A.i_list_head.map (fun iar => (env.requests iar).iar_client) →
        (iauth_close_unused lim
          (iauth_mark_closing { iauth_active := [A], env := env })).env.clients c
          = { env.clients c with
              realusername := (env.clients c).cli_username.take lim.USERLEN,
              cli_iauth := none })
    ∧ (∀ c, c ∉ A.i_list_head.map (fun iar => (env.requests iar).iar_client) →
        (iauth_close_unused lim
          (iauth_mark_closing { iauth_active := [A], env := env })).env.clients c
          = env.clients c) := by
  have hrun : iauth_close_unused lim (iauth_mark_closing { iauth_active := [A], env := env })
      = if A.i_list_head.isEmpty then { iauth_active := [], env := env }
        else { iauth_active := [],
               env := (iauth_close_approve lim A.i_list_head.length
                 { A with i_flags := { A.i_flags with IAUTH_CLOSING := true } } env).2 } := by
    simp [iauth_close_unused, iauth_close_unused_loop, iauth_mark_closing, iauth_close]
  rw [hrun]
  by_cases hE : A.i_list_head = []
  · have hemp : A.i_list_head.isEmpty = true := by rw [hE]; rfl
    rw [if_pos hemp]
    simp [hE]
  · have hemp : ¬ A.i_list_head.isEmpty = true := by
      rw [List.isEmpty_iff]; exact hE
    rw [if_neg hemp]
    obtain ⟨-, i2, -, i4, i5, -⟩ := iauth_close_approve_effect lim A.i_list_head
      A.i_list_head.length
      { A with i_flags := { A.i_flags with IAUTH_CLOSING := true } } env rfl (Nat.le_refl _)
    refine ⟨rfl, i2, ?_, i4, i5⟩
    intro cptr comment hin
    simp only [] at hin
    rw [i2, List.mem_append] at hin
    rcases hin with h | h
    · exact h
    · simp at h

/-- C17. `iauth_close` of a connection `C` with a non-empty request list `L`
while the registry holds `T` first: afterwards the list of `T` is its
previous list followed by `L` in order. If `T` is closing nothing else
changes. If `T` is not closing, the connection and the environment are those
that one `iauth_send_request` on `T` for each request of `L`, in the order
of `L`, leaves, starting from `T` with the spliced list; the requests that
were on the list of `T` are not sent. In both cases no `register_user` and no
`exit_client` call is made, no client changes, and the other connections of
the registry are as they were. -/
theorem close_splices (lim : Limits) (C T : IAuth) (others : List IAuth) (env : Env)
    (hL : C.i_list_head ≠ []) :
    ∃ T' : IAuth, ∃ env' : Env,
      iauth_close lim C { iauth_active := T :: others, env := env }
        = { iauth_active := T' :: others, env := env' }
      ∧ T'.i_list_head = T.i_list_head ++ C.i_list_head
      ∧ (T.i_flags.IAUTH_CLOSING = true →
          T' = { T with i_list_head := T.i_list_head ++ C.i_list_head } ∧ env' = env)
      ∧ (T.i_flags.IAUTH_CLOSING = false →
          (T', env') = C.i_list_head.foldl (fun s iar => iauth_send_request s.1 iar s.2)
            ({ T with i_list_head := T.i_list_head ++ C.i_list_head }, env))
      ∧ env'.trace = env.trace
      ∧ env'.clients = env.clients
      ∧ (T'.i_flags.IAUTH_CLOSING = T.i_flags.IAUTH_CLOSING
          ∧ T'.i_host = T.i_host ∧ T'.i_port = T.i_port) := by
  have hne : C.i_list_head.isEmpty = false := by
    cases h : C.i_list_head with
    | nil => exact absurd h hL
    | cons a l => rfl
  obtain ⟨f1, f2, f3, f4, f5, f6, -⟩ := iauth_close_send_frame C.i_list_head
    { T with i_list_head := T.i_list_head ++ C.i_list_head } env
  refine ⟨(iauth_close_send C.i_list_head
      { T with i_list_head := T.i_list_head ++ C.i_list_head } env).1,
    (iauth_close_send C.i_list_head
      { T with i_list_head := T.i_list_head ++ C.i_list_head } env).2, ?_, f1, ?_, ?_, f6, f5,
    f4, f2, f3⟩
  · simp [iauth_close, hne]
  · intro hc
    rw [iauth_close_send_closing C.i_list_head
      { T with i_list_head := T.i_list_head ++ C.i_list_head } env hc]
    exact ⟨rfl, rfl⟩
  · intro hc
    rw [← iauth_close_send_open C.i_list_head
      { T with i_list_head := T.i_list_head ++ C.i_list_head } env hc]

/-- C17 on scenario S1: `a.example:9000` closes with the request 7 while a
connected `b.example:9000` that holds the request 9 is active; the list
becomes `[9, 7]` and the one line queued is the `FullAuth` of request 7. -/
theorem close_splices_witness :
    ∃ T' : IAuth, ∃ env' : Env,
      iauth_close ircu (S1_conn [7] true true)
          { iauth_active := [{ S1_conn [9] true true with i_host := "b.example".toList }],
            env := S1_env true [sent_all 46] }
        = { iauth_active := [T'], env := env' }
      ∧ T'.i_list_head = [9, 7]
      ∧ T'.i_sendQ.added = ["FullAuth ff00 alice u h 1.2.3.4 p :real name".toList]
      ∧ env'.trace = [] := by
  obtain ⟨T', env', h1, h2, -, h4, h5, -⟩ := close_splices ircu (S1_conn [7] true true)
    { S1_conn [9] true true with i_host := "b.example".toList } [] (S1_env true [sent_all 46])
    (by decide)
  refine ⟨T', env', h1, h2, ?_, h5⟩
  have h := congrArg (fun p => p.1.i_sendQ.added) (h4 rfl)
  simp only [] at h
  rw [h]
  decide

/-! ## The registry: closing the unused connections, and the request timer -/

theorem survives_refl (c : IAuth) : survives c c := ⟨rfl, rfl, [], by simp⟩

theorem survives_trans {a b c : IAuth} (h1 : survives a b) (h2 : survives b c) :
    survives a c := by
  obtain ⟨x1, x2, e1, x3⟩ := h1
  obtain ⟨y1, y2, e2, y3⟩ := h2
  exact ⟨y1.trans x1, y2.trans x2, e1 ++ e2, by rw [y3, x3, List.append_assoc]⟩

theorem forall₂_survives_refl : ∀ l : List IAuth, List.Forall₂ survives l l
  | [] => List.Forall₂.nil
  | c :: l => List.Forall₂.cons (survives_refl c) (forall₂_survives_refl l)

theorem forall₂_survives_head {a b : IAuth} {l W : List IAuth} (h : survives a b)
    (hW : List.Forall₂ survives (b :: l) W) : List.Forall₂ survives (a :: l) W := by
  cases hW with
  | cons h1 h2 => exact List.Forall₂.cons (survives_trans h h1) h2

theorem registry_requests_cons (c : IAuth) (l : List IAuth) :
    registry_requests (c :: l) = c.i_list_head ++ registry_requests l := by
  simp [registry_requests]

theorem registry_requests_append (l1 l2 : List IAuth) :
    registry_requests (l1 ++ l2) = registry_requests l1 ++ registry_requests l2 := by
  simp [registry_requests]

theorem perm_splice (a L b c : List Nat) :
    List.Perm (a ++ b ++ (L ++ c)) ((a ++ L) ++ b ++ c) := by
  rw [List.perm_iff_count]
  intro x
  simp only [List.count_append]
  omega

theorem approval_congr (env env' : Env) (hc : env'.clients = env.clients)
    (hr : ∀ a, (env'.requests a).iar_client = (env.requests a).iar_client) :
    approval env' = approval env := by
  funext iar
  simp [approval, hc, hr]

theorem close_unused_step_get (kept rest : List IAuth) (c : IAuth) :
    (kept ++ c :: rest).get? kept.length = some c := by
  rw [List.get?_eq_getElem?, List.getElem?_append_right (Nat.le_refl _)]
  simp

theorem close_unused_step_erase (kept rest : List IAuth) (c : IAuth) :
    (kept ++ c :: rest).eraseIdx kept.length = kept ++ rest := by
  rw [List.eraseIdx_append_of_length_le (Nat.le_refl _)]
  simp

theorem iauth_close_empty (lim : Limits) (c : IAuth) (w : World)
    (h : c.i_list_head = []) : iauth_close lim c w = w := by
  simp [iauth_close, h]

theorem iauth_close_target (lim : Limits) (c T : IAuth) (others : List IAuth) (env : Env)
    (h : c.i_list_head ≠ []) :
    iauth_close lim c { iauth_active := T :: others, env := env }
      = { iauth_active := (iauth_close_send c.i_list_head
            { T with i_list_head := T.i_list_head ++ c.i_list_head } env).1 :: others,
          env := (iauth_close_send c.i_list_head
            { T with i_list_head := T.i_list_head ++ c.i_list_head } env).2 } := by
  have hne : ¬ c.i_list_head.isEmpty = true := by rw [List.isEmpty_iff]; exact h
  simp [iauth_close, hne]

theorem iauth_close_none (lim : Limits) (c : IAuth) (env : Env) (h : c.i_list_head ≠ []) :
    iauth_close lim c { iauth_active := [], env := env }
      = { iauth_active := [],
          env := (iauth_close_approve lim c.i_list_head.length c env).2 } := by
  have hne : ¬ c.i_list_head.isEmpty = true := by rw [List.isEmpty_iff]; exact h
  simp [iauth_close, hne]

theorem close_unused_loop_nil (lim : Limits) (fuel : Nat) (kept : List IAuth) (env : Env) :
    iauth_close_unused_loop lim fuel kept.length { iauth_active := kept, env := env }
      = { iauth_active := kept, env := env } := by
  cases fuel with
  | zero => rfl
  | succ f =>
    rw [iauth_close_unused_loop]
    have : kept.get? kept.length = none := by
      rw [List.get?_eq_getElem?]; simp
    simp only [this]

/-- The state that the loop of `iauth_close_unused` reaches from position
`kept.length` of a registry whose connections before that position are not
closing. -/
theorem close_unused_loop_inv (lim : Limits) : ∀ (fuel : Nat) (rest kept : List IAuth)
    (env : Env), (∀ c ∈ kept, c.i_flags.IAUTH_CLOSING = false) → rest.length ≤ fuel →
    (∀ c ∈ (iauth_close_unused_loop lim fuel kept.length
        { iauth_active := kept ++ rest, env := env }).iauth_active,
        c.i_flags.IAUTH_CLOSING = false)
    ∧ List.Forall₂ survives (kept ++ rest.filter (fun c => !c.i_flags.IAUTH_CLOSING))
        (iauth_close_unused_loop lim fuel kept.length
          { iauth_active := kept ++ rest, env := env }).iauth_active
    ∧ (∃ approved : List Nat,
        List.Perm (registry_requests (kept ++ rest))
          (registry_requests (iauth_close_unused_loop lim fuel kept.length
            { iauth_active := kept ++ rest, env := env }).iauth_active ++ approved)
        ∧ (iauth_close_unused_loop lim fuel kept.length
            { iauth_active := kept ++ rest, env := env }).env.trace
            = env.trace ++ approved.map (approval env)
        ∧ ∀ iar ∈ approved,
            ((iauth_close_unused_loop lim fuel kept.length
              { iauth_active := kept ++ rest, env := env }).env.clients
                (env.requests iar).iar_client).cli_iauth = none) := by
  intro fuel
  induction fuel with
  | zero =>
    intro rest kept env hk hf
    have hr : rest = [] := List.length_eq_zero.mp (Nat.le_zero.mp hf)
    subst hr
    simp only [List.append_nil, List.filter_nil, iauth_close_unused_loop]
    exact ⟨hk, forall₂_survives_refl kept, [], by simp, by simp, by simp⟩
  | succ f ih =>
    intro rest kept env hk hf
    cases rest with
    | nil =>
      simp only [List.append_nil, List.filter_nil, close_unused_loop_nil]
      exact ⟨hk, forall₂_survives_refl kept, [], by simp, by simp, by simp⟩
    | cons c rest =>
      have hf2 : rest.length ≤ f := by simpa using hf
      rw [iauth_close_unused_loop]
      simp only [close_unused_step_get, close_unused_step_erase]
      by_cases hc : c.i_flags.IAUTH_CLOSING = true
      · rw [if_pos hc]
        have hfilter : (c :: rest).filter (fun c => !c.i_flags.IAUTH_CLOSING)
            = rest.filter (fun c => !c.i_flags.IAUTH_CLOSING) := by
          simp [List.filter_cons, hc]
        rw [hfilter]
        by_cases hE : c.i_list_head = []
        · rw [iauth_close_empty lim c _ hE]
          have hrr : registry_requests (kept ++ c :: rest) = registry_requests (kept ++ rest) := by
            simp [registry_requests_append, registry_requests_cons, hE]
          rw [hrr]
          exact ih rest kept env hk hf2
        · cases kept with
          | cons k ks =>
            rw [List.cons_append, iauth_close_target lim c k (ks ++ rest) env hE]
            obtain ⟨s1, s2, s3, s4, s5, s6, s7⟩ := iauth_close_send_frame c.i_list_head
              { k with i_list_head := k.i_list_head ++ c.i_list_head } env
            generalize iauth_close_send c.i_list_head
              { k with i_list_head := k.i_list_head ++ c.i_list_head } env = r at s1 s2 s3 s4 s5 s6 s7
            simp only [] at s1 s2 s3 s4
            have hk2 : ∀ x ∈ r.1 :: ks, x.i_flags.IAUTH_CLOSING = false := by
              intro x hx
              rcases List.mem_cons.mp hx with h | h
              · rw [h, s4]; exact hk k (List.mem_cons_self _ _)
              · exact hk x (List.mem_cons_of_mem _ h)
            obtain ⟨i1, i2, approved, i3, i4, i5⟩ := ih rest (r.1 :: ks) r.2 hk2 hf2
            simp only [List.length_cons, List.cons_append] at i1 i2 i3 i4 i5 ⊢
            refine ⟨i1, forall₂_survives_head ⟨s2, s3, c.i_list_head, s1⟩ i2, approved, ?_, ?_, ?_⟩
            · refine List.Perm.trans ?_ i3
              simp only [registry_requests_cons, registry_requests_append, s1]
              have := perm_splice k.i_list_head c.i_list_head (registry_requests ks)
                (registry_requests rest)
              simpa [List.append_assoc] using this
            · rw [i4, s6, approval_congr env r.2 s5 s7]
            · intro iar hiar
              have := i5 iar hiar
              rw [s7] at this
              exact this
          | nil =>
            cases rest with
            | nil =>
              rw [List.append_nil, iauth_close_none lim c env hE]
              have hloop := close_unused_loop_nil lim f []
                (iauth_close_approve lim c.i_list_head.length c env).2
              simp only [List.length_nil] at hloop ⊢
              rw [hloop]
              obtain ⟨-, a2, -, a4, -⟩ := iauth_close_approve_effect lim c.i_list_head
                c.i_list_head.length c env rfl (Nat.le_refl _)
              refine ⟨by simp, by simp, c.i_list_head, ?_, ?_, ?_⟩
              · simp [registry_requests]
              · exact a2
              · intro iar hiar
                simp only []
                rw [a4 _ (List.mem_map_of_mem _ hiar)]
            | cons t rest =>
              rw [List.nil_append, iauth_close_target lim c t rest env hE]
              obtain ⟨s1, s2, s3, s4, s5, s6, s7⟩ := iauth_close_send_frame c.i_list_head
                { t with i_list_head := t.i_list_head ++ c.i_list_head } env
              generalize iauth_close_send c.i_list_head
                { t with i_list_head := t.i_list_head ++ c.i_list_head } env
                  = r at s1 s2 s3 s4 s5 s6 s7
              simp only [] at s1 s2 s3 s4
              have hf3 : (r.1 :: rest).length ≤ f := by simpa using hf2
              obtain ⟨i1, i2, approved, i3, i4, i5⟩ := ih (r.1 :: rest) [] r.2
                (by simp) hf3
              simp only [List.length_nil, List.nil_append] at i1 i2 i3 i4 i5 ⊢
              refine ⟨i1, ?_, approved, ?_, ?_, ?_⟩
              · by_cases ht : t.i_flags.IAUTH_CLOSING = true
                · have hr : r.1.i_flags.IAUTH_CLOSING = true := s4.trans ht
                  simpa [List.filter_cons, ht, hr] using i2
                · have ht2 : t.i_flags.IAUTH_CLOSING = false := by simpa using ht
                  have hr : r.1.i_flags.IAUTH_CLOSING = false := s4.trans ht2
                  simp only [List.filter_cons, ht2, hr, Bool.not_false, if_true] at i2 ⊢
                  exact forall₂_survives_head ⟨s2, s3, c.i_list_head, s1⟩ i2
              · refine List.Perm.trans ?_ i3
                simp only [registry_requests_cons, s1]
                rw [List.perm_iff_count]
                intro x
                simp only [List.count_append]
                omega
              · rw [i4, s6, approval_congr env r.2 s5 s7]
              · intro iar hiar
                have := i5 iar hiar
                rw [s7] at this
                exact this
      · have hc2 : c.i_flags.IAUTH_CLOSING = false := by simpa using hc
        rw [if_neg hc]
        have hk2 : ∀ x ∈ kept ++ [c], x.i_flags.IAUTH_CLOSING = false := by
          intro x hx
          rcases List.mem_append.mp hx with h | h
          · exact hk x h
          · rw [List.mem_singleton.mp h]; exact hc2
        have := ih rest (kept ++ [c]) env hk2 hf2
        simp only [List.length_append, List.length_singleton, List.append_assoc,
          List.singleton_append] at this
        simpa [List.filter_cons, hc2] using this

/-- C11. After `iauth_close_unused`, for every registry: no connection of
the registry is closing; the connections of the registry are, in order, the
connections that were not closing before, each with its host and port and
with a request list that starts with the list it had; and the requests that
were on the lists of the registry before are, as a multiset, those on the
lists of the registry afterwards together with a list `approved` of requests
for each of which, in order, the one `register_user` call for its client was
added to the calls made, and whose clients have the request back-pointer
cleared. -/
theorem close_unused_keeps_requests (lim : Limits) (w : World) :
    (∀ c ∈ (iauth_close_unused lim w).iauth_active, c.i_flags.IAUTH_CLOSING = false)
    ∧ List.Forall₂ survives (w.iauth_active.filter (fun c => !c.i_flags.IAUTH_CLOSING))
        (iauth_close_unused lim w).iauth_active
    ∧ (∃ approved : List Nat,
        List.Perm (registry_requests w.iauth_active)
          (registry_requests (iauth_close_unused lim w).iauth_active ++ approved)
        ∧ (iauth_close_unused lim w).env.trace = w.env.trace ++ approved.map (approval w.env)
        ∧ ∀ iar ∈ approved,
            ((iauth_close_unused lim w).env.clients
              (w.env.requests iar).iar_client).cli_iauth = none) := by
  have h := close_unused_loop_inv lim w.iauth_active.length w.iauth_active [] w.env
    (by simp) (Nat.le_refl _)
  simpa [iauth_close_unused] using h

/-- C18 (what the code does). In the run `reconnect_run` the request timer
is armed by the request 7 when it is first sent: after `iauth_start_client`
the timer is armed and request 7 is the one request with the arming flag.
The end of file leaves the timer armed; when the connection is established
again, `iauth_send_request` finds the timer armed and clears the flag of
request 7 (line 673). At the end of the run the timer is armed and no
request of the list has the arming flag. -/
theorem request_timer_unowned :
    reconnect_run_start.map timer_owners = some [(true, [7], [7])]
    ∧ reconnect_run.map timer_owners = some [(true, [7], [])] := by
  constructor <;> decide

/-! ## The splitter at the argument limit -/

theorem params_words_rest (M : Nat) (rest : List Char) (hne : rest ≠ [])
    (hsp : rest.head? ≠ some ' ') (hcol : rest.head? ≠ some ':') :
    ∀ (ps : List (List Char × Nat)) (fuel m argc : Nat),
    (∀ p ∈ ps, plain_param p.1) → argc + ps.length + 1 = M → ps.length < fuel →
    params M fuel (spaces m ++ words ps ++ rest) argc = ps.map Prod.fst ++ [rest] := by
  intro ps
  induction ps with
  | nil =>
    intro fuel m argc _ hM hf
    cases fuel with
    | zero => simp at hf
    | succ fuel =>
      have hd := dropWhile_spaces m rest hsp
      simp only [words, List.append_nil, List.length_nil, Nat.add_zero] at hM ⊢
      rw [params, if_pos ⟨by simp [hne], by omega⟩]
      simp only [hd]
      rw [if_neg hne, if_neg hcol, if_neg (by omega)]
      simp
  | cons a ps ih =>
    intro fuel m argc hplain hM hf
    obtain ⟨p, n⟩ := a
    have hp : plain_param p := hplain (p, n) (by simp)
    cases fuel with
    | zero => simp at hf
    | succ fuel =>
      simp only [List.length_cons] at hM hf
      have hshape : spaces m ++ words ((p, n) :: ps) ++ rest
          = spaces m ++ (p ++ (spaces (n + 1) ++ words ps ++ rest)) := by
        simp [words, List.append_assoc]
      obtain ⟨hh1, hh2, hh3⟩ := plain_head p hp (spaces (n + 1) ++ words ps ++ rest)
      have hd := dropWhile_spaces m _ hh1
      obtain ⟨ht1, ht2⟩ := takeWhile_plain p (spaces (n + 1) ++ words ps ++ rest) hp
        (Or.inr (by simp [spaces, List.replicate_succ]))
      rw [hshape, params, if_pos ⟨by simp [hp.1], by omega⟩]
      simp only [hd, ht1, ht2]
      rw [if_neg hh3, if_neg hh2, if_pos ⟨by simp [spaces, List.replicate_succ], by omega⟩]
      rw [ih fuel (n + 1) (argc + 1) (fun q hq => hplain q (List.mem_cons_of_mem _ hq))
        (by omega) (by omega)]
      simp

/-- C25 (amended). On a line without NUL byte that starts, after any leading spaces,
with `MAXPARA - 1` plain tokens, each followed by a run of spaces, and goes
on with a remainder that is not empty and starts neither with a space nor
with a colon, the splitter returns exactly `MAXPARA` arguments: the
`MAXPARA - 1` tokens and then the whole remainder up to the end of the line,
with its spaces and colons. This is so in particular when the remainder holds
further tokens. -/
theorem surplus_kept (M lead : Nat) (ps : List (List Char × Nat)) (rest : List Char)
    (hps : ∀ p ∈ ps, plain_param p.1) (hM : ps.length + 1 = M)
    (hne : rest ≠ []) (hsp : rest.head? ≠ some ' ') (hcol : rest.head? ≠ some ':')
    (hnul : NUL ∉ rest) :
    tokenize M (spaces lead ++ words ps ++ rest) = some (ps.map Prod.fst ++ [rest])
    ∧ (ps.map Prod.fst ++ [rest]).length = M
    ∧ ∀ (tok : List Char) (n : Nat) (more : List Char),
        rest = tok ++ spaces (n + 1) ++ more →
        tokenize M (spaces lead ++ words ps ++ rest)
          = some (ps.map Prod.fst ++ [tok ++ spaces (n + 1) ++ more]) := by
  have hnul2 : NUL ∉ spaces lead ++ words ps ++ rest := by
    simp only [List.mem_append, not_or]
    exact ⟨⟨NUL_not_mem_spaces _, NUL_not_mem_words ps hps⟩, hnul⟩
  have h1 : tokenize M (spaces lead ++ words ps ++ rest) = some (ps.map Prod.fst ++ [rest]) := by
    rw [tokenize_eq_params M _ hnul2,
      params_words_rest M rest hne hsp hcol ps _ lead 0 hps (by omega)]
    have := words_length ps
    simp only [List.length_append]
    omega
  refine ⟨h1, by simp [hM], fun tok n more h => ?_⟩
  rw [h1, h]

/-- C25 (amended) at `MAXPARA = 3`: the line `a b c d :e` has five tokens and
its third argument is `c d :e`. -/
theorem surplus_kept_witness :
    tokenize 3 (spaces 0 ++ words [("a".toList, 0), ("b".toList, 0)] ++ "c d :e".toList)
      = some ([("a".toList, 0), ("b".toList, 0)].map Prod.fst ++ ["c d :e".toList])
    ∧ spaces 0 ++ words [("a".toList, 0), ("b".toList, 0)] ++ "c d :e".toList
        = "a b c d :e".toList :=
  ⟨(surplus_kept 3 0 [("a".toList, 0), ("b".toList, 0)] "c d :e".toList
      (by decide) (by decide) (by decide) (by decide) (by decide) (by decide)).1, by decide⟩

/-- C25 as stated fails: with `MAXPARA = 3`, the line made of `a`, a NUL
byte and `x b c d` has four space-separated tokens and no colon, yet the loop
of line 528 stops at the NUL byte and the splitter returns the one argument
`a`, not three arguments. -/
theorem surplus_cut_at_NUL :
    tokenize 3 (['a', NUL, 'x'] ++ " b c d".toList) = some ["a".toList]
    ∧ (tokenize 3 (['a', NUL, 'x'] ++ " b c d".toList)).map List.length ≠ some 3
    ∧ tokenize 3 (['a', NUL, 'x'] ++ " b c d".toList)
        ≠ some [['a', NUL, 'x'], "b".toList, "c d".toList] := by
  refine ⟨by decide, by decide, by decide⟩

/-! ## Disposing a request -/

/-- C22. `iauth_dispose_request` for a request `r` on the list of the
connection `C`: the list afterwards is the list before without its first
`r`, one node shorter, which for a list of distinct nodes is the list of the
other requests in their order; the back-pointer of the client of `r` is
null and nothing else of any client changes; the request timer of `C` is
cancelled when `r` has its arming flag set and the timer is armed, and is
unchanged otherwise; the request nodes (so the arming flags of the other
requests), the calls made, the queue, the flags and every other field of `C`
are unchanged. -/
theorem dispose_request_frame (C : IAuth) (r : Nat) (env : Env) (hr : r ∈ C.i_list_head) :
    (iauth_dispose_request C r env).1.i_list_head = C.i_list_head.erase r
    ∧ (iauth_dispose_request C r env).1.i_list_head.length + 1 = C.i_list_head.length
    ∧ (C.i_list_head.Nodup →
        (iauth_dispose_request C r env).1.i_list_head
          = C.i_list_head.filter (fun x => x ≠ r))
    ∧ (iauth_dispose_request C r env).2.clients
        = Function.update env.clients (env.requests r).iar_client
            { env.clients (env.requests r).iar_client with cli_iauth := none }
    ∧ ((env.requests r).iar_timed = true ∧ C.i_request_timer.t_active = true →
        (iauth_dispose_request C r env).1.i_request_timer
          = { C.i_request_timer with t_active := false })
    ∧ (¬ ((env.requests r).iar_timed = true ∧ C.i_request_timer.t_active = true) →
        (iauth_dispose_request C r env).1.i_request_timer = C.i_request_timer)
    ∧ (iauth_dispose_request C r env).2.requests = env.requests
    ∧ (iauth_dispose_request C r env).2.trace = env.trace
    ∧ (iauth_dispose_request C r env).1.i_sendQ = C.i_sendQ
    ∧ (iauth_dispose_request C r env).1.i_flags = C.i_flags
    ∧ (iauth_dispose_request C r env).1
        = { C with i_list_head := (iauth_dispose_request C r env).1.i_list_head,
                   i_request_timer := (iauth_dispose_request C r env).1.i_request_timer } := by
  obtain ⟨h1, h2, h3, h4, h5⟩ := iauth_dispose_request_effect C r env
  refine ⟨h1, ?_, ?_, ?_, ?_, ?_, ?_, ?_, h4, h3, ?_⟩
  · rw [h1, List.length_erase_of_mem hr]
    have : 0 < C.i_list_head.length := List.length_pos_of_mem hr
    omega
  · intro hnd
    rw [h1, hnd.erase_eq_filter]
    congr 1
    funext x
    by_cases hx : x = r <;> simp [hx]
  · rw [h5]; rfl
  · intro h
    rw [h2, h.1, h.2]
    rfl
  · intro h
    rw [h2]
    split
    · rename_i hc
      simp only [Bool.and_eq_true] at hc
      exact absurd hc h
    · rfl
  · rw [h5]; rfl
  · rw [h5]; rfl
  · unfold iauth_dispose_request
    simp only []
    split <;> rfl

/-- C22 on the connection of scenario S1 holding the requests 9, 7 and 11,
with the timer armed by request 7. -/
theorem dispose_request_frame_witness :
    (iauth_dispose_request (S1_conn [9, 7, 11] true true) 7 (S1_env true [])).1.i_list_head
        = [9, 11]
    ∧ (iauth_dispose_request (S1_conn [9, 7, 11] true true) 7
        (S1_env true [])).1.i_request_timer.t_active = false
    ∧ ((iauth_dispose_request (S1_conn [9, 7, 11] true true) 7
        (S1_env true [])).2.clients 65280).cli_iauth = none :=
  ⟨(dispose_request_frame (S1_conn [9, 7, 11] true true) 7 (S1_env true [])
      (by decide)).1.trans (by decide), by decide, by decide⟩

/-! ## Reading in chunks -/

theorem copy_registers_self (i : IAuth) : copy_registers i i = i := rfl

theorem iauth_dispose_request_copy (src i : IAuth) (iar : Nat) (env : Env) :
    iauth_dispose_request (copy_registers src i) iar env
      = (copy_registers src (iauth_dispose_request i iar env).1,
         (iauth_dispose_request i iar env).2) := by
  unfold iauth_dispose_request copy_registers
  simp only []
  split <;> rfl

theorem iauth_cmd_doneauth_copy (lim : Limits) (src i : IAuth) (argv : List (List Char))
    (env : Env) :
    iauth_cmd_doneauth lim (copy_registers src i) argv env
      = (copy_registers src (iauth_cmd_doneauth lim i argv env).1,
         (iauth_cmd_doneauth lim i argv env).2) := by
  have hf : ∀ id, iauth_find_request lim (copy_registers src i) id env
      = iauth_find_request lim i id env := fun _ => rfl
  unfold iauth_cmd_doneauth
  split
  · rfl
  · simp only [hf]
    split
    · rfl
    · simp only [iauth_dispose_request_copy]

theorem iauth_cmd_badauth_copy (lim : Limits) (src i : IAuth) (argv : List (List Char))
    (env : Env) :
    iauth_cmd_badauth lim (copy_registers src i) argv env
      = (copy_registers src (iauth_cmd_badauth lim i argv env).1,
         (iauth_cmd_badauth lim i argv env).2) := by
  have hf : ∀ id, iauth_find_request lim (copy_registers src i) id env
      = iauth_find_request lim i id env := fun _ => rfl
  unfold iauth_cmd_badauth
  split
  · rfl
  · simp only [hf]
    split
    · rfl
    · split
      · rfl
      · simp only [iauth_dispose_request_copy]

theorem iauth_dispatch_copy (lim : Limits) (src i : IAuth) (argv : List (List Char))
    (env : Env) :
    iauth_dispatch lim (copy_registers src i) argv env
      = (copy_registers src (iauth_dispatch lim i argv env).1,
         (iauth_dispatch lim i argv env).2) := by
  have hdis : ∀ a : IAuth,
      (if (copy_registers src a).i_flags.IAUTH_ABORT = true
        then iauth_disconnect (copy_registers src a) else copy_registers src a)
      = copy_registers src (if a.i_flags.IAUTH_ABORT = true then iauth_disconnect a else a) := by
    intro a
    by_cases h : a.i_flags.IAUTH_ABORT = true
    · have h2 : (copy_registers src a).i_flags.IAUTH_ABORT = true := h
      rw [if_pos h, if_pos h2]; rfl
    · have h2 : ¬ (copy_registers src a).i_flags.IAUTH_ABORT = true := h
      rw [if_neg h, if_neg h2]
  unfold iauth_dispatch
  split
  · simp only [iauth_cmdtab, List.find?_cons]
    split
    · rename_i e he
      split at he
      · cases he
        simp only [iauth_cmd_doneauth_copy, hdis]
      · split at he
        · cases he
          simp only [iauth_cmd_badauth_copy, hdis]
        · simp at he
    · rfl
  · rfl

theorem count_dispatch_copy (lim : Limits) (src i : IAuth) (env : Env)
    (argv : List (List Char)) :
    count_dispatch lim (copy_registers src i, env) argv
      = (copy_registers src (count_dispatch lim (i, env) argv).1,
         (count_dispatch lim (i, env) argv).2) := by
  unfold count_dispatch
  exact iauth_dispatch_copy lim src { i with i_recvM := (i.i_recvM + 1) % 2 ^ 32 } argv env

theorem count_dispatch_fold_copy (lim : Limits) (src : IAuth) :
    ∀ (L : List (List (List Char))) (i : IAuth) (env : Env),
    L.foldl (count_dispatch lim) (copy_registers src i, env)
      = (copy_registers src (L.foldl (count_dispatch lim) (i, env)).1,
         (L.foldl (count_dispatch lim) (i, env)).2) := by
  intro L
  induction L with
  | nil => intro i env; rfl
  | cons argv L ih =>
    intro i env
    rw [List.foldl_cons, List.foldl_cons, count_dispatch_copy, ih]

/-- The loop of `iauth_read` always returns: it leaves in the buffer the line
that `read_lines` says, and the connection and environment are those reached
by counting and dispatching the argument vectors of `read_lines` in order. -/
theorem iauth_read_loop_lines (lim : Limits) :
    ∀ (chunk line : List Char) (iauth : IAuth) (env : Env),
    iauth_read_loop lim chunk line iauth env
      = some ((read_lines lim chunk line).2,
          ((read_lines lim chunk line).1.foldl (count_dispatch lim) (iauth, env)).1,
          ((read_lines lim chunk line).1.foldl (count_dispatch lim) (iauth, env)).2) := by
  intro chunk
  induction chunk with
  | nil => intro line iauth env; rfl
  | cons c cs ih =>
    intro line iauth env
    rw [iauth_read_loop, read_lines]
    by_cases hc : IsEol c = true
    · simp only [hc, if_true]
      cases hl : line.isEmpty with
      | true => simp only [if_true]; exact ih line iauth env
      | false =>
        obtain ⟨argv, htok, -⟩ := tokenize_total lim.MAXPARA line
        simp only [Bool.false_eq_true, if_false, htok, Option.getD_some, List.foldl_cons]
        exact ih [] _ _
    · simp only [hc, if_false]
      by_cases hlt : line.length < lim.BUFSIZE
      · simp only [if_pos hlt]; exact ih _ iauth env
      · simp only [if_neg hlt]; exact ih _ iauth env

theorem read_lines_append (lim : Limits) : ∀ (a b line : List Char),
    read_lines lim (a ++ b) line
      = ((read_lines lim a line).1 ++ (read_lines lim b (read_lines lim a line).2).1,
         (read_lines lim b (read_lines lim a line).2).2) := by
  intro a
  induction a with
  | nil => intro b line; simp [read_lines]
  | cons c cs ih =>
    intro b line
    rw [List.cons_append, read_lines, read_lines]
    by_cases hc : IsEol c = true
    · simp only [hc, if_true]
      cases hl : line.isEmpty with
      | true => simp only [if_true]; exact ih b line
      | false =>
        simp only [Bool.false_eq_true, if_false]
        rw [ih b []]
        simp
    · simp only [hc, if_false]
      by_cases hlt : line.length < lim.BUFSIZE
      · simp only [if_pos hlt]; exact ih b _
      · simp only [if_neg hlt]; exact ih b _

theorem count_received_copy (i : IAuth) (n : Nat) :
    count_received i n = copy_registers (count_received i n) i := by
  unfold count_received copy_registers
  simp only []
  split <;> rfl

/-- The registers after `count_received`, for a kilobyte register within its
32 bits. -/
theorem count_received_registers (i : IAuth) (n : Nat) (hK : i.i_recvK < 2 ^ 32) :
    (count_received i n).i_recvB = (i.i_recvB + n) % 2 ^ 16 % 1024
    ∧ (count_received i n).i_recvK = (i.i_recvK + (i.i_recvB + n) % 2 ^ 16 / 1024) % 2 ^ 32
    ∧ (count_received i n).i_sendM = i.i_sendM
    ∧ (count_received i n).i_sendK = i.i_sendK
    ∧ (count_received i n).i_sendB = i.i_sendB := by
  unfold count_received
  simp only []
  have e1 : ∀ b : Nat, b >>> 10 = b / 1024 := fun b => by rw [Nat.shiftRight_eq_div_pow]
  have e2 : ∀ b : Nat, b &&& 1023 = b % 1024 := fun b => by
    simpa using Nat.and_pow_two_sub_one_eq_mod b 10
  split
  · simp only [e1, e2]
    simp
  · rename_i h
    simp only []
    refine ⟨?_, ?_, trivial, trivial, trivial⟩ <;> omega

/-- A successful read, which is a read of at least one byte: the registers
are advanced by `count_received`, the lines of `read_lines` are counted and
dispatched, and the rest is left in the buffer. -/
theorem iauth_read_success (lim : Limits) (data : List Char) (attempt : ConnectAttempt)
    (iauth : IAuth) (env : Env) (hne : data ≠ []) (hwin : data.length ≤ lim.SERVER_TCP_WINDOW) :
    iauth_read lim IOResult.IO_SUCCESS data attempt iauth env
      = some
          (copy_registers
              (read_state iauth data.length
                (read_lines lim data (iauth.i_buffer.take iauth.i_count)).2)
              ((read_lines lim data (iauth.i_buffer.take iauth.i_count)).1.foldl
                (count_dispatch lim) (iauth, env)).1,
           ((read_lines lim data (iauth.i_buffer.take iauth.i_count)).1.foldl
              (count_dispatch lim) (iauth, env)).2) := by
  have hlen : data.length ≠ 0 := by
    cases data with
    | nil => exact absurd rfl hne
    | cons a b => simp
  unfold iauth_read
  simp only [if_true, List.take_of_length_le hwin]
  rw [if_neg (by simp [hlen]), iauth_read_loop_lines]
  have hb : (count_received iauth data.length).i_buffer = iauth.i_buffer :=
    (count_received_frame iauth data.length).2.2.2.1
  have hcnt : (count_received iauth data.length).i_count = iauth.i_count :=
    (count_received_frame iauth data.length).2.2.2.2
  rw [count_received_copy iauth data.length, count_dispatch_fold_copy]
  rfl

theorem copy_registers_copy (s1 s2 d : IAuth) :
    copy_registers s1 (copy_registers s2 d) = copy_registers s1 d := rfl

theorem copy_registers_congr (s1 s2 d : IAuth)
    (h1 : s1.i_recvK = s2.i_recvK) (h2 : s1.i_recvB = s2.i_recvB)
    (h3 : s1.i_sendM = s2.i_sendM) (h4 : s1.i_sendK = s2.i_sendK)
    (h5 : s1.i_sendB = s2.i_sendB) (h6 : s1.i_count = s2.i_count)
    (h7 : s1.i_buffer = s2.i_buffer) :
    copy_registers s1 d = copy_registers s2 d := by
  unfold copy_registers
  simp only [h1, h2, h3, h4, h5, h6, h7]


/-- C24. Chunk independence of `iauth_read`: when a read brings the bytes
`a` and the next read the bytes `b`, both non-empty, the connection and the
environment after the second read are exactly those after one read that
brings `a ++ b` (so the line buffer, the buffered count, the message counter
and the byte registers agree), the argument vectors dispatched by the two
reads are together those dispatched by the single read, in the same order,
and the environment is the one reached by counting and dispatching them. The
bytes register is below 1024 and the kilobyte register within its 32 bits at
the start, and `a ++ b` fits one read. -/
theorem chunk_independence (lim : Limits) (iauth : IAuth) (env : Env) (a b : List Char)
    (attempt : ConnectAttempt) (ha : a ≠ []) (hb : b ≠ [])
    (hwin : (a ++ b).length ≤ lim.SERVER_TCP_WINDOW)
    (hW : lim.SERVER_TCP_WINDOW + 1023 < 2 ^ 16)
    (hB : iauth.i_recvB < 1024) (hK : iauth.i_recvK < 2 ^ 32) :
    ∃ r1 r2 : IAuth × Env,
      iauth_read lim IOResult.IO_SUCCESS a attempt iauth env = some r1
      ∧ iauth_read lim IOResult.IO_SUCCESS b attempt r1.1 r1.2 = some r2
      ∧ iauth_read lim IOResult.IO_SUCCESS (a ++ b) attempt iauth env = some r2
      ∧ (read_lines lim (a ++ b) (iauth.i_buffer.take iauth.i_count)).1
          = (read_lines lim a (iauth.i_buffer.take iauth.i_count)).1
            ++ (read_lines lim b (r1.1.i_buffer.take r1.1.i_count)).1
      ∧ r2.2 = ((read_lines lim (a ++ b) (iauth.i_buffer.take iauth.i_count)).1.foldl
                  (count_dispatch lim) (iauth, env)).2
      ∧ r2.1.i_buffer = (read_lines lim (a ++ b) (iauth.i_buffer.take iauth.i_count)).2
      ∧ r2.1.i_count = r2.1.i_buffer.length := by
  have hla : a.length ≤ lim.SERVER_TCP_WINDOW := by
    simp only [List.length_append] at hwin; omega
  have hlb : b.length ≤ lim.SERVER_TCP_WINDOW := by
    simp only [List.length_append] at hwin; omega
  have hab : a ++ b ≠ [] := by simp [ha]
  have e1 := iauth_read_success lim a attempt iauth env ha hla
  have e12 := iauth_read_success lim (a ++ b) attempt iauth env hab hwin
  generalize iauth.i_buffer.take iauth.i_count = line0 at e1 e12 ⊢
  rw [read_lines_append lim a b line0] at e12 ⊢
  generalize read_lines lim a line0 = RA at e1 e12 ⊢
  simp only [List.foldl_append] at e12 ⊢
  generalize hF : RA.1.foldl (count_dispatch lim) (iauth, env) = F at e1 e12 ⊢
  have hbuf : (copy_registers (read_state iauth a.length RA.2) F.1).i_buffer.take
      (copy_registers (read_state iauth a.length RA.2) F.1).i_count = RA.2 := by
    show RA.2.take RA.2.length = RA.2
    exact List.take_length _
  refine ⟨_, _, e1, ?_, e12, ?_, rfl, rfl, rfl⟩
  · have e2 := iauth_read_success lim b attempt
      (copy_registers (read_state iauth a.length RA.2) F.1) F.2 hb hlb
    rw [hbuf, count_dispatch_fold_copy] at e2
    simp only [Prod.mk.eta, copy_registers_copy] at e2
    rw [e2]
    obtain ⟨a1, a2, a3, a4, a5⟩ := count_received_registers iauth a.length hK
    obtain ⟨c1, c2, c3, c4, c5⟩ := count_received_registers iauth (a ++ b).length hK
    have hK1 : (copy_registers (read_state iauth a.length RA.2) F.1).i_recvK < 2 ^ 32 := by
      show (count_received iauth a.length).i_recvK < 2 ^ 32
      rw [a2]
      exact Nat.mod_lt _ (by norm_num)
    obtain ⟨b1, b2, b3, b4, b5⟩ := count_received_registers
      (copy_registers (read_state iauth a.length RA.2) F.1) b.length hK1
    have q1 : (copy_registers (read_state iauth a.length RA.2) F.1).i_recvB
        = (count_received iauth a.length).i_recvB := rfl
    have q2 : (copy_registers (read_state iauth a.length RA.2) F.1).i_recvK
        = (count_received iauth a.length).i_recvK := rfl
    have q3 : (copy_registers (read_state iauth a.length RA.2) F.1).i_sendM
        = (count_received iauth a.length).i_sendM := rfl
    have q4 : (copy_registers (read_state iauth a.length RA.2) F.1).i_sendK
        = (count_received iauth a.length).i_sendK := rfl
    have q5 : (copy_registers (read_state iauth a.length RA.2) F.1).i_sendB
        = (count_received iauth a.length).i_sendB := rfl
    rw [q1, a1] at b1
    rw [q1, q2, a1, a2] at b2
    rw [q3, a3] at b3
    rw [q4, a4] at b4
    rw [q5, a5] at b5
    have hlen : (a ++ b).length = a.length + b.length := List.length_append _ _
    rw [hlen] at c1 c2 hwin
    have hcongr := copy_registers_congr
      (read_state (copy_registers (read_state iauth a.length RA.2) F.1) b.length
        (read_lines lim b RA.2).2)
      (read_state iauth (a ++ b).length (read_lines lim b RA.2).2)
      ((read_lines lim b RA.2).1.foldl (count_dispatch lim) F).1
      (by show (count_received _ b.length).i_recvK = (count_received iauth (a ++ b).length).i_recvK
          rw [b2, hlen, c2]; omega)
      (by show (count_received _ b.length).i_recvB = (count_received iauth (a ++ b).length).i_recvB
          rw [b1, hlen, c1]; omega)
      (by show (count_received _ b.length).i_sendM = (count_received iauth (a ++ b).length).i_sendM
          rw [b3, c3])
      (by show (count_received _ b.length).i_sendK = (count_received iauth (a ++ b).length).i_sendK
          rw [b4, c4])
      (by show (count_received _ b.length).i_sendB = (count_received iauth (a ++ b).length).i_sendB
          rw [b5, c5])
      rfl rfl
    rw [hcongr]
  · simp only [hbuf]

/-- C24 on scenario S1: the line `BadAuth ff00 :no` arrives as `BadAu`
and then `th ff00 :no` with its line feed; the two reads end in the state of
the single read, with the one `exit_client` call. -/
theorem chunk_independence_witness :
    ∃ r1 r2 : IAuth × Env,
      iauth_read ircu IOResult.IO_SUCCESS "BadAu".toList ConnectAttempt.started
          (S1_conn [7] true true) (S1_env true []) = some r1
      ∧ iauth_read ircu IOResult.IO_SUCCESS ("th ff00 :no".toList ++ [Char.ofNat 10])
          ConnectAttempt.started r1.1 r1.2 = some r2
      ∧ iauth_read ircu IOResult.IO_SUCCESS
          ("BadAu".toList ++ ("th ff00 :no".toList ++ [Char.ofNat 10]))
          ConnectAttempt.started (S1_conn [7] true true) (S1_env true []) = some r2
      ∧ r2.2.trace = [Ext.exit_client 65280 "no".toList] := by
  obtain ⟨r1, r2, h1, h2, h3, -, h5, -⟩ := chunk_independence ircu (S1_conn [7] true true)
    (S1_env true []) "BadAu".toList ("th ff00 :no".toList ++ [Char.ofNat 10])
    ConnectAttempt.started (by decide) (by decide) (by decide) (by decide) (by decide)
    (by decide)
  refine ⟨r1, r2, h1, h2, h3, ?_⟩
  rw [h5]
  decide

/-! ## The byte registers -/

theorem count_received_recvB_lt (i : IAuth) (n : Nat) : (count_received i n).i_recvB < 1024 := by
  unfold count_received
  simp only []
  have e2 : ∀ b : Nat, b &&& 1023 = b % 1024 := fun b => by
    simpa using Nat.and_pow_two_sub_one_eq_mod b 10
  split
  · simp only [e2]; omega
  · simp only []; omega

/-- The registers after `count_sent`: the bytes register ends below 1024, and
with a kilobyte register within its 32 bits the two registers are the sum of
the old bytes register and the count, cut to 16 bits, carried into the
kilobytes. -/
theorem count_sent_registers (i : IAuth) (n : Nat) :
    (count_sent i n).i_sendB < 1024
    ∧ (i.i_sendK < 2 ^ 32 →
        (count_sent i n).i_sendB = (i.i_sendB + n) % 2 ^ 16 % 1024
        ∧ (count_sent i n).i_sendK = (i.i_sendK + (i.i_sendB + n) % 2 ^ 16 / 1024) % 2 ^ 32)
    ∧ (count_sent i n).i_sendM = i.i_sendM
    ∧ (count_sent i n).i_recvM = i.i_recvM
    ∧ (count_sent i n).i_recvK = i.i_recvK
    ∧ (count_sent i n).i_recvB = i.i_recvB
    ∧ (count_sent i n).i_sendQ = i.i_sendQ
    ∧ (count_sent i n).i_flags = i.i_flags := by
  unfold count_sent
  simp only []
  have e1 : ∀ b : Nat, b >>> 10 = b / 1024 := fun b => by rw [Nat.shiftRight_eq_div_pow]
  have e2 : ∀ b : Nat, b &&& 1023 = b % 1024 := fun b => by
    simpa using Nat.and_pow_two_sub_one_eq_mod b 10
  split
  · simp only [e1, e2]
    refine ⟨by omega, fun _ => ⟨trivial, trivial⟩, trivial, trivial, trivial, trivial, trivial,
      trivial⟩
  · rename_i h
    simp only []
    refine ⟨by omega, fun hK => ⟨by omega, by omega⟩, trivial, trivial, trivial, trivial,
      trivial, trivial⟩

/-- The loop of `iauth_write`: the bytes register ends below 1024, the
receive registers and the sent-message counter are unchanged, and, with every
answer within the 16-bit register and no wrap of the kilobyte register, the
kilobytes and bytes sent have grown by the bytes the answers report. -/
theorem iauth_write_loop_registers : ∀ (os : List SendOutcome) (i : IAuth),
    i.i_sendB < 1024 →
    (iauth_write_loop os i).1.i_sendB < 1024
    ∧ (iauth_write_loop os i).1.i_sendM = i.i_sendM
    ∧ (iauth_write_loop os i).1.i_recvM = i.i_recvM
    ∧ (iauth_write_loop os i).1.i_recvK = i.i_recvK
    ∧ (iauth_write_loop os i).1.i_recvB = i.i_recvB
    ∧ ((∀ o ∈ os, o.bytes_sent + 1023 < 2 ^ 16) →
        i.i_sendK * 1024 + i.i_sendB + bytes_written os i.i_sendQ.length < 2 ^ 42 →
        (iauth_write_loop os i).1.i_sendK * 1024 + (iauth_write_loop os i).1.i_sendB
          = i.i_sendK * 1024 + i.i_sendB + bytes_written os i.i_sendQ.length) := by
  intro os
  induction os with
  | nil =>
    intro i hB
    rw [iauth_write_loop]
    have h0 : ∀ q, bytes_written [] q = 0 := fun q => by rw [bytes_written]
    split
    · exact ⟨hB, rfl, rfl, rfl, rfl, fun _ _ => by rw [h0, Nat.add_zero]⟩
    · exact ⟨hB, rfl, rfl, rfl, rfl, fun _ _ => by rw [h0, Nat.add_zero]⟩
  | cons o os ih =>
    intro i hB
    rw [iauth_write_loop, bytes_written]
    by_cases hq : i.i_sendQ.length > 0
    · simp only [if_pos hq]
      cases hres : o.iores with
      | IO_FAILURE =>
        exact ⟨hB, rfl, rfl, rfl, rfl, fun _ _ => by simp only [Nat.add_zero, iauth_disconnect]⟩
      | IO_BLOCKED =>
        exact ⟨hB, rfl, rfl, rfl, rfl, fun _ _ => by simp only [Nat.add_zero, iauth_disconnect]⟩
      | IO_SUCCESS =>
        simp only []
        obtain ⟨s1, s2, s3, s4, s5, s6, s7, s8⟩ := count_sent_registers
          { i with i_sendQ := msgq_delete i.i_sendQ o.bytes_sent } o.bytes_sent
        generalize count_sent { i with i_sendQ := msgq_delete i.i_sendQ o.bytes_sent }
          o.bytes_sent = sent at s1 s2 s3 s4 s5 s6 s7 s8 ⊢
        simp only [] at s2 s3 s4 s5 s6 s7
        have hstep : o.bytes_sent + 1023 < 2 ^ 16 →
            i.i_sendK * 1024 + i.i_sendB + o.bytes_sent < 2 ^ 42 →
            sent.i_sendK * 1024 + sent.i_sendB = i.i_sendK * 1024 + i.i_sendB + o.bytes_sent := by
          intro h16 h42
          obtain ⟨t1, t2⟩ := s2 (by omega)
          rw [t1, t2]
          omega
        by_cases htried : o.bytes_tried = o.bytes_sent
        · simp only [if_pos htried]
          obtain ⟨i1, i2, i3, i4, i5, i6⟩ := ih sent s1
          refine ⟨i1, i2.trans s3, i3.trans s4, i4.trans s5, i5.trans s6, ?_⟩
          intro hall h42
          have hlen : sent.i_sendQ.length = i.i_sendQ.length - o.bytes_sent := by
            rw [s7]; rfl
          rw [hlen] at i6
          have h16 := hall o (List.mem_cons_self _ _)
          have hs := hstep h16 (by omega)
          rw [i6 (fun x hx => hall x (List.mem_cons_of_mem _ hx)) (by omega), hs]
          omega
        · simp only [if_neg htried]
          refine ⟨s1, s3, s4, s5, s6, ?_⟩
          intro hall h42
          have h16 := hall o (List.mem_cons_self _ _)
          simpa using hstep h16 (by omega)
    · rw [if_neg hq, if_neg hq]
      exact ⟨hB, rfl, rfl, rfl, rfl, fun _ _ => by rw [Nat.add_zero]⟩

theorem count_received_send (i : IAuth) (n : Nat) :
    (count_received i n).i_sendM = i.i_sendM
    ∧ (count_received i n).i_sendK = i.i_sendK
    ∧ (count_received i n).i_sendB = i.i_sendB := by
  unfold count_received
  simp only []
  split <;> exact ⟨rfl, rfl, rfl⟩

/-- One step of traffic within the sizes the registers are made for. -/
theorem transfer_step (lim : Limits) (hW : lim.SERVER_TCP_WINDOW + 1023 < 2 ^ 16)
    (t : Transfer) (s : IAuth × Env) (hwf : well_sized lim t = true)
    (hsB : s.1.i_sendB < 1024) (hrB : s.1.i_recvB < 1024) :
    ∃ s', transfer lim t s = some s'
      ∧ s'.1.i_recvB < 1024 ∧ s'.1.i_sendB < 1024
      ∧ s'.1.i_sendM = s.1.i_sendM
      ∧ (s.1.i_recvK * 1024 + s.1.i_recvB + (transferred s t).1 < 2 ^ 42 →
          s'.1.i_recvK * 1024 + s'.1.i_recvB
            = s.1.i_recvK * 1024 + s.1.i_recvB + (transferred s t).1)
      ∧ (s.1.i_sendK * 1024 + s.1.i_sendB + (transferred s t).2 < 2 ^ 42 →
          s'.1.i_sendK * 1024 + s'.1.i_sendB
            = s.1.i_sendK * 1024 + s.1.i_sendB + (transferred s t).2) := by
  cases t with
  | read data =>
    simp only [well_sized, Bool.and_eq_true, Bool.not_eq_true', decide_eq_true_eq] at hwf
    have hne : data ≠ [] := by
      intro h; rw [h] at hwf; simp at hwf
    obtain ⟨m1, m2, m3⟩ := count_received_send s.1 data.length
    refine ⟨_, iauth_read_success lim data ConnectAttempt.started s.1 s.2 hne hwf.2,
      count_received_recvB_lt s.1 data.length, ?_, m1, ?_, ?_⟩
    · show (count_received s.1 data.length).i_sendB < 1024
      rw [m3]; exact hsB
    · intro h42
      simp only [transferred] at h42 ⊢
      obtain ⟨c1, c2, -⟩ := count_received_registers s.1 data.length (by omega)
      show (count_received s.1 data.length).i_recvK * 1024
          + (count_received s.1 data.length).i_recvB = _
      rw [c1, c2]
      omega
    · intro _
      simp only [transferred, Nat.add_zero]
      show (count_received s.1 data.length).i_sendK * 1024
          + (count_received s.1 data.length).i_sendB = _
      rw [m2, m3]
  | queue line =>
    exact ⟨_, rfl, hrB, hsB, rfl, fun _ => by simp only [transferred, Nat.add_zero]; rfl,
      fun _ => by simp only [transferred, Nat.add_zero]; rfl⟩
  | write answers =>
    simp only [well_sized, List.all_eq_true, decide_eq_true_eq] at hwf
    refine ⟨_, rfl, ?_⟩
    simp only [transferred, iauth_write]
    by_cases hb : s.1.i_flags.IAUTH_BLOCKED = true
    · simp only [if_pos hb, Nat.add_zero]
      exact ⟨hrB, hsB, trivial, fun _ => trivial, fun _ => trivial⟩
    · simp only [if_neg hb, Nat.add_zero]
      obtain ⟨w1, w2, -, w4, w5, w6⟩ := iauth_write_loop_registers answers s.1 hsB
      refine ⟨by rw [w5]; exact hrB, w1, w2, fun _ => by rw [w4, w5], fun h42 => w6 hwf h42⟩

/-- The byte registers over a sequence of traffic. For every sequence of
reads that bring between one and `SERVER_TCP_WINDOW` bytes, of lines handed
to `iauth_send` and of runs of `iauth_write` in which no answer reports more
than 64512 bytes sent, from any state whose bytes registers are below 1024:
the sequence runs to its end, the bytes registers end below 1024, the
register `i_sendM` is as it was, and in each direction, as long as the 32-bit
kilobyte register does not wrap, the kilobytes times 1024 plus the bytes have
grown by exactly the bytes transferred in that direction. Nothing is ever
carried from the kilobytes into `i_recvM` or `i_sendM`. -/
theorem byte_registers (lim : Limits) (hW : lim.SERVER_TCP_WINDOW + 1023 < 2 ^ 16) :
    ∀ (ts : List Transfer) (s : IAuth × Env),
    (∀ t ∈ ts, well_sized lim t = true) → s.1.i_recvB < 1024 → s.1.i_sendB < 1024 →
    ∃ r, transfers lim ts s = some r
      ∧ r.1.1.i_recvB < 1024 ∧ r.1.1.i_sendB < 1024
      ∧ r.1.1.i_sendM = s.1.i_sendM
      ∧ (s.1.i_recvK * 1024 + s.1.i_recvB + r.2.1 < 2 ^ 42 →
          r.1.1.i_recvK * 1024 + r.1.1.i_recvB = s.1.i_recvK * 1024 + s.1.i_recvB + r.2.1)
      ∧ (s.1.i_sendK * 1024 + s.1.i_sendB + r.2.2 < 2 ^ 42 →
          r.1.1.i_sendK * 1024 + r.1.1.i_sendB = s.1.i_sendK * 1024 + s.1.i_sendB + r.2.2) := by
  intro ts
  induction ts with
  | nil =>
    intro s _ hrB hsB
    exact ⟨(s, 0, 0), rfl, hrB, hsB, rfl, fun _ => by simp only [Nat.add_zero],
      fun _ => by simp only [Nat.add_zero]⟩
  | cons t ts ih =>
    intro s hwf hrB hsB
    obtain ⟨s', e1, p1, p2, p3, p4, p5⟩ := transfer_step lim hW t s
      (hwf t (List.mem_cons_self _ _)) hsB hrB
    obtain ⟨r, e2, q1, q2, q3, q4, q5⟩ := ih s'
      (fun x hx => hwf x (List.mem_cons_of_mem _ hx)) p1 p2
    refine ⟨(r.1, (transferred s t).1 + r.2.1, (transferred s t).2 + r.2.2), ?_, q1, q2,
      q3.trans p3, ?_, ?_⟩
    · rw [transfers, e1]
      simp only [Option.some_bind, e2, Option.map_some']
    · intro h
      simp only [] at h ⊢
      rw [q4 (by rw [p4 (by omega)]; omega), p4 (by omega)]
      omega
    · intro h
      simp only [] at h ⊢
      rw [q5 (by rw [p5 (by omega)]; omega), p5 (by omega)]
      omega

/-- The byte registers of a connection with zeroed registers after a read of
the two bytes `a` and line feed, the greeting handed to `iauth_send` and a
write that sends its 13 bytes: 2 bytes received and 13 bytes sent. -/
theorem byte_registers_witness :
    ∃ r, transfers ircu
        [Transfer.read ['a', Char.ofNat 10], Transfer.queue "Server srv1".toList,
          Transfer.write [sent_all 13]]
        (S1_conn [] true false, S1_env false []) = some r
      ∧ r.1.1.i_recvB < 1024 ∧ r.1.1.i_sendB < 1024
      ∧ r.1.1.i_sendM = (S1_conn [] true false).i_sendM
      ∧ r.2 = (2, 13)
      ∧ r.1.1.i_recvK * 1024 + r.1.1.i_recvB = 2
      ∧ r.1.1.i_sendK * 1024 + r.1.1.i_sendB = 13 := by
  obtain ⟨r, h1, h2, h3, h4, h5, h6⟩ := byte_registers ircu (by decide)
    [Transfer.read ['a', Char.ofNat 10], Transfer.queue "Server srv1".toList,
      Transfer.write [sent_all 13]]
    (S1_conn [] true false, S1_env false []) (by decide) (by decide) (by decide)
  have ht : r.2 = (2, 13) := by
    have h := congrArg (Option.map (fun x : (IAuth × Env) × Nat × Nat => x.2)) h1
    have hv : Option.map (fun x : (IAuth × Env) × Nat × Nat => x.2)
        (transfers ircu
          [Transfer.read ['a', Char.ofNat 10], Transfer.queue "Server srv1".toList,
            Transfer.write [sent_all 13]]
          (S1_conn [] true false, S1_env false [])) = some (2, 13) := by decide
    rw [hv] at h
    exact (Option.some.inj h).symm
  have e1 : r.2.1 = 2 := by rw [ht]
  have e2 : r.2.2 = 13 := by rw [ht]
  rw [e1] at h5
  rw [e2] at h6
  exact ⟨r, h1, h2, h3, h4, ht, h5 (by decide), h6 (by decide)⟩

/-- C21 (what the code does). After a read of the two bytes `a` and line
feed on a connection with zeroed registers, the register `i_recvM`, which the
accessor comment of line 157 calls the received megabytes, is 1: line 543
advances it once per line. With `i_recvK` 0 and `i_recvB` 2, the sum
`i_recvM * 2^20 + i_recvK * 2^10 + i_recvB` is 1048578, not the 2 bytes
received. And on a connection that has received 1048575 bytes without a
line (`i_recvK` and `i_recvB` both 1023), a read of the two bytes `ab` leaves
`i_recvM` 0 and `i_recvK` 1024: nothing is carried into `i_recvM`, and
`i_recvK` is not kept modulo 1024 as the accessor comment of line 155 says. -/
theorem megabytes_are_messages :
    (iauth_read ircu IOResult.IO_SUCCESS ['a', Char.ofNat 10] ConnectAttempt.started
        (S1_conn [] true false) (S1_env false [])).map
      (fun r => (r.1.i_recvM, r.1.i_recvK, r.1.i_recvB)) = some (1, 0, 2)
    ∧ (iauth_read ircu IOResult.IO_SUCCESS ['a', Char.ofNat 10] ConnectAttempt.started
        (S1_conn [] true false) (S1_env false [])).map
      (fun r => r.1.i_recvM * 2 ^ 20 + r.1.i_recvK * 2 ^ 10 + r.1.i_recvB) ≠ some 2
    ∧ (iauth_read ircu IOResult.IO_SUCCESS ['a', 'b'] ConnectAttempt.started
        { S1_conn [] true false with i_recvK := 1023, i_recvB := 1023 } (S1_env false [])).map
      (fun r => (r.1.i_recvM, r.1.i_recvK, r.1.i_recvB)) = some (0, 1024, 1) := by
  refine ⟨by decide, by decide, by decide⟩

/-- C23 (what the code does). A connection with zeroed registers and 70000
bytes queued, for which `os_sendv_nonb` reports 65536 bytes sent: the queue
shrinks by the 65536 bytes, but the sum of line 578 is cut to the 16 bits of
`i_sendB`, so `i_sendK` and `i_sendB` are both still 0 afterwards and the 64
kilobytes are not counted. -/
theorem sent_kilobytes_lost :
    ((iauth_write
        { S1_conn [] true false with i_sendQ := { length := 70000, added := [] } }
        (S1_env false [{ iores := IOResult.IO_SUCCESS, bytes_tried := 65536,
                         bytes_sent := 65536 }])).1.i_sendQ.length = 70000 - 65536)
    ∧ (iauth_write
        { S1_conn [] true false with i_sendQ := { length := 70000, added := [] } }
        (S1_env false [{ iores := IOResult.IO_SUCCESS, bytes_tried := 65536,
                         bytes_sent := 65536 }])).1.i_sendK = 0
    ∧ (iauth_write
        { S1_conn [] true false with i_sendQ := { length := 70000, added := [] } }
        (S1_env false [{ iores := IOResult.IO_SUCCESS, bytes_tried := 65536,
                         bytes_sent := 65536 }])).1.i_sendB = 0 := by
  refine ⟨by decide, by decide, by decide⟩

end Ircd
